import Mathlib

/-!
Grit engine core: interpolation table and streaming scheduler

A shallow embedding of `grit_core/src/SplineTable.h` and
`grit_core/src/Streamer.c++`, followed by theorems about the embedded code.

* `SplineTable<T>` is embedded over an arbitrary linearly ordered field `T`
  (exact arithmetic); `std::map<T,T>` is an association list in ascending key
  order, with the insert-on-read behaviour of `operator[]`.
* `Streamer` is embedded as a record of its member containers; the methods of
  `GritObject`, whose code is outside the two embedded files, are parameters
  (`Hooks`).
-/

namespace Grit

/-! ## `std::map<T,T>` -/

section MapModel

variable {T : Type} [LinearOrderedField T]

/-- The `std::map<T,T>` container: key/value pairs in ascending key order. -/
abbrev Map (T : Type) := List (T × T)

/-- The assignment `m[k] = v`: overwrites the entry at `k`, or inserts it at
its place in the key order. -/
def mapAssign : Map T → T → T → Map T
  | [], k, v => [(k, v)]
  | (k', v') :: m, k, v =>
    if k' < k then (k', v') :: mapAssign m k v
    else if k' = k then (k, v) :: m
    else (k, v) :: (k', v') :: m

/-- The lookup `m.find(k)`: the value stored at `k`, if any. -/
def mapFind : Map T → T → Option T
  | [], _ => none
  | (k', v') :: m, k => if k' = k then some v' else mapFind m k

/-- The read `m[k]`: the stored value; a missing key is first inserted with
the value-initialised `T()`, which is `0`. Returns the value and the map. -/
def mapIndex (m : Map T) (k : T) : T × Map T :=
  match mapFind m k with
  | some v => (v, m)
  | none => (0, mapAssign m k 0)

/-- The keys of a map, in iteration order. -/
def mapKeys (m : Map T) : List T := m.map Prod.fst

/-- The ordering invariant of `std::map`: keys strictly ascending. -/
def MapSorted (m : Map T) : Prop := m.Pairwise (fun a b => a.1 < b.1)

end MapModel

/-! ## `SplineTable<T>` -/

section SplineModel

variable {T : Type} [LinearOrderedField T]

/-- The two member maps of `SplineTable<T>`. -/
structure SplineTable (T : Type) where
  points : Map T
  tangents : Map T

/-- A default-constructed table: both maps empty. -/
def SplineTable.empty : SplineTable T := ⟨[], []⟩

/-- `SplineTable::addPoint` (SplineTable.h 33-36): `points[x] = y`. -/
def SplineTable.addPoint (st : SplineTable T) (x y : T) : SplineTable T :=
  { st with points := mapAssign st.points x y }

/-- The quotient `(nexty-lasty)/(nextx-lastx)` that `commit` stores. -/
def slope (last next : T × T) : T := (next.2 - last.2) / (next.1 - last.1)

/-- The `for` loop of `commit`: three iterators `last`, `curr`, `next` one
step apart advance together until `next` reaches `points.end()`; the first
argument is the range starting at `last`. -/
def commitLoop : List (T × T) → Map T → Map T
  | last :: curr :: next :: rest, tg =>
    commitLoop (curr :: next :: rest) (mapAssign tg curr.1 (slope last next))
  | _, tg => tg

/-- `SplineTable::commit` (SplineTable.h 38-83). -/
def SplineTable.commit (st : SplineTable T) : SplineTable T :=
  match st.points with
  | [] => st
  | [p] => { st with tangents := mapAssign st.tangents p.1 0 }
  | [last, next] =>
    { st with tangents :=
        mapAssign (mapAssign st.tangents next.1 (slope last next)) last.1 (slope last next) }
  | p0 :: p1 :: p2 :: rest =>
    let tg1 := mapAssign st.tangents p0.1 (slope p0 p1)
    let tg2 := commitLoop (p0 :: p1 :: p2 :: rest) tg1
    match (p0 :: p1 :: p2 :: rest).drop ((p0 :: p1 :: p2 :: rest).length - 2) with
    | [last, next] => { st with tangents := mapAssign tg2 next.1 (slope last next) }
    | _ => { st with tangents := tg2 }

/-- What a call of `operator[]` does: return a value, read the uninitialised
locals `x0`, `y0`, or reach `abort()`. -/
inductive EvalResult (T : Type) where
  | value (r : T)
  | uninitialised
  | aborted
  deriving DecidableEq

/-- The cubic Hermite sum accumulated in `r`. -/
def hermite (x x0 y0 x1 y1 m0 m1 : T) : T :=
  let h := x1 - x0
  let t := (x - x0) / h
  0 + (1 + 2 * t) * (1 - t) * (1 - t) * y0
    + t * (1 - t) * (1 - t) * h * m0
    + t * t * (3 - 2 * t) * y1
    + t * t * (t - 1) * h * m1

/-- The scan loop of `operator[]` over the remaining range of `points`;
`prev` is `none` while `x0`, `y0` are still uninitialised. Returns the result
and the `tangents` map after the reads `tangents[x0]`, `tangents[x1]`. -/
def scan : List (T × T) → Option (T × T) → T → Map T → EvalResult T × Map T
  | [], _, _, tg => (EvalResult.aborted, tg)
  | (k, v) :: rest, prev, x, tg =>
    if k > x then
      match prev with
      | none => (EvalResult.uninitialised, tg)
      | some (x0, y0) =>
        let r0 := mapIndex tg x0
        let r1 := mapIndex r0.2 k
        (EvalResult.value (hermite x x0 y0 k v r0.1 r1.1), r1.2)
    else scan rest (some (k, v)) x tg

/-- `SplineTable::minX`: the first key (only called on a non-empty map). -/
def minX (p : T × T) (_rest : List (T × T)) : T := p.1

/-- `SplineTable::maxX`: the last key (only called on a non-empty map). -/
def maxX (p : T × T) (rest : List (T × T)) : T := ((p :: rest).getLast (by simp)).1

/-- `SplineTable::operator[]` (SplineTable.h 96-134): the result and the table
after the call (the reads through `std::map::operator[]` can insert entries). -/
def SplineTable.evaluate (st : SplineTable T) (x : T) : EvalResult T × SplineTable T :=
  match st.points with
  | [] => (EvalResult.value 0, st)
  | [p] => (EvalResult.value p.2, st)
  | p :: q :: rest =>
    let minx := minX p (q :: rest)
    let maxx := maxX p (q :: rest)
    if x ≤ minx then
      let pv := mapIndex st.points minx
      let tv := mapIndex st.tangents minx
      (EvalResult.value (pv.1 + (x - minx) * tv.1), ⟨pv.2, tv.2⟩)
    else if x ≥ maxx then
      let pv := mapIndex st.points maxx
      let tv := mapIndex st.tangents maxx
      (EvalResult.value (pv.1 + (x - maxx) * tv.1), ⟨pv.2, tv.2⟩)
    else
      let r := scan st.points none x st.tangents
      (r.1, { st with tangents := r.2 })

/-- The table after a sequence of `addPoint` calls on a fresh table. -/
def build (calls : List (T × T)) : SplineTable T :=
  calls.foldl (fun st p => st.addPoint p.1 p.2) SplineTable.empty

/-- The tables a client can obtain: a fresh table and whatever `addPoint`,
`commit` and `operator[]` make of a reachable table. -/
inductive Reachable : SplineTable T → Prop
  | empty : Reachable SplineTable.empty
  | addPoint (st : SplineTable T) (x y : T) : Reachable st → Reachable (st.addPoint x y)
  | commit (st : SplineTable T) : Reachable st → Reachable st.commit
  | evaluate (st : SplineTable T) (x : T) : Reachable st → Reachable (st.evaluate x).2

/-- The representation invariant of a reachable table: both maps are ordered
and every key of `tangents` is a key of `points`. -/
def WellFormed (st : SplineTable T) : Prop :=
  MapSorted st.points ∧ MapSorted st.tangents ∧
    ∀ k, k ∈ mapKeys st.tangents → k ∈ mapKeys st.points

end SplineModel


/-! ## `Streamer` -/

section StreamerModel

variable {Obj Cls G : Type} [DecidableEq Obj]

/-- The member data of `Streamer` that `Streamer.c++` reads and writes.
`gObjs` is the `GObjMap` from names to objects (an association list with at
most one entry per name; the iteration order of the `std::map` is not
modelled); `fresh`, `loaded`, `activated`, `needFrameCallbacks` are the
`GObjPtrs` vectors; `gfx` and `physics` are the two handles, `none` when
null. -/
structure Streamer (Obj : Type) where
  gObjs : List (String × Obj)
  fresh : List Obj
  loaded : List Obj
  activated : List Obj
  needFrameCallbacks : List Obj
  gfx : Option Nat
  physics : Option Nat
  nameGenerationCounter : Nat
  visibility : ℚ
  prepareDistanceFactor : ℚ
  fadeOverlapFactor : ℚ
  stepSize : ℚ

/-- The exception codes raised through `OGRE_EXCEPT` in `Streamer.c++`. -/
inductive OgreError where
  | ERR_INTERNAL_ERROR
  | ERR_ITEM_NOT_FOUND
  | ERR_DUPLICATE_ITEM
  deriving DecidableEq

/-- How a call ends: it returns, it throws, or it does not return (a loop
ran out of the fuel given to it, or a vector was read out of bounds). -/
inductive Outcome (α : Type) where
  | ok (a : α)
  | threw (e : OgreError)
  | diverged
  deriving DecidableEq

/-- The calls `Streamer.c++` makes on objects, as recorded in the trace of a
run; `evictionCheck o` is the eviction loop taking up `loaded[i] = o`,
`candidate o` the load-and-activation loop taking up `*i = o`. -/
inductive Event (Obj : Type) where
  | destroy (o : Obj)
  | notifyRange2 (o : Obj) (range2 : ℚ)
  | deactivate (o : Obj)
  | evictionCheck (o : Obj)
  | tryUnloadResources (o : Obj)
  | candidate (o : Obj)
  | queueBGPrepare (o : Obj)
  | activate (o : Obj)
  deriving DecidableEq

/-- The code outside `Streamer.c++` that it calls: the methods of
`GritObject`, of the `Space` member `rs` and of `BackgroundMeshLoader`. `G`
is the state these own (the objects' fields, the spatial index, the loader,
the script state). The calls that can run script callbacks (`destroy`,
`deactivate`, `activate`, `notifyRange2`) act on the streamer as well, since
such a callback can re-enter it. -/
structure Hooks (Obj Cls G : Type) where
  name : Obj → String
  create : String → Cls → G → Obj × G
  destroy : Obj → Streamer Obj × G → Streamer Obj × G
  deactivate : Obj → Streamer Obj × G → Bool × (Streamer Obj × G)
  activate : Obj → Streamer Obj × G → Streamer Obj × G
  notifyRange2 : Obj → ℚ → Streamer Obj × G → Streamer Obj × G
  isActivated : G → Obj → Bool
  getFar : G → Obj → Option Obj
  getNear : G → Obj → Option Obj
  getClassIsNull : G → Obj → Bool
  range2 : G → Obj → ℚ → ℚ → ℚ → ℚ
  withinRange : G → Obj → ℚ → ℚ → ℚ → ℚ → Bool
  queueBGPrepare : Obj → ℚ → ℚ → ℚ → G → Bool × G
  backgroundPrepareComplete : G → Obj → Bool
  tryUnloadResources : Obj → G → G
  rsAdd : Obj → G → G
  rsRemove : Obj → G → G
  getPresent : G → ℚ → ℚ → ℚ → ℚ → ℚ → List Obj → List Obj
  handleBastards : G → G
  checkGPUUsage : G → G

/-- A streamer with empty containers and null handles, with the given
settings. -/
def Streamer.initial (visibility prepareDistanceFactor fadeOverlapFactor stepSize : ℚ) :
    Streamer Obj :=
  { gObjs := [], fresh := [], loaded := [], activated := [], needFrameCallbacks := [],
    gfx := none, physics := none, nameGenerationCounter := 0,
    visibility := visibility, prepareDistanceFactor := prepareDistanceFactor,
    fadeOverlapFactor := fadeOverlapFactor, stepSize := stepSize }

/-- The object an event of the eviction loop takes up, if it is one. -/
def Event.checked : Event Obj → Option Obj
  | Event.evictionCheck o => some o
  | _ => none

/-- The object a `tryUnloadResources` event is a call on, if it is one. -/
def Event.unloaded : Event Obj → Option Obj
  | Event.tryUnloadResources o => some o
  | _ => none

/-- The state of a run: the streamer, the state owned by the code outside
it, and the calls made so far. -/
structure State (Obj G : Type) where
  s : Streamer Obj
  g : G
  trace : List (Event Obj)

/-- Make a call that can re-enter the streamer, recording it. -/
def State.call (st : State Obj G) (e : Event Obj)
    (f : Streamer Obj × G → Streamer Obj × G) : State Obj G :=
  ⟨(f (st.s, st.g)).1, (f (st.s, st.g)).2, st.trace ++ [e]⟩

/-- Make a call that only touches the state outside the streamer, recording it. -/
def State.callG (st : State Obj G) (e : Event Obj) (f : G → G) : State Obj G :=
  ⟨st.s, f st.g, st.trace ++ [e]⟩

/-- The statements `v[i] = v[j]; v.pop_back();` on a vector. -/
def swapPop (v : List Obj) (i j : Nat) : List Obj :=
  match v[j]? with
  | some last => (v.set i last).dropLast
  | none => v

/-- The static function `remove_if_exists` (Streamer.c++ 194-202). -/
def remove_if_exists (list : List Obj) (o : Obj) : List Obj :=
  let offset := list.indexOf o
  if offset < list.length then swapPop list offset (list.length - 1) else list

/-- `Streamer::list` (Streamer.c++ 364-372); the flag is what
`o->getNeedsFrameCallbacks()` returns. -/
def Streamer.list (s : Streamer Obj) (o : Obj) (getNeedsFrameCallbacks : Bool) :
    Streamer Obj :=
  if s.activated.indexOf o < s.activated.length then s
  else if getNeedsFrameCallbacks then
    { s with activated := s.activated ++ [o],
             needFrameCallbacks := s.needFrameCallbacks ++ [o] }
  else { s with activated := s.activated ++ [o] }

/-- `Streamer::unlist` (Streamer.c++ 374-384); the flag is what
`o->getNeedsFrameCallbacks()` returns. -/
def Streamer.unlist (s : Streamer Obj) (o : Obj) (getNeedsFrameCallbacks : Bool) :
    Streamer Obj :=
  let index := s.activated.indexOf o
  if index < s.activated.length then
    if getNeedsFrameCallbacks then
      { s with activated := swapPop s.activated index (s.activated.length - 1),
               needFrameCallbacks := remove_if_exists s.needFrameCallbacks o }
    else { s with activated := swapPop s.activated index (s.activated.length - 1) }
  else s

/-- `Streamer::setNeedsFrameCallbacks` (Streamer.c++ 225-232); `isActivated` is
what `ptr->isActivated()` returns. -/
def Streamer.setNeedsFrameCallbacks (s : Streamer Obj) (ptr : Obj) (v : Bool)
    (isActivated : Bool) : Streamer Obj :=
  let l := remove_if_exists s.needFrameCallbacks ptr
  if v && isActivated then { s with needFrameCallbacks := l ++ [ptr] }
  else { s with needFrameCallbacks := l }

/-- A call of one of the three membership operations, with the values the
object's flags have when the call reads them. -/
inductive Call (Obj : Type) where
  | list (o : Obj) (getNeedsFrameCallbacks : Bool)
  | unlist (o : Obj) (getNeedsFrameCallbacks : Bool)
  | setNeedsFrameCallbacks (ptr : Obj) (v : Bool) (isActivated : Bool)

/-- Perform one membership call. -/
def Streamer.step (s : Streamer Obj) : Call Obj → Streamer Obj
  | Call.list o f => s.list o f
  | Call.unlist o f => s.unlist o f
  | Call.setNeedsFrameCallbacks o v a => s.setNeedsFrameCallbacks o v a

/-- Perform a sequence of membership calls. -/
def Streamer.run (s : Streamer Obj) (calls : List (Call Obj)) : Streamer Obj :=
  calls.foldl Streamer.step s

/-- The flags a call reads agree with the sets: `unlist(o)` finds the
wants-frame-callback flag set when `o` is in `needFrameCallbacks`, and
`setNeedsFrameCallbacks(o, true)` finds `o` activated only when `o` is in
`activated`. -/
def Call.Agrees (s : Streamer Obj) : Call Obj → Prop
  | Call.list _ _ => True
  | Call.unlist o f => o ∈ s.needFrameCallbacks → f = true
  | Call.setNeedsFrameCallbacks o v a => v = true → a = true → o ∈ s.activated

/-- Agreement of a call with the sets is decidable. -/
instance Call.decidableAgrees (s : Streamer Obj) : (c : Call Obj) → Decidable (Call.Agrees s c)
  | Call.list _ _ => isTrue trivial
  | Call.unlist o f =>
    if h1 : o ∈ s.needFrameCallbacks then
      if h2 : f = true then isTrue (fun _ => h2) else isFalse (fun h => h2 (h h1))
    else isTrue (fun h => absurd h h1)
  | Call.setNeedsFrameCallbacks o v a =>
    if h1 : o ∈ s.activated then isTrue (fun _ _ => h1)
    else if h2 : v = true then
      if h3 : a = true then isFalse (fun h => h1 (h h2 h3)) else isTrue (fun _ h => absurd h h3)
    else isTrue (fun h => absurd h h2)

/-- Every call of the sequence agrees with the sets it is made on. -/
def RunAgrees : Streamer Obj → List (Call Obj) → Prop
  | _, [] => True
  | s, c :: calls => Call.Agrees s c ∧ RunAgrees (s.step c) calls

/-- Agreement of a sequence of calls is decidable. -/
instance RunAgrees.decidable : (s : Streamer Obj) → (calls : List (Call Obj)) →
    Decidable (RunAgrees s calls)
  | _, [] => isTrue trivial
  | s, c :: calls =>
    match Call.decidableAgrees s c, RunAgrees.decidable (s.step c) calls with
    | isTrue h1, isTrue h2 => isTrue ⟨h1, h2⟩
    | isFalse h1, _ => isFalse (fun h => h1 h.1)
    | _, isFalse h2 => isFalse (fun h => h2 h.2)

/-- The invariant of the two activation vectors: no repetitions, and every
frame-callback subscriber is activated. -/
def SetsInv (s : Streamer Obj) : Prop :=
  s.activated.Nodup ∧ s.needFrameCallbacks.Nodup ∧
    ∀ o, o ∈ s.needFrameCallbacks → o ∈ s.activated

/-- The lookup `gObjs.find(name)`. -/
def gObjsFind : List (String × Obj) → String → Option Obj
  | [], _ => none
  | (n, o) :: m, name => if n = name then some o else gObjsFind m name

/-- The removal `gObjs.erase(name)`. -/
def gObjsErase (m : List (String × Obj)) (name : String) : List (String × Obj) :=
  m.filter (fun p => p.1 ≠ name)

/-- The assignment `gObjs[name] = self`. -/
def gObjsAssign : List (String × Obj) → String → Obj → List (String × Obj)
  | [], name, self => [(name, self)]
  | (n, o) :: m, name, self =>
    if n = name then (name, self) :: m else (n, o) :: gObjsAssign m name self

/-- `Streamer::eraseObject` (Streamer.c++ 183-192). -/
def eraseObject (name : String) (st : State Obj G) : Outcome Unit × State Obj G :=
  match gObjsFind st.s.gObjs name with
  | none => (Outcome.threw OgreError.ERR_DUPLICATE_ITEM, st)
  | some _ => (Outcome.ok (), { st with s := { st.s with gObjs := gObjsErase st.s.gObjs name } })

/-- The removals of `Streamer::deleteObject` that follow the `destroy` call:
`rs.remove(o)` and the two `remove_if_exists` calls. -/
def purge (h : Hooks Obj Cls G) (o : Obj) (st : State Obj G) : State Obj G :=
  { st with
    s := { st.s with fresh := remove_if_exists st.s.fresh o,
                     needFrameCallbacks := remove_if_exists st.s.needFrameCallbacks o },
    g := h.rsRemove o st.g }

/-- `Streamer::deleteObject` (Streamer.c++ 204-211). -/
def deleteObject (h : Hooks Obj Cls G) (o : Obj) (st : State Obj G) :
    Outcome Unit × State Obj G :=
  eraseObject (h.name o) (purge h o (st.call (Event.destroy o) (h.destroy o)))

/-- The name the generation loop of `addObject` tries for a counter value. -/
def unnamed (k : Nat) : String := "Unnamed:" ++ toString k

/-- The value of a decimal digit character. -/
def digitValue (c : Char) : Nat := c.toNat - 48

/-- Read decimal digit characters, most significant first, onto `acc`. -/
def readDigits (acc : Nat) (cs : List Char) : Nat :=
  cs.foldl (fun a c => 10 * a + digitValue c) acc

/-- The `do ... while` loop of `addObject`: returns the first generated name
that is not a key of `gObjs`, and the counter after it; `none` when the fuel
runs out first. -/
def generateName (gObjs : List (String × Obj)) : Nat → Nat → Option (String × Nat)
  | 0, _ => none
  | fuel + 1, counter =>
    if (gObjsFind gObjs (unnamed counter)).isSome then generateName gObjs fuel (counter + 1)
    else some (unnamed counter, counter + 1)

/-- The part of `Streamer::addObject` after the name is settled
(Streamer.c++ 152-163). -/
def insertObject (h : Hooks Obj Cls G) (name : String) (grit_class : Cls)
    (st : State Obj G) : Outcome Obj × State Obj G :=
  let r := match gObjsFind st.s.gObjs name with
    | some old => deleteObject h old st
    | none => (Outcome.ok (), st)
  match r with
  | (Outcome.ok (), st1) =>
    let c := h.create name grit_class st1.g
    (Outcome.ok c.1,
      { st1 with
        s := { st1.s with gObjs := gObjsAssign st1.s.gObjs name c.1,
                          fresh := st1.s.fresh ++ [c.1] },
        g := h.rsAdd c.1 c.2 })
  | (Outcome.threw e, st1) => (Outcome.threw e, st1)
  | (Outcome.diverged, st1) => (Outcome.diverged, st1)

/-- `Streamer::addObject` (Streamer.c++ 128-164). The name loop is given one
step more than there are entries in `gObjs`. -/
def addObject (h : Hooks Obj Cls G) (name : String) (grit_class : Cls)
    (st : State Obj G) : Outcome Obj × State Obj G :=
  if st.s.gfx = none then (Outcome.threw OgreError.ERR_INTERNAL_ERROR, st)
  else if st.s.physics = none then (Outcome.threw OgreError.ERR_INTERNAL_ERROR, st)
  else if name = "" then
    match generateName st.s.gObjs (st.s.gObjs.length + 1) st.s.nameGenerationCounter with
    | none => (Outcome.diverged, st)
    | some (name1, counter) =>
      insertObject h name1 grit_class
        { st with s := { st.s with nameGenerationCounter := counter } }
  else insertObject h name grit_class st

/-- The body of the deactivation loop of `Streamer::centre` (Streamer.c++
255-279) for the victim `o`; `fnd` is the local candidate vector. -/
def deactivateVictim (h : Hooks Obj Cls G) (x y z vis2 : ℚ) (o : Obj)
    (st : State Obj G) (fnd : List Obj) : Outcome Unit × State Obj G × List Obj :=
  let range2 := h.range2 st.g o x y z / vis2
  let st1 := st.call (Event.notifyRange2 o range2) (h.notifyRange2 o range2)
  let st2 := match h.getFar st1.g o with
    | some f =>
      st1.call (Event.notifyRange2 f (h.range2 st1.g f x y z / vis2))
        (h.notifyRange2 f (h.range2 st1.g f x y z / vis2))
    | none => st1
  if range2 > 1 then
    let far := h.getFar st2.g o
    let killme := (h.deactivate o (st2.s, st2.g)).1
    let st3 := st2.call (Event.deactivate o) (fun w => (h.deactivate o w).2)
    let fnd1 := match far with
      | some f => fnd ++ [f]
      | none => fnd
    if killme then
      match deleteObject h o st3 with
      | (Outcome.ok (), st4) => (Outcome.ok (), st4, fnd1)
      | (Outcome.threw e, st4) => (Outcome.threw e, st4, fnd1)
      | (Outcome.diverged, st4) => (Outcome.diverged, st4, fnd1)
    else (Outcome.ok (), st3, fnd1)
  else (Outcome.ok (), st2, fnd)

/-- The deactivation loop of `Streamer::centre` over the snapshot `victims`. -/
def deactivateDistant (h : Hooks Obj Cls G) (x y z vis2 : ℚ) :
    List Obj → State Obj G → List Obj → Outcome Unit × State Obj G × List Obj
  | [], st, fnd => (Outcome.ok (), st, fnd)
  | o :: victims, st, fnd =>
    match deactivateVictim h x y z vis2 o st fnd with
    | (Outcome.ok (), st1, fnd1) => deactivateDistant h x y z vis2 victims st1 fnd1
    | r => r

/-- The eviction loop of `Streamer::centre` (Streamer.c++ 285-300),
`for (size_t i=0, i_=loaded.size(); i<i_ ;)`, from the values `i`, `i_`. -/
def evictLoop (h : Hooks Obj Cls G) (x y z tpF : ℚ) :
    Nat → Nat → Nat → State Obj G → Option (State Obj G)
  | 0, i, i_, st => if i < i_ then none else some st
  | fuel + 1, i, i_, st =>
    if i < i_ then
      match st.s.loaded[i]? with
      | none => none
      | some o =>
        if !h.withinRange st.g o x y z tpF then
          let st1 := (st.callG (Event.evictionCheck o) id).callG
            (Event.tryUnloadResources o) (h.tryUnloadResources o)
          evictLoop h x y z tpF fuel i (i_ - 1)
            { st1 with s := { st1.s with loaded := swapPop st1.s.loaded i (i_ - 1) } }
        else evictLoop h x y z tpF fuel (i + 1) i_ (st.callG (Event.evictionCheck o) id)
    else some st

/-- The eviction phase of `Streamer::centre`. -/
def evict (h : Hooks Obj Cls G) (x y z tpF : ℚ) (st : State Obj G) : Option (State Obj G) :=
  evictLoop h x y z tpF st.s.loaded.length 0 st.s.loaded.length st

/-- The walk `while (!near.isNull())` of `Streamer::centre` (Streamer.c++
328-339) from the pointer
`near`: `some true` when it reaches an object within range that is activated
(the `goto skip`), `some false` when it reaches a null pointer, `none` when
the fuel runs out first. -/
def nearWalk (h : Hooks Obj Cls G) (g : G) (x y z r : ℚ) : Nat → Option Obj → Option Bool
  | _, none => some false
  | 0, some _ => none
  | fuel + 1, some near =>
    if h.withinRange g near x y z r && h.isActivated g near then some true
    else nearWalk h g x y z r fuel (h.getNear g near)

/-- The pointer the `near` walk holds after `k` more steps from `p`. -/
def nearReach (h : Hooks Obj Cls G) (g : G) : Nat → Option Obj → Option Obj
  | 0, p => p
  | _ + 1, none => none
  | k + 1, some o => nearReach h g k (h.getNear g o)

/-- `b` is on the chain of `near` links that starts at `a->getNear()`. -/
def OnNearChain (h : Hooks Obj Cls G) (g : G) (a b : Obj) : Prop :=
  ∃ k, nearReach h g k (h.getNear g a) = some b

/-- No call the load-and-activation loop makes turns `b` from activated to
not activated: not `queueBGPrepare`, `activate` or `notifyRange2` on any
object, nor `deactivate` on another object. -/
def KeepsActivated (h : Hooks Obj Cls G) (b : Obj) : Prop :=
  (∀ o x y z g, h.isActivated g b = true →
    h.isActivated (h.queueBGPrepare o x y z g).2 b = true) ∧
  (∀ o w, o ≠ b → h.isActivated w.2 b = true → h.isActivated (h.deactivate o w).2.2 b = true) ∧
  (∀ o w, h.isActivated w.2 b = true → h.isActivated (h.activate o w).2 b = true) ∧
  (∀ o r w, h.isActivated w.2 b = true → h.isActivated (h.notifyRange2 o r w).2 b = true)

/-- No call a frame pass makes, other than `activate` on `b` itself, turns `b`
from not activated to activated. -/
def KeepsInactive (h : Hooks Obj Cls G) (b : Obj) : Prop :=
  (∀ o x y z g, h.isActivated g b = false →
    h.isActivated (h.queueBGPrepare o x y z g).2 b = false) ∧
  (∀ o w, h.isActivated w.2 b = false → h.isActivated (h.deactivate o w).2.2 b = false) ∧
  (∀ o w, o ≠ b → h.isActivated w.2 b = false → h.isActivated (h.activate o w).2 b = false) ∧
  (∀ o r w, h.isActivated w.2 b = false → h.isActivated (h.notifyRange2 o r w).2 b = false) ∧
  (∀ o w, h.isActivated w.2 b = false → h.isActivated (h.destroy o w).2 b = false) ∧
  (∀ o g, h.isActivated g b = false → h.isActivated (h.rsRemove o g) b = false) ∧
  (∀ o g, h.isActivated g b = false → h.isActivated (h.tryUnloadResources o g) b = false) ∧
  (∀ g, h.isActivated g b = false → h.isActivated (h.handleBastards g) b = false) ∧
  (∀ g, h.isActivated g b = false → h.isActivated (h.checkGPUUsage g) b = false)

/-- No call the load-and-activation loop makes changes the streamer's
`visibility` or `fadeOverlapFactor`. -/
def KeepsRadius (h : Hooks Obj Cls G) : Prop :=
  (∀ o w, (h.deactivate o w).2.1.visibility = w.1.visibility ∧
    (h.deactivate o w).2.1.fadeOverlapFactor = w.1.fadeOverlapFactor) ∧
  (∀ o w, (h.activate o w).1.visibility = w.1.visibility ∧
    (h.activate o w).1.fadeOverlapFactor = w.1.fadeOverlapFactor) ∧
  (∀ o r w, (h.notifyRange2 o r w).1.visibility = w.1.visibility ∧
    (h.notifyRange2 o r w).1.fadeOverlapFactor = w.1.fadeOverlapFactor)

/-- The body of the load-and-activation loop of `Streamer::centre`
(Streamer.c++ 309-357) for the candidate `o`. -/
def considerCandidate (h : Hooks Obj Cls G) (fuel : Nat) (x y z vis2 : ℚ) (o : Obj)
    (st : State Obj G) : Outcome Unit × State Obj G :=
  let st0 := st.callG (Event.candidate o) id
  if h.isActivated st0.g o then (Outcome.ok (), st0)
  else
    let q := (h.queueBGPrepare o x y z st0.g).1
    let st1 := st0.callG (Event.queueBGPrepare o) (fun g => (h.queueBGPrepare o x y z g).2)
    let st2 : State Obj G :=
      if q then { st1 with s := { st1.s with loaded := st1.s.loaded ++ [o] } } else st1
    if !h.backgroundPrepareComplete st2.g o then (Outcome.ok (), st2)
    else
      let range2 := h.range2 st2.g o x y z / vis2
      if range2 > 1 then (Outcome.ok (), st2)
      else
        match nearWalk h st2.g x y z (st2.s.visibility * st2.s.fadeOverlapFactor) fuel
            (h.getNear st2.g o) with
        | none => (Outcome.diverged, st2)
        | some true =>
          (Outcome.ok (), st2.call (Event.deactivate o) (fun w => (h.deactivate o w).2))
        | some false =>
          if h.getClassIsNull st2.g o then (Outcome.ok (), st2)
          else
            let st3 := st2.call (Event.activate o) (h.activate o)
            if h.getClassIsNull st3.g o then (Outcome.ok (), st3)
            else (Outcome.ok (), st3.call (Event.notifyRange2 o range2) (h.notifyRange2 o range2))

/-- The load-and-activation loop of `Streamer::centre` over `fnd`. -/
def loadAndActivate (h : Hooks Obj Cls G) (fuel : Nat) (x y z vis2 : ℚ) :
    List Obj → State Obj G → Outcome Unit × State Obj G
  | [], st => (Outcome.ok (), st)
  | o :: fnd, st =>
    match considerCandidate h fuel x y z vis2 o st with
    | (Outcome.ok (), st1) => loadAndActivate h fuel x y z vis2 fnd st1
    | r => r

/-- `Streamer::centre` (Streamer.c++ 234-362); `fuel` bounds each walk along
the `near` links. -/
def centre (h : Hooks Obj Cls G) (fuel : Nat) (x y z : ℚ) (st : State Obj G) :
    Outcome Unit × State Obj G :=
  let fnd := st.s.fresh
  let st0 : State Obj G := { st with s := { st.s with fresh := [] } }
  let pF := st.s.prepareDistanceFactor
  let tpF := pF * st.s.visibility
  let vis2 := st.s.visibility * st.s.visibility
  let victims := st0.s.activated
  match deactivateDistant h x y z vis2 victims st0 fnd with
  | (Outcome.ok (), st1, fnd1) =>
    match evict h x y z tpF st1 with
    | none => (Outcome.diverged, st1)
    | some st2 =>
      let fnd2 := h.getPresent st2.g x y z st2.s.stepSize tpF fnd1
      match loadAndActivate h fuel x y z vis2 fnd2 st2 with
      | (Outcome.ok (), st3) =>
        (Outcome.ok (), { st3 with g := h.checkGPUUsage (h.handleBastards st3.g) })
      | r => r
  | (Outcome.threw e, st1, _) => (Outcome.threw e, st1)
  | (Outcome.diverged, st1, _) => (Outcome.diverged, st1)

end StreamerModel

/-! ## A concrete object model -/

section SampleModel

/-- A sample object: its identity, its name and its place on the x axis. -/
structure SampleObj where
  id : Nat
  name : String
  pos : ℚ
  deriving DecidableEq

/-- The state outside the streamer in the sample model: the objects whose
`isActivated()` holds, those with a load queued, those whose load is
complete, those already destroyed, the contents of the spatial index and the
identity the next created object gets. -/
structure SampleWorld where
  active : List SampleObj
  queued : List SampleObj
  complete : List SampleObj
  destroyed : List SampleObj
  index : List SampleObj
  nextId : Nat
  deriving DecidableEq

/-- The squared distance of a sample object from the point `(x, y, z)`. -/
def sampleRange2 (o : SampleObj) (x y z : ℚ) : ℚ :=
  (o.pos - x) * (o.pos - x) + y * y + z * z

/-- Deactivation in the sample model: an activated object clears its flag
and unlists itself; `selfDestruct` says whether it asks to be deleted. -/
def sampleDeactivate (selfDestruct : SampleObj → Bool) (o : SampleObj)
    (w : Streamer SampleObj × SampleWorld) : Bool × (Streamer SampleObj × SampleWorld) :=
  if o ∈ w.2.active then
    (selfDestruct o, (w.1.unlist o false, { w.2 with active := w.2.active.erase o }))
  else (false, w)

/-- A sample object model over given `near` and `far` links: objects sit on
the x axis, a class is the position its objects are created at, activation
lists the object, a queued load completes at the end of the pass that queued
it, and the spatial index reports the objects within the radius. -/
def sampleHooks (near far : SampleObj → Option SampleObj) (selfDestruct : SampleObj → Bool) :
    Hooks SampleObj ℚ SampleWorld where
  name := fun o => o.name
  create := fun name cls g => (⟨g.nextId, name, cls⟩, { g with nextId := g.nextId + 1 })
  destroy := fun o w =>
    ((sampleDeactivate selfDestruct o w).2.1,
      { (sampleDeactivate selfDestruct o w).2.2 with
        destroyed := o :: (sampleDeactivate selfDestruct o w).2.2.destroyed })
  deactivate := sampleDeactivate selfDestruct
  activate := fun o w => (w.1.list o false, { w.2 with active := w.2.active ++ [o] })
  notifyRange2 := fun _ _ w => w
  isActivated := fun g o => decide (o ∈ g.active)
  getFar := fun _ o => far o
  getNear := fun _ o => near o
  getClassIsNull := fun g o => decide (o ∈ g.destroyed)
  range2 := fun _ o x y z => sampleRange2 o x y z
  withinRange := fun _ o x y z r => decide (sampleRange2 o x y z ≤ r * r)
  queueBGPrepare := fun o _ _ _ g =>
    if o ∈ g.queued then (false, g) else (true, { g with queued := g.queued ++ [o] })
  backgroundPrepareComplete := fun g o => decide (o ∈ g.complete)
  tryUnloadResources := fun o g =>
    { g with queued := g.queued.erase o, complete := g.complete.erase o }
  rsAdd := fun o g => { g with index := g.index ++ [o] }
  rsRemove := fun o g => { g with index := g.index.erase o }
  getPresent := fun g x y z _ r fnd =>
    fnd ++ g.index.filter (fun o => decide (sampleRange2 o x y z ≤ r * r))
  handleBastards := fun g => { g with complete := g.queued }
  checkGPUUsage := fun g => g

/-- A sample world holding nothing but the given spatial index. -/
def SampleWorld.initial (index : List SampleObj) : SampleWorld :=
  { active := [], queued := [], complete := [], destroyed := [], index := index,
    nextId := index.length }

/-- The sample object model without links, where no object self-destructs. -/
def plainHooks : Hooks SampleObj ℚ SampleWorld :=
  sampleHooks (fun _ => none) (fun _ => none) (fun _ => false)

/-- A configured streamer with empty containers: visibility 10, prepare
factor 2. -/
def sampleStreamer : Streamer SampleObj :=
  { (Streamer.initial 10 2 1 1 : Streamer SampleObj) with gfx := some 1, physics := some 1 }

/-- The sample object that `addObject("rock1", 3)` creates first. -/
def rock1 : SampleObj := ⟨0, "rock1", 3⟩

/-- The sample run after `addObject("rock1", 3)` on the configured streamer. -/
def sampleAdded : State SampleObj SampleWorld :=
  (addObject plainHooks "rock1" 3 ⟨sampleStreamer, SampleWorld.initial [], []⟩).2

/-- The sample run after a first frame pass centred on the origin, which
queues the load of `rock1`. -/
def samplePass1 : State SampleObj SampleWorld :=
  (centre plainHooks 5 0 0 0 { sampleAdded with trace := [] }).2

/-- The sample run after a second such pass, which activates `rock1`. -/
def samplePass2 : State SampleObj SampleWorld :=
  (centre plainHooks 5 0 0 0 { samplePass1 with trace := [] }).2

/-- The sample object model with one pair of detail levels: `lo` has `hi` as
its `near` substitute and `hi` has `lo` as its `far` substitute. -/
def lodHooks (lo hi : SampleObj) : Hooks SampleObj ℚ SampleWorld :=
  sampleHooks (fun o => if o = lo then some hi else none)
    (fun o => if o = hi then some lo else none) (fun _ => false)

/-- The low-detail object of the run that creates it first. -/
def loFirst : SampleObj := ⟨0, "lo", 0⟩

/-- The high-detail object of the run that creates it second. -/
def hiSecond : SampleObj := ⟨1, "hi", 0⟩

/-- The high-detail object of the run that creates it first. -/
def hiFirst : SampleObj := ⟨0, "hi", 0⟩

/-- The low-detail object of the run that creates it second. -/
def loSecond : SampleObj := ⟨1, "lo", 0⟩

/-- The run that adds "lo" and then "hi" at the origin, after two frame
passes centred on the origin: the first queues both loads, the second
activates "lo" (its `near` is not activated yet) and then "hi". -/
def lodLoHiPass2 : State SampleObj SampleWorld :=
  (centre (lodHooks loFirst hiSecond) 5 0 0 0
    { (centre (lodHooks loFirst hiSecond) 5 0 0 0
        (addObject (lodHooks loFirst hiSecond) "hi" 0
          (addObject (lodHooks loFirst hiSecond) "lo" 0
            ⟨sampleStreamer, SampleWorld.initial [], []⟩).2).2).2 with trace := [] }).2

/-- The run that adds "hi" and then "lo" at the origin, after two frame
passes centred on the origin: the second activates "hi" and then finds it in
the way of "lo". -/
def lodHiLoPass2 : State SampleObj SampleWorld :=
  (centre (lodHooks loSecond hiFirst) 5 0 0 0
    { (centre (lodHooks loSecond hiFirst) 5 0 0 0
        (addObject (lodHooks loSecond hiFirst) "lo" 0
          (addObject (lodHooks loSecond hiFirst) "hi" 0
            ⟨sampleStreamer, SampleWorld.initial [], []⟩).2).2).2 with trace := [] }).2

/-- The first object of the sample ring, at the origin. -/
def ringA : SampleObj := ⟨0, "ringA", 0⟩

/-- The second object of the sample ring, at the origin. -/
def ringB : SampleObj := ⟨1, "ringB", 0⟩

/-- The third object of the sample ring, at the origin. -/
def ringC : SampleObj := ⟨2, "ringC", 0⟩

/-- A sample object far from the origin. -/
def distant : SampleObj := ⟨3, "distant", 100⟩

/-- The `far` substitute of `distant`, at the same place. -/
def standIn : SampleObj := ⟨4, "standIn", 100⟩

/-- The `near` links of the sample ring, `ringA → ringB → ringC → ringA`, and
the link `standIn → distant`; no two objects share a `near`. -/
def ringNear (o : SampleObj) : Option SampleObj :=
  if o = ringA then some ringB
  else if o = ringB then some ringC
  else if o = ringC then some ringA
  else if o = standIn then some distant
  else none

/-- The `far` links that go with `ringNear`: `b` is the `far` of `a` exactly
when `a` is the `near` of `b`. -/
def ringFar (o : SampleObj) : Option SampleObj :=
  if o = ringB then some ringA
  else if o = ringC then some ringB
  else if o = ringA then some ringC
  else if o = distant then some standIn
  else none

/-- The sample object model over the links of `ringNear` and `ringFar`. -/
def ringHooks : Hooks SampleObj ℚ SampleWorld :=
  sampleHooks ringNear ringFar (fun _ => false)

/-- A sample world in which `distant` alone is activated and the load of
`ringA` is complete. -/
def ringWorld : SampleWorld :=
  { SampleWorld.initial [] with active := [distant], complete := [ringA] }

/-- A sample state over `ringWorld`: `distant` is activated and `ringA` has
been added since the last pass. -/
def ringState : State SampleObj SampleWorld :=
  ⟨{ sampleStreamer with activated := [distant], fresh := [ringA] }, ringWorld, []⟩

/-- The sample run after `addObject("rock1", 3)`, then `list(rock1)` while it
wants frame callbacks, `unlist(rock1)` after the flag was cleared and
`list(rock1)` after it was set again: `rock1` is twice in
`needFrameCallbacks`. -/
def sampleListedTwice : State SampleObj SampleWorld :=
  { sampleAdded with
    s := sampleAdded.s.run
      [Call.list rock1 true, Call.unlist rock1 false, Call.list rock1 true] }

end SampleModel

/-! ## Facts about the map model -/

section MapFacts

variable {T : Type} [LinearOrderedField T]

theorem mapFind_mapAssign_self (m : Map T) (k v : T) :
    mapFind (mapAssign m k v) k = some v := by
  induction m with
  | nil => simp [mapAssign, mapFind]
  | cons p m ih =>
    obtain ⟨k', v'⟩ := p
    by_cases h1 : k' < k
    · simp [mapAssign, mapFind, h1, ne_of_lt h1, ih]
    · by_cases h2 : k' = k
      · simp [mapAssign, mapFind, h2]
      · simp [mapAssign, mapFind, h1, h2]

theorem mapFind_mapAssign_ne (m : Map T) (k v k2 : T) (hne : k2 ≠ k) :
    mapFind (mapAssign m k v) k2 = mapFind m k2 := by
  induction m with
  | nil => simp [mapAssign, mapFind, hne.symm]
  | cons p m ih =>
    obtain ⟨k', v'⟩ := p
    by_cases h1 : k' < k
    · simp [mapAssign, mapFind, h1, ih]
    · by_cases h2 : k' = k
      · subst h2
        simp [mapAssign, mapFind, hne.symm]
      · simp [mapAssign, mapFind, h1, h2, hne.symm]

theorem mem_mapAssign (m : Map T) (k v : T) (p : T × T) (hp : p ∈ mapAssign m k v) :
    p = (k, v) ∨ p ∈ m := by
  induction m with
  | nil => simpa [mapAssign] using hp
  | cons q m ih =>
    obtain ⟨k', v'⟩ := q
    by_cases h1 : k' < k
    · simp only [mapAssign, h1, if_true, List.mem_cons] at hp
      rcases hp with hp | hp
      · exact Or.inr (by simp [hp])
      · rcases ih hp with h | h
        · exact Or.inl h
        · exact Or.inr (List.mem_cons_of_mem _ h)
    · by_cases h2 : k' = k
      · subst h2
        simp only [mapAssign, lt_irrefl, if_true, if_false, List.mem_cons] at hp
        rcases hp with hp | hp
        · exact Or.inl hp
        · exact Or.inr (List.mem_cons_of_mem _ hp)
      · simp only [mapAssign, h1, h2, if_false, List.mem_cons] at hp
        rcases hp with hp | hp | hp
        · exact Or.inl hp
        · exact Or.inr (by simp [hp])
        · exact Or.inr (List.mem_cons_of_mem _ hp)

theorem mapSorted_mapAssign (m : Map T) (k v : T) (hs : MapSorted m) :
    MapSorted (mapAssign m k v) := by
  induction m with
  | nil => simp [mapAssign, MapSorted]
  | cons q m ih =>
    obtain ⟨k', v'⟩ := q
    have hs' := List.pairwise_cons.mp hs
    by_cases h1 : k' < k
    · simp only [mapAssign, h1, if_true]
      refine List.pairwise_cons.mpr ⟨?_, ih hs'.2⟩
      intro p hp
      rcases mem_mapAssign m k v p hp with h | h
      · simpa [h] using h1
      · exact hs'.1 p h
    · by_cases h2 : k' = k
      · subst h2
        simp only [mapAssign, h1, if_true, if_false]
        exact List.pairwise_cons.mpr ⟨hs'.1, hs'.2⟩
      · simp only [mapAssign, h1, h2, if_false]
        have hlt : k < k' := lt_of_le_of_ne (not_lt.mp h1) (Ne.symm h2)
        refine List.pairwise_cons.mpr ⟨?_, hs⟩
        intro p hp
        rcases List.mem_cons.mp hp with h | h
        · simpa [h] using hlt
        · exact lt_trans hlt (hs'.1 p h)

theorem mapFind_of_mem (m : Map T) (hs : MapSorted m) (k v : T) (h : (k, v) ∈ m) :
    mapFind m k = some v := by
  induction m with
  | nil => simp at h
  | cons q m ih =>
    obtain ⟨k', v'⟩ := q
    have hs' := List.pairwise_cons.mp hs
    rcases List.mem_cons.mp h with h | h
    · simp only [Prod.mk.injEq] at h
      simp [mapFind, h.1, h.2]
    · have hlt : k' < k := hs'.1 (k, v) h
      simp [mapFind, ne_of_lt hlt, ih hs'.2 h]

theorem mapIndex_fst_of_mem (m : Map T) (hs : MapSorted m) (k v : T) (h : (k, v) ∈ m) :
    (mapIndex m k).1 = v := by
  simp [mapIndex, mapFind_of_mem m hs k v h]

theorem head_le_of_mem (p : T × T) (m : Map T) (hs : MapSorted (p :: m)) (q : T × T)
    (hq : q ∈ p :: m) : p.1 ≤ q.1 := by
  rcases List.mem_cons.mp hq with h | h
  · simp [h]
  · exact le_of_lt ((List.pairwise_cons.mp hs).1 q h)

theorem le_last_of_mem (m : Map T) (hs : MapSorted m) (hne : m ≠ []) (q : T × T)
    (hq : q ∈ m) : q.1 ≤ (m.getLast hne).1 := by
  induction m with
  | nil => exact absurd rfl hne
  | cons p m ih =>
    have hs' := List.pairwise_cons.mp hs
    by_cases hm : m = []
    · subst hm
      simp only [List.mem_singleton] at hq
      simp [hq]
    · rw [List.getLast_cons hm]
      rcases List.mem_cons.mp hq with h | h
      · rw [h]
        exact le_of_lt (hs'.1 _ (List.getLast_mem hm))
      · exact ih hs'.2 hm h

end MapFacts

/-! ## Facts about the interpolation table -/

section SplineFacts

variable {T : Type} [LinearOrderedField T]

theorem commit_points (st : SplineTable T) : st.commit.points = st.points := by
  unfold SplineTable.commit
  split
  · rfl
  · rfl
  · rfl
  · dsimp only
    split <;> rfl

theorem build_sorted_from (calls : List (T × T)) (st : SplineTable T)
    (hs : MapSorted st.points) :
    MapSorted (calls.foldl (fun st p => st.addPoint p.1 p.2) st).points := by
  induction calls generalizing st with
  | nil => simpa using hs
  | cons c calls ih =>
    simp only [List.foldl_cons]
    exact ih _ (mapSorted_mapAssign _ _ _ hs)

theorem build_sorted (calls : List (T × T)) : MapSorted (build calls).points :=
  build_sorted_from calls SplineTable.empty (by simp [SplineTable.empty, MapSorted])

theorem hermite_left (x y x1 y1 m0 m1 : T) : hermite x x y x1 y1 m0 m1 = y := by
  simp [hermite]

theorem scan_hit (l : List (T × T)) (x y : T) (tg : Map T) (hne : l ≠ [])
    (hgt : ∀ p ∈ l, x < p.1) :
    (scan l (some (x, y)) x tg).1 = EvalResult.value y := by
  cases l with
  | nil => exact absurd rfl hne
  | cons p rest =>
    obtain ⟨k, v⟩ := p
    have hk : x < k := hgt (k, v) (List.mem_cons_self _ _)
    simp [scan, hk, hermite_left]

theorem scan_sample (l : List (T × T)) (hs : MapSorted l) (x y : T) (hmem : (x, y) ∈ l)
    (hgt : ∃ p ∈ l, x < p.1) (prev : Option (T × T)) (tg : Map T) :
    (scan l prev x tg).1 = EvalResult.value y := by
  induction l generalizing prev with
  | nil => simp at hmem
  | cons p rest ih =>
    obtain ⟨k, v⟩ := p
    have hs' := List.pairwise_cons.mp hs
    obtain ⟨q, hq, hxq⟩ := hgt
    rcases List.mem_cons.mp hmem with h | h
    · simp only [Prod.mk.injEq] at h
      obtain ⟨hx, hy⟩ := h
      subst hx hy
      have hq' : q ∈ rest := by
        rcases List.mem_cons.mp hq with h | h
        · rw [h] at hxq
          exact absurd hxq (lt_irrefl _)
        · exact h
      have hne : rest ≠ [] := List.ne_nil_of_mem hq'
      simp only [scan, gt_iff_lt, lt_irrefl, if_false]
      exact scan_hit rest x y tg hne (fun p hp => hs'.1 p hp)
    · have hlt : k < x := hs'.1 (x, y) h
      have hq' : q ∈ rest := by
        rcases List.mem_cons.mp hq with h | h
        · rw [h] at hxq
          exact absurd (lt_trans hlt hxq) (lt_irrefl _)
        · exact h
      simp only [scan, gt_iff_lt, not_lt_of_gt hlt, if_false]
      exact ih hs'.2 h ⟨q, hq', hxq⟩ _

theorem evaluate_sample_of_sorted (st : SplineTable T) (hs : MapSorted st.points) (x y : T)
    (hmem : (x, y) ∈ st.points) : (st.evaluate x).1 = EvalResult.value y := by
  unfold SplineTable.evaluate
  split
  · rename_i h
    rw [h] at hmem
    simp at hmem
  · rename_i p h
    rw [h] at hmem
    simp only [List.mem_singleton] at hmem
    simp [← hmem]
  · rename_i p q rest h
    have hs2 : MapSorted (p :: q :: rest) := h ▸ hs
    have hm2 : (x, y) ∈ p :: q :: rest := h ▸ hmem
    have hlo : p.1 ≤ x := head_le_of_mem p (q :: rest) hs2 (x, y) hm2
    have hhi : x ≤ maxX p (q :: rest) :=
      le_last_of_mem (p :: q :: rest) hs2 (by simp) (x, y) hm2
    dsimp only
    by_cases h1 : x ≤ minX p (q :: rest)
    · have hx : x = minX p (q :: rest) := le_antisymm h1 hlo
      rw [if_pos h1]
      simp only
      rw [← hx, mapIndex_fst_of_mem st.points hs x y hmem]
      simp
    · rw [if_neg h1]
      by_cases h2 : x ≥ maxX p (q :: rest)
      · have hx : x = maxX p (q :: rest) := le_antisymm hhi h2
        rw [if_pos h2]
        simp only
        rw [← hx, mapIndex_fst_of_mem st.points hs x y hmem]
        simp
      · rw [if_neg h2]
        simp only
        have hlt : x < maxX p (q :: rest) := lt_of_not_ge h2
        exact scan_sample st.points hs x y hmem
          ⟨(st.points).getLast (by rw [h]; simp), List.getLast_mem _, by
            simpa [maxX, h] using hlt⟩ none st.tangents

end SplineFacts

/-! ## List facts -/

section ListFacts

variable {α : Type}

theorem mem_mapKeys_of_mem (m : List (α × α)) (p : α × α) (h : p ∈ m) : p.1 ∈ m.map Prod.fst :=
  List.mem_map_of_mem Prod.fst h

theorem drop_last_two (pre : List (α × α)) (l n : α × α) :
    (pre ++ [l, n]).drop ((pre ++ [l, n]).length - 2) = [l, n] := by
  simp

theorem exists_last_two (pts : List (α × α)) (h : 2 ≤ pts.length) :
    ∃ pre l n, pts = pre ++ [l, n] := by
  rcases List.eq_nil_or_concat pts with h0 | ⟨l1, n, h1⟩
  · simp [h0] at h
  · rcases List.eq_nil_or_concat l1 with h2 | ⟨pre, l, h2⟩
    · simp [h1, h2] at h
    · exact ⟨pre, l, n, by simp [h1, h2]⟩

theorem last_eq_of_append (pts pre : List (α × α)) (l n : α × α) (h : pts = pre ++ [l, n]) :
    pts.getLast (by simp [h]) = n := by
  subst h
  simp

theorem getElem_cons_set_perm (l : List α) (i : Nat) (a : α) (hi : i < l.length) :
    (l[i] :: l.set i a).Perm (a :: l) := by
  induction l generalizing i with
  | nil => simp at hi
  | cons y t ih =>
    cases i with
    | zero => simpa using List.Perm.swap a y t
    | succ i =>
      have hi' : i < t.length := by simpa using hi
      simp only [List.getElem_cons_succ, List.set_cons_succ]
      exact ((List.Perm.swap y t[i] (t.set i a)).trans ((ih i hi').cons y)).trans
        (List.Perm.swap a y t)

end ListFacts

/-! ## Facts about the vectors of the streamer -/

section VectorFacts

variable {Obj : Type}

theorem swapPop_split (v : List Obj) (i : Nat) (hi : i < v.length) :
    ∃ X, swapPop v i (v.length - 1) = v.take i ++ X ∧ X.Perm (v.drop (i + 1)) := by
  rcases List.eq_nil_or_concat v with h0 | ⟨ys, last, h1⟩
  · subst h0
    simp at hi
  · rw [List.concat_eq_append] at h1
    subst h1
    have hlast : (ys ++ [last])[(ys ++ [last]).length - 1]? = some last := by simp
    simp only [swapPop, hlast]
    by_cases hlt : i < ys.length
    · refine ⟨last :: ys.drop (i + 1), ?_, ?_⟩
      · rw [List.set_append, if_pos hlt, List.dropLast_concat, List.set_eq_take_append_cons_drop,
          if_pos hlt, List.take_append_of_le_length (le_of_lt hlt)]
      · rw [List.drop_append_of_le_length (by omega)]
        exact (List.perm_append_singleton last _).symm
    · have hi2 : i = ys.length := by
        simp only [List.length_append, List.length_singleton] at hi
        omega
      subst hi2
      refine ⟨[], ?_, ?_⟩
      · rw [List.set_append, if_neg (lt_irrefl _)]
        simp
      · simp

theorem swapPop_perm (v : List Obj) (i : Nat) (hi : i < v.length) :
    (v[i] :: swapPop v i (v.length - 1)).Perm v := by
  rcases List.eq_nil_or_concat v with h0 | ⟨ys, last, h1⟩
  · subst h0
    simp at hi
  · rw [List.concat_eq_append] at h1
    subst h1
    have hlast : (ys ++ [last])[(ys ++ [last]).length - 1]? = some last := by simp
    simp only [swapPop, hlast]
    by_cases hlt : i < ys.length
    · rw [List.set_append, if_pos hlt, List.dropLast_concat, List.getElem_append_left hlt]
      exact (getElem_cons_set_perm ys i last hlt).trans (List.perm_append_singleton last ys).symm
    · have hi2 : i = ys.length := by
        simp only [List.length_append, List.length_singleton] at hi
        omega
      subst hi2
      rw [List.set_append, if_neg (lt_irrefl _)]
      simp only [Nat.sub_self, List.set_cons_zero, List.dropLast_concat,
        List.getElem_concat_length]
      exact (List.perm_append_singleton last ys).symm

variable [DecidableEq Obj]

theorem remove_if_exists_perm (l : List Obj) (o : Obj) (h : o ∈ l) :
    (o :: remove_if_exists l o).Perm l := by
  have hi : l.indexOf o < l.length := List.indexOf_lt_length.mpr h
  have hp := swapPop_perm l (l.indexOf o) hi
  rw [List.getElem_indexOf hi] at hp
  simpa [remove_if_exists, hi] using hp

theorem remove_if_exists_of_not_mem (l : List Obj) (o : Obj) (h : o ∉ l) :
    remove_if_exists l o = l := by
  have hi : ¬ l.indexOf o < l.length := fun hlt => h (List.indexOf_lt_length.mp hlt)
  simp [remove_if_exists, hi]

theorem mem_of_mem_remove_if_exists (l : List Obj) (o x : Obj)
    (h : x ∈ remove_if_exists l o) : x ∈ l := by
  by_cases ho : o ∈ l
  · exact (remove_if_exists_perm l o ho).subset (List.mem_cons_of_mem _ h)
  · rwa [remove_if_exists_of_not_mem l o ho] at h

theorem mem_remove_if_exists_of_ne (l : List Obj) (o x : Obj) (h : x ∈ l) (hne : x ≠ o) :
    x ∈ remove_if_exists l o := by
  by_cases ho : o ∈ l
  · have := (remove_if_exists_perm l o ho).symm.subset h
    rcases List.mem_cons.mp this with h1 | h1
    · exact absurd h1 hne
    · exact h1
  · rwa [remove_if_exists_of_not_mem l o ho]

theorem count_remove_if_exists (l : List Obj) (o : Obj) :
    (remove_if_exists l o).count o = l.count o - 1 := by
  by_cases ho : o ∈ l
  · have := (remove_if_exists_perm l o ho).count_eq o
    simp only [List.count_cons_self] at this
    omega
  · rw [remove_if_exists_of_not_mem l o ho, List.count_eq_zero_of_not_mem ho]

theorem not_mem_remove_if_exists (l : List Obj) (o : Obj) (h : l.count o ≤ 1) :
    o ∉ remove_if_exists l o := by
  intro hm
  have h1 := count_remove_if_exists l o
  have h2 : 0 < (remove_if_exists l o).count o := List.count_pos_iff.mpr hm
  omega

theorem nodup_remove_if_exists (l : List Obj) (o : Obj) (h : l.Nodup) :
    (remove_if_exists l o).Nodup := by
  by_cases ho : o ∈ l
  · exact (List.nodup_cons.mp ((remove_if_exists_perm l o ho).nodup_iff.mpr h)).2
  · rwa [remove_if_exists_of_not_mem l o ho]

end VectorFacts


/-! ## Reachable tables and the tangent map -/

section SplineReach

variable {T : Type} [LinearOrderedField T]

theorem mem_mapKeys_mapAssign (m : Map T) (k v k2 : T) :
    k2 ∈ mapKeys (mapAssign m k v) ↔ k2 = k ∨ k2 ∈ mapKeys m := by
  induction m with
  | nil => simp [mapAssign, mapKeys]
  | cons q m ih =>
    obtain ⟨k', v'⟩ := q
    by_cases h1 : k' < k
    · simp only [mapKeys] at ih
      simp only [mapAssign, h1, if_true, mapKeys, List.map_cons, List.mem_cons, ih]
      tauto
    · by_cases h2 : k' = k
      · subst h2
        simp [mapAssign, mapKeys]
      · simp [mapAssign, mapKeys, h1, h2]

theorem mapFind_isSome_iff (m : Map T) (k : T) :
    (∃ v, mapFind m k = some v) ↔ k ∈ mapKeys m := by
  induction m with
  | nil => simp [mapFind, mapKeys]
  | cons q m ih =>
    obtain ⟨k', v'⟩ := q
    by_cases h : k' = k
    · simp [mapFind, mapKeys, h]
    · simp only [mapKeys] at ih
      simp [mapFind, mapKeys, h, ih, Ne.symm h]

theorem mapIndex_snd_of_mem (m : Map T) (k : T) (h : k ∈ mapKeys m) :
    (mapIndex m k).2 = m := by
  obtain ⟨v, hv⟩ := (mapFind_isSome_iff m k).mpr h
  simp [mapIndex, hv]

theorem mapIndex_fst_of_find (m : Map T) (k v : T) (h : mapFind m k = some v) :
    (mapIndex m k).1 = v := by
  simp [mapIndex, h]

theorem mapIndex_snd_of_find (m : Map T) (k v : T) (h : mapFind m k = some v) :
    (mapIndex m k).2 = m := by
  simp [mapIndex, h]

theorem mapSorted_mapIndex (m : Map T) (k : T) (hs : MapSorted m) :
    MapSorted (mapIndex m k).2 := by
  unfold mapIndex
  split
  · exact hs
  · exact mapSorted_mapAssign m k 0 hs

theorem mem_mapKeys_mapIndex (m : Map T) (k k2 : T) (h : k2 ∈ mapKeys (mapIndex m k).2) :
    k2 = k ∨ k2 ∈ mapKeys m := by
  unfold mapIndex at h
  split at h
  · exact Or.inr h
  · exact (mem_mapKeys_mapAssign m k 0 k2).mp h

theorem mapSorted_iff_keys (m : Map T) : MapSorted m ↔ (mapKeys m).Sorted (· < ·) := by
  simp [MapSorted, mapKeys, List.Sorted, List.pairwise_map]

theorem mapKeys_eq_of_same_keys (m1 m2 : Map T) (h1 : MapSorted m1) (h2 : MapSorted m2)
    (h : ∀ k, k ∈ mapKeys m1 ↔ k ∈ mapKeys m2) : mapKeys m1 = mapKeys m2 := by
  have s1 := (mapSorted_iff_keys m1).mp h1
  have s2 := (mapSorted_iff_keys m2).mp h2
  exact List.eq_of_perm_of_sorted ((List.perm_ext_iff_of_nodup s1.nodup s2.nodup).mpr h) s1 s2

theorem commitLoop_sorted (l : List (T × T)) (tg : Map T) (hs : MapSorted tg) :
    MapSorted (commitLoop l tg) := by
  induction l generalizing tg with
  | nil => simpa [commitLoop] using hs
  | cons a l ih =>
    match l with
    | [] => simpa [commitLoop] using hs
    | [b] => simpa [commitLoop] using hs
    | b :: c :: rest =>
      rw [commitLoop]
      exact ih _ (mapSorted_mapAssign _ _ _ hs)

theorem commitLoop_keys (l : List (T × T)) (tg : Map T) (k : T)
    (h : k ∈ mapKeys (commitLoop l tg)) : k ∈ mapKeys tg ∨ k ∈ mapKeys l.tail := by
  induction l generalizing tg with
  | nil => exact Or.inl (by simpa [commitLoop] using h)
  | cons a l ih =>
    match l with
    | [] => exact Or.inl (by simpa [commitLoop] using h)
    | [b] => exact Or.inl (by simpa [commitLoop] using h)
    | b :: c :: rest =>
      rw [commitLoop] at h
      rcases ih _ h with h | h
      · rcases (mem_mapKeys_mapAssign _ _ _ _).mp h with h | h
        · exact Or.inr (by simp [mapKeys, h])
        · exact Or.inl h
      · exact Or.inr (by
          simp only [List.tail_cons, mapKeys, List.map_cons, List.mem_cons] at h ⊢
          exact Or.inr h)

theorem commitLoop_find_other (l : List (T × T)) (tg : Map T) (k : T)
    (h : ∀ p ∈ l.tail, p.1 ≠ k) : mapFind (commitLoop l tg) k = mapFind tg k := by
  induction l generalizing tg with
  | nil => simp [commitLoop]
  | cons a l ih =>
    match l with
    | [] => simp [commitLoop]
    | [b] => simp [commitLoop]
    | b :: c :: rest =>
      rw [commitLoop, ih]
      · exact mapFind_mapAssign_ne _ _ _ _ (Ne.symm (h b (by simp)))
      · intro p hp
        exact h p (by
          simp only [List.tail_cons, List.mem_cons] at hp ⊢
          exact Or.inr hp)

theorem commitLoop_find_interior (pre : List (T × T)) (a b c : T × T) (post : List (T × T))
    (tg : Map T) (hs : MapSorted (pre ++ a :: b :: c :: post)) :
    mapFind (commitLoop (pre ++ a :: b :: c :: post) tg) b.1 = some (slope a c) := by
  induction pre generalizing tg with
  | nil =>
    simp only [List.nil_append] at hs ⊢
    rw [commitLoop, commitLoop_find_other, mapFind_mapAssign_self]
    intro p hp
    have h1 := (List.pairwise_cons.mp (List.pairwise_cons.mp hs).2).1
    exact ne_of_gt (h1 p (by simpa using hp))
  | cons p pre ih =>
    have hs' : MapSorted (pre ++ a :: b :: c :: post) := (List.pairwise_cons.mp hs).2
    match pre, ih, hs' with
    | [], ih, hs' =>
      simp only [List.cons_append, List.nil_append] at ih ⊢
      rw [commitLoop]
      exact ih _ hs'
    | [q], ih, hs' =>
      simp only [List.cons_append, List.nil_append] at ih ⊢
      rw [commitLoop]
      exact ih _ hs'
    | q :: r :: pre2, ih, hs' =>
      simp only [List.cons_append] at ih ⊢
      rw [commitLoop]
      exact ih _ hs'

theorem addPoint_wellFormed (st : SplineTable T) (x y : T) (hw : WellFormed st) :
    WellFormed (st.addPoint x y) := by
  obtain ⟨hp, ht, hk⟩ := hw
  refine ⟨mapSorted_mapAssign _ _ _ hp, ht, ?_⟩
  intro k hkt
  exact (mem_mapKeys_mapAssign st.points x y k).mpr (Or.inr (hk k hkt))

theorem commit_tangents_long (a b : T × T) (rest : List (T × T)) (tg : Map T)
    (pre : List (T × T)) (l n : T × T) (hlen : 1 ≤ rest.length)
    (h2 : a :: b :: rest = pre ++ [l, n]) :
    (SplineTable.mk (a :: b :: rest) tg).commit.tangents =
      mapAssign (commitLoop (a :: b :: rest) (mapAssign tg a.1 (slope a b))) n.1 (slope l n) := by
  cases rest with
  | nil => simp at hlen
  | cons c rest =>
    simp only [SplineTable.commit]
    rw [h2, drop_last_two]

/-- The values `commit` stores, for a table whose `points` are ordered. -/
theorem commit_values (pts : Map T) (tg : Map T) (hs : MapSorted pts) :
    (∀ a, pts = [a] → mapFind (SplineTable.mk pts tg).commit.tangents a.1 = some 0) ∧
    (∀ a b rest, pts = a :: b :: rest →
      mapFind (SplineTable.mk pts tg).commit.tangents a.1 = some (slope a b)) ∧
    (∀ pre a b, pts = pre ++ [a, b] →
      mapFind (SplineTable.mk pts tg).commit.tangents b.1 = some (slope a b)) ∧
    (∀ pre a b c post, pts = pre ++ a :: b :: c :: post →
      mapFind (SplineTable.mk pts tg).commit.tangents b.1 = some (slope a c)) := by
  refine ⟨?_, ?_, ?_, ?_⟩
  · intro a h
    subst h
    simp [SplineTable.commit, mapFind_mapAssign_self]
  · intro a b rest h
    subst h
    have hab : a.1 < b.1 := (List.pairwise_cons.mp hs).1 b (by simp)
    cases rest with
    | nil => simp [SplineTable.commit, mapFind_mapAssign_self]
    | cons c rest =>
      obtain ⟨pre, l, n, h2⟩ := exists_last_two (a :: b :: c :: rest) (by simp)
      rw [commit_tangents_long a b (c :: rest) tg pre l n (by simp) h2]
      have hn : n ∈ b :: c :: rest := by
        have := last_eq_of_append _ _ _ _ h2
        rw [← this]
        rw [List.getLast_cons (by simp)]
        exact List.getLast_mem _
      have han : a.1 < n.1 := (List.pairwise_cons.mp hs).1 n hn
      rw [mapFind_mapAssign_ne _ _ _ _ (ne_of_lt han), commitLoop_find_other,
        mapFind_mapAssign_self]
      intro p hp
      exact ne_of_gt ((List.pairwise_cons.mp hs).1 p (by simpa using hp))
  · intro pre a b h
    cases pre with
    | nil =>
      simp only [List.nil_append] at h
      subst h
      have hab : a.1 < b.1 := (List.pairwise_cons.mp hs).1 b (by simp)
      simp [SplineTable.commit, mapFind_mapAssign_ne _ _ _ _ (ne_of_gt hab),
        mapFind_mapAssign_self]
    | cons p pre =>
      match pts, h with
      | [], h => simp at h
      | [x], h => simp at h
      | [x, y], h =>
        have := congrArg List.length h
        simp at this
      | x :: y :: z :: rest, h =>
        rw [commit_tangents_long x y (z :: rest) tg (p :: pre) a b (by simp) h,
          mapFind_mapAssign_self]
  · intro pre a b c post h
    match pts, h, hs with
    | [], h, _ => simp at h
    | [x], h, _ =>
      have := congrArg List.length h
      simp at this
      omega
    | [x, y], h, _ =>
      have := congrArg List.length h
      simp at this
      omega
    | x :: y :: z :: rest, h, hs =>
      obtain ⟨pre2, l, n, h2⟩ := exists_last_two (x :: y :: z :: rest) (by simp)
      rw [commit_tangents_long x y (z :: rest) tg pre2 l n (by simp) h2]
      have hbn : b.1 < n.1 := by
        have hn := last_eq_of_append _ _ _ _ h2
        have hbc : b.1 < c.1 := by
          rw [h] at hs
          have h3 := (List.pairwise_append.mp hs).2.1
          exact (List.pairwise_cons.mp (List.pairwise_cons.mp h3).2).1 c (by simp)
        have hcn : c.1 ≤ n.1 := by
          rw [← hn]
          exact le_last_of_mem _ hs (by simp) c (by rw [h]; simp)
        exact lt_of_lt_of_le hbc hcn
      rw [mapFind_mapAssign_ne _ _ _ _ (ne_of_lt hbn), h]
      exact commitLoop_find_interior pre a b c post _ (h ▸ hs)

theorem commit_tangents_sorted (st : SplineTable T) (ht : MapSorted st.tangents) :
    MapSorted st.commit.tangents := by
  unfold SplineTable.commit
  split
  · exact ht
  · exact mapSorted_mapAssign _ _ _ ht
  · exact mapSorted_mapAssign _ _ _ (mapSorted_mapAssign _ _ _ ht)
  · dsimp only
    split
    · exact mapSorted_mapAssign _ _ _ (commitLoop_sorted _ _ (mapSorted_mapAssign _ _ _ ht))
    · exact commitLoop_sorted _ _ (mapSorted_mapAssign _ _ _ ht)

theorem commit_keys_subset (pts tg : Map T) (k : T)
    (hk : k ∈ mapKeys (SplineTable.mk pts tg).commit.tangents) :
    k ∈ mapKeys tg ∨ k ∈ mapKeys pts := by
  match pts with
  | [] => exact Or.inl (by simpa [SplineTable.commit] using hk)
  | [a] =>
    simp only [SplineTable.commit] at hk
    rcases (mem_mapKeys_mapAssign _ _ _ _).mp hk with h | h
    · exact Or.inr (by simp [mapKeys, h])
    · exact Or.inl h
  | [a, b] =>
    simp only [SplineTable.commit] at hk
    rcases (mem_mapKeys_mapAssign _ _ _ _).mp hk with h | h
    · exact Or.inr (by simp [mapKeys, h])
    · rcases (mem_mapKeys_mapAssign _ _ _ _).mp h with h | h
      · exact Or.inr (by simp [mapKeys, h])
      · exact Or.inl h
  | a :: b :: c :: rest =>
    obtain ⟨pre, l, n, h2⟩ := exists_last_two (a :: b :: c :: rest) (by simp)
    rw [commit_tangents_long a b (c :: rest) tg pre l n (by simp) h2] at hk
    rcases (mem_mapKeys_mapAssign _ _ _ _).mp hk with h | h
    · refine Or.inr ?_
      rw [h, h2]
      simp [mapKeys]
    · rcases commitLoop_keys _ _ _ h with h | h
      · rcases (mem_mapKeys_mapAssign _ _ _ _).mp h with h | h
        · exact Or.inr (by simp [mapKeys, h])
        · exact Or.inl h
      · refine Or.inr ?_
        simp only [List.tail_cons, mapKeys, List.map_cons, List.mem_cons] at h ⊢
        exact Or.inr h

theorem commit_keys_superset (pts tg : Map T) (hs : MapSorted pts) (k : T)
    (hk : k ∈ mapKeys pts) : k ∈ mapKeys (SplineTable.mk pts tg).commit.tangents := by
  obtain ⟨h1, h2, h3, h4⟩ := commit_values pts tg hs
  obtain ⟨p, hp, hpk⟩ := List.mem_map.mp hk
  obtain ⟨pre, post, hpp⟩ := List.append_of_mem hp
  apply (mapFind_isSome_iff _ _).mp
  rw [← hpk]
  cases post with
  | nil =>
    rcases List.eq_nil_or_concat pre with h0 | ⟨pre2, a, h0⟩
    · exact ⟨_, h1 p (by simp [hpp, h0])⟩
    · exact ⟨_, h3 pre2 a p (by simp [hpp, h0])⟩
  | cons c post =>
    rcases List.eq_nil_or_concat pre with h0 | ⟨pre2, a, h0⟩
    · exact ⟨_, h2 p c post (by simp [hpp, h0])⟩
    · exact ⟨_, h4 pre2 a p c post (by simp [hpp, h0])⟩

theorem commit_wellFormed (st : SplineTable T) (hw : WellFormed st) :
    WellFormed st.commit := by
  obtain ⟨hp, ht, hk⟩ := hw
  refine ⟨by rw [commit_points]; exact hp, commit_tangents_sorted st ht, ?_⟩
  intro k hkt
  rw [commit_points]
  rcases commit_keys_subset st.points st.tangents k hkt with h | h
  · exact hk k h
  · exact h

theorem scan_wellFormed (l : List (T × T)) (prev : Option (T × T)) (x : T) (tg pts : Map T)
    (hs : MapSorted tg) (hk : ∀ k, k ∈ mapKeys tg → k ∈ mapKeys pts)
    (hl : ∀ p ∈ l, p.1 ∈ mapKeys pts) (hprev : ∀ q, prev = some q → q.1 ∈ mapKeys pts) :
    MapSorted (scan l prev x tg).2 ∧
      ∀ k, k ∈ mapKeys (scan l prev x tg).2 → k ∈ mapKeys pts := by
  induction l generalizing prev with
  | nil => exact ⟨by simpa [scan] using hs, by simpa [scan] using hk⟩
  | cons p rest ih =>
    obtain ⟨k0, v0⟩ := p
    by_cases hgt : k0 > x
    · cases prev with
      | none => exact ⟨by simpa [scan, hgt] using hs, by simpa [scan, hgt] using hk⟩
      | some q =>
        obtain ⟨x0, y0⟩ := q
        simp only [scan, hgt, if_true]
        refine ⟨mapSorted_mapIndex _ _ (mapSorted_mapIndex _ _ hs), ?_⟩
        intro k hkk
        rcases mem_mapKeys_mapIndex _ _ _ hkk with h | h
        · rw [h]
          exact hl (k0, v0) (by simp)
        · rcases mem_mapKeys_mapIndex _ _ _ h with h | h
          · rw [h]
            exact hprev (x0, y0) rfl
          · exact hk k h
    · simp only [scan, hgt, if_false]
      refine ih _ (fun p hp => hl p (List.mem_cons_of_mem _ hp)) ?_
      intro q hq
      simp only [Option.some.injEq] at hq
      rw [← hq]
      exact hl (k0, v0) (by simp)

theorem evaluate_wellFormed (st : SplineTable T) (x : T) (hw : WellFormed st) :
    WellFormed (st.evaluate x).2 := by
  obtain ⟨hp, ht, hk⟩ := hw
  unfold SplineTable.evaluate
  split
  · exact ⟨hp, ht, hk⟩
  · exact ⟨hp, ht, hk⟩
  · rename_i p q rest h
    have hmin : minX p (q :: rest) ∈ mapKeys st.points := by simp [minX, h, mapKeys]
    have hmax : maxX p (q :: rest) ∈ mapKeys st.points := by
      rw [h]
      exact mem_mapKeys_of_mem _ _ (List.getLast_mem _)
    dsimp only
    split_ifs
    · simp only [mapIndex_snd_of_mem _ _ hmin]
      refine ⟨hp, mapSorted_mapIndex _ _ ht, ?_⟩
      intro k hkk
      rcases mem_mapKeys_mapIndex _ _ _ hkk with h | h
      · rw [h]; exact hmin
      · exact hk k h
    · simp only [mapIndex_snd_of_mem _ _ hmax]
      refine ⟨hp, mapSorted_mapIndex _ _ ht, ?_⟩
      intro k hkk
      rcases mem_mapKeys_mapIndex _ _ _ hkk with h | h
      · rw [h]; exact hmax
      · exact hk k h
    · have hsc := scan_wellFormed st.points none x st.tangents st.points ht hk
        (fun p hp => mem_mapKeys_of_mem _ _ hp) (by simp)
      exact ⟨hp, hsc.1, hsc.2⟩

theorem reachable_wellFormed (st : SplineTable T) (h : Reachable st) : WellFormed st := by
  induction h with
  | empty => exact ⟨by simp [SplineTable.empty, MapSorted], by simp [SplineTable.empty, MapSorted],
      by simp [SplineTable.empty, mapKeys]⟩
  | addPoint st x y _ ih => exact addPoint_wellFormed st x y ih
  | commit st _ ih => exact commit_wellFormed st ih
  | evaluate st x _ ih => exact evaluate_wellFormed st x ih

end SplineReach

/-! ## Facts about the scan of `operator[]` -/

section SplineScan

variable {T : Type} [LinearOrderedField T]

theorem scan_returns_value (l : List (T × T)) (x : T) :
    ∀ (prev : Option (T × T)) (tg : Map T), (∃ p, p ∈ l ∧ x < p.1) →
      (prev = none → ∀ p, l.head? = some p → ¬ p.1 > x) →
      ∃ r, (scan l prev x tg).1 = EvalResult.value r := by
  induction l with
  | nil =>
    intro prev tg hex _
    obtain ⟨p, hp, _⟩ := hex
    simp at hp
  | cons q rest ih =>
    intro prev tg hex hprev
    obtain ⟨k, v⟩ := q
    by_cases hk : k > x
    · cases prev with
      | none => exact absurd hk (hprev rfl (k, v) rfl)
      | some a =>
        obtain ⟨x0, y0⟩ := a
        refine ⟨hermite x x0 y0 k v (mapIndex tg x0).1 (mapIndex (mapIndex tg x0).2 k).1, ?_⟩
        simp only [scan, hk, if_true]
    · simp only [scan, hk, if_false]
      apply ih
      · obtain ⟨p, hp, hxp⟩ := hex
        rcases List.mem_cons.mp hp with h | h
        · rw [h] at hxp
          exact absurd hxp hk
        · exact ⟨p, h, hxp⟩
      · intro h
        simp at h

theorem scan_interval (pre : List (T × T)) (a b : T × T) (post : List (T × T)) (x : T)
    (hs : MapSorted (pre ++ a :: b :: post)) (hax : a.1 ≤ x) (hxb : x < b.1) :
    ∀ (prev : Option (T × T)) (tg : Map T),
      scan (pre ++ a :: b :: post) prev x tg =
        (EvalResult.value (hermite x a.1 a.2 b.1 b.2 (mapIndex tg a.1).1
          (mapIndex (mapIndex tg a.1).2 b.1).1), (mapIndex (mapIndex tg a.1).2 b.1).2) := by
  induction pre with
  | nil =>
    intro prev tg
    obtain ⟨ak, av⟩ := a
    obtain ⟨bk, bv⟩ := b
    have h1 : ¬ ak > x := not_lt.mpr hax
    have h2 : bk > x := hxb
    simp only [List.nil_append, scan, h1, h2, if_true, if_false]
  | cons p pre ih =>
    intro prev tg
    obtain ⟨pk, pv⟩ := p
    have hs' := List.pairwise_cons.mp hs
    have hpa : pk < a.1 := hs'.1 a (by simp)
    have h1 : ¬ pk > x := not_lt.mpr (le_trans (le_of_lt hpa) hax)
    simp only [List.cons_append, scan, h1, if_false]
    exact ih hs'.2 _ tg

theorem evaluate_interval (st : SplineTable T) (pre : List (T × T)) (a b : T × T)
    (post : List (T × T)) (x : T) (hp : st.points = pre ++ a :: b :: post)
    (hs : MapSorted st.points) (hax : a.1 ≤ x) (hxb : x < b.1) :
    (st.evaluate x).1 = EvalResult.value (hermite x a.1 a.2 b.1 b.2 (mapIndex st.tangents a.1).1
      (mapIndex (mapIndex st.tangents a.1).2 b.1).1) := by
  have hbmem : b ∈ st.points := by rw [hp]; simp
  have hamem : a ∈ st.points := by rw [hp]; simp
  have hsc := scan_interval pre a b post x (hp ▸ hs) hax hxb none st.tangents
  rw [← hp] at hsc
  unfold SplineTable.evaluate
  split
  · rename_i h
    rw [h] at hbmem
    simp at hbmem
  · rename_i p h
    have := congrArg List.length (h.symm.trans hp)
    simp at this
    omega
  · rename_i p q rest h
    have hs2 : MapSorted (p :: q :: rest) := h ▸ hs
    have hmax : b.1 ≤ maxX p (q :: rest) :=
      le_last_of_mem (p :: q :: rest) hs2 (by simp) b (h ▸ hbmem)
    have hmin : minX p (q :: rest) ≤ a.1 := head_le_of_mem p (q :: rest) hs2 a (h ▸ hamem)
    dsimp only
    have h2 : ¬ x ≥ maxX p (q :: rest) := not_le.mpr (lt_of_lt_of_le hxb hmax)
    by_cases h1 : x ≤ minX p (q :: rest)
    · have hxa : x = a.1 := le_antisymm (le_trans h1 hmin) hax
      have hxm : x = minX p (q :: rest) := le_antisymm h1 (le_trans hmin hax)
      rw [if_pos h1]
      simp only
      rw [← hxm, hxa, mapIndex_fst_of_mem st.points hs a.1 a.2 hamem, hermite_left]
      simp
    · rw [if_neg h1, if_neg h2]
      simp only
      rw [hsc]

end SplineScan

/-! ## Facts about collinear samples -/

section SplineLinear

variable {T : Type} [LinearOrderedField T]

theorem slope_collinear (p q : T × T) (A B : T) (hne : p.1 ≠ q.1) (hp : p.2 = A * p.1 + B)
    (hq : q.2 = A * q.1 + B) : slope p q = A := by
  have h : q.1 - p.1 ≠ 0 := sub_ne_zero.mpr (Ne.symm hne)
  rw [slope, hp, hq]
  field_simp
  ring

theorem hermite_linear (x x0 x1 A B : T) (hne : x0 ≠ x1) :
    hermite x x0 (A * x0 + B) x1 (A * x1 + B) A A = A * x + B := by
  have h : x1 - x0 ≠ 0 := sub_ne_zero.mpr (Ne.symm hne)
  simp only [hermite]
  field_simp
  ring

theorem hermite_right (x0 y0 x1 y1 m0 m1 : T) (hne : x0 ≠ x1) :
    hermite x1 x0 y0 x1 y1 m0 m1 = y1 := by
  have h : x1 - x0 ≠ 0 := sub_ne_zero.mpr (Ne.symm hne)
  simp only [hermite]
  rw [div_self h]
  ring

theorem sorted_append_lt (pre : List (T × T)) (a b : T × T) (post : List (T × T))
    (hs : MapSorted (pre ++ a :: b :: post)) : a.1 < b.1 := by
  have h3 := (List.pairwise_append.mp hs).2.1
  exact (List.pairwise_cons.mp h3).1 b (by simp)

theorem commit_find_collinear (pts tg : Map T) (hs : MapSorted pts) (hlen : 2 ≤ pts.length)
    (A B : T) (hline : ∀ p, p ∈ pts → p.2 = A * p.1 + B) :
    ∀ p, p ∈ pts → mapFind (SplineTable.mk pts tg).commit.tangents p.1 = some A := by
  obtain ⟨_, h2, h3, h4⟩ := commit_values pts tg hs
  intro p hp
  obtain ⟨pre, post, hpp⟩ := List.append_of_mem hp
  cases post with
  | nil =>
    rcases List.eq_nil_or_concat pre with h0 | ⟨pre2, a, h0⟩
    · subst h0
      simp [hpp] at hlen
    · rw [List.concat_eq_append] at h0
      have hd : pts = pre2 ++ [a, p] := by simp [hpp, h0]
      rw [h3 pre2 a p hd]
      have hlt : a.1 < p.1 := sorted_append_lt pre2 a p [] (hd ▸ hs)
      rw [slope_collinear a p A B (ne_of_lt hlt) (hline a (by rw [hd]; simp)) (hline p hp)]
  | cons c post =>
    rcases List.eq_nil_or_concat pre with h0 | ⟨pre2, a, h0⟩
    · have hd : pts = p :: c :: post := by simp [hpp, h0]
      rw [h2 p c post hd]
      have hlt : p.1 < c.1 := sorted_append_lt [] p c post (by simpa [hd] using hs)
      rw [slope_collinear p c A B (ne_of_lt hlt) (hline p hp) (hline c (by rw [hd]; simp))]
    · rw [List.concat_eq_append] at h0
      have hd : pts = pre2 ++ a :: p :: c :: post := by simp [hpp, h0]
      rw [h4 pre2 a p c post hd]
      have hlt1 : a.1 < p.1 := sorted_append_lt pre2 a p (c :: post) (hd ▸ hs)
      have hd2 : pts = (pre2 ++ [a]) ++ p :: c :: post := by simp [hd]
      have hlt2 : p.1 < c.1 := sorted_append_lt (pre2 ++ [a]) p c post (hd2 ▸ hs)
      rw [slope_collinear a c A B (ne_of_lt (lt_trans hlt1 hlt2)) (hline a (by rw [hd]; simp))
        (hline c (by rw [hd]; simp))]

theorem exists_bracket (l : List (T × T)) (x : T) :
    ∀ (p : T × T), p.1 ≤ x → (∃ q, q ∈ l ∧ x < q.1) →
      ∃ pre a b post, p :: l = pre ++ a :: b :: post ∧ a.1 ≤ x ∧ x < b.1 := by
  induction l with
  | nil =>
    intro p _ hex
    obtain ⟨q, hq, _⟩ := hex
    simp at hq
  | cons c rest ih =>
    intro p hpx hex
    by_cases hc : x < c.1
    · exact ⟨[], p, c, rest, rfl, hpx, hc⟩
    · obtain ⟨q, hq, hxq⟩ := hex
      have hq2 : q ∈ rest := by
        rcases List.mem_cons.mp hq with h | h
        · rw [h] at hxq
          exact absurd hxq hc
        · exact h
      obtain ⟨pre, a, b, post, hd, ha, hb⟩ := ih c (not_lt.mp hc) ⟨q, hq2, hxq⟩
      exact ⟨p :: pre, a, b, post, by rw [hd]; rfl, ha, hb⟩

theorem hermite_continuous (x0 y0 x1 y1 m0 m1 xs : T) :
    ∀ ε, 0 < ε → ∃ δ, 0 < δ ∧ ∀ x, |x - xs| < δ →
      |hermite x x0 y0 x1 y1 m0 m1 - hermite xs x0 y0 x1 y1 m0 m1| < ε := by
  letI : TopologicalSpace T := Preorder.topology T
  haveI : OrderTopology T := ⟨rfl⟩
  have hc : Continuous (fun x => hermite x x0 y0 x1 y1 m0 m1) := by
    unfold hermite
    fun_prop
  have ht := hc.continuousAt (x := xs)
  rw [ContinuousAt, (nhds_basis_abs_sub_lt xs).tendsto_iff (nhds_basis_abs_sub_lt _)] at ht
  intro ε hε
  obtain ⟨δ, hδ, hb⟩ := ht ε hε
  exact ⟨δ, hδ, fun x hx => hb x hx⟩

end SplineLinear

/-! ## Facts about the sizes of the two maps -/

section SplineSizes

variable {T : Type} [LinearOrderedField T]

theorem commit_keys_eq (st : SplineTable T) (hw : WellFormed st) :
    mapKeys st.commit.tangents = mapKeys st.points := by
  obtain ⟨hp, ht, hk⟩ := hw
  apply mapKeys_eq_of_same_keys _ _ (commit_tangents_sorted st ht) hp
  intro k
  constructor
  · intro h
    rcases commit_keys_subset st.points st.tangents k h with h | h
    · exact hk k h
    · exact h
  · exact commit_keys_superset st.points st.tangents hp k

theorem scan_snd_of_keys (l : List (T × T)) (x : T) (tg : Map T)
    (hl : ∀ p, p ∈ l → p.1 ∈ mapKeys tg) :
    ∀ (prev : Option (T × T)), (∀ q, prev = some q → q.1 ∈ mapKeys tg) →
      (scan l prev x tg).2 = tg := by
  induction l with
  | nil => intro prev _; rfl
  | cons p rest ih =>
    intro prev hprev
    obtain ⟨k, v⟩ := p
    by_cases hk : k > x
    · cases prev with
      | none => simp only [scan, hk, if_true]
      | some q =>
        obtain ⟨x0, y0⟩ := q
        simp only [scan, hk, if_true]
        rw [mapIndex_snd_of_mem tg x0 (hprev (x0, y0) rfl),
          mapIndex_snd_of_mem tg k (hl (k, v) (by simp))]
    · simp only [scan, hk, if_false]
      apply ih (fun p hp => hl p (List.mem_cons_of_mem _ hp))
      intro q hq
      simp only [Option.some.injEq] at hq
      rw [← hq]
      exact hl (k, v) (by simp)

theorem evaluate_snd_of_keys_eq (st : SplineTable T) (x : T)
    (hk : mapKeys st.tangents = mapKeys st.points) : (st.evaluate x).2 = st := by
  unfold SplineTable.evaluate
  split
  · rfl
  · rfl
  · rename_i p q rest h
    have hmin : minX p (q :: rest) ∈ mapKeys st.points := by simp [minX, h, mapKeys]
    have hmax : maxX p (q :: rest) ∈ mapKeys st.points := by
      rw [h]
      exact mem_mapKeys_of_mem _ _ (List.getLast_mem _)
    dsimp only
    split_ifs
    · rw [mapIndex_snd_of_mem _ _ hmin, mapIndex_snd_of_mem _ _ (hk ▸ hmin)]
    · rw [mapIndex_snd_of_mem _ _ hmax, mapIndex_snd_of_mem _ _ (hk ▸ hmax)]
    · rw [scan_snd_of_keys st.points x st.tangents
        (fun p hp => by rw [hk]; exact mem_mapKeys_of_mem _ _ hp) none (by simp)]

theorem evaluate_all_of_keys_eq (xs : List T) (st : SplineTable T)
    (hk : mapKeys st.tangents = mapKeys st.points) :
    xs.foldl (fun s x => (s.evaluate x).2) st = st := by
  induction xs with
  | nil => rfl
  | cons x xs ih =>
    simp only [List.foldl_cons]
    rw [evaluate_snd_of_keys_eq st x hk]
    exact ih

theorem tangents_length_le (st : SplineTable T) (hw : WellFormed st) :
    st.tangents.length ≤ st.points.length := by
  obtain ⟨_, ht, hk⟩ := hw
  have hnd : (mapKeys st.tangents).Nodup := ((mapSorted_iff_keys _).mp ht).nodup
  have := (List.subperm_of_subset hnd (fun k hkk => hk k hkk)).length_le
  simpa [mapKeys] using this

end SplineSizes

/-! ## Facts about the registry and the generated names -/

section RegistryFacts

variable {Obj : Type}

theorem digitValue_digitChar (k : Nat) (hk : k < 10) : digitValue (Nat.digitChar k) = k := by
  interval_cases k <;> rfl

theorem readDigits_toDigitsCore (fuel : Nat) :
    ∀ (n : Nat) (ds : List Char), n < fuel →
      readDigits 0 (Nat.toDigitsCore 10 fuel n ds) = readDigits n ds := by
  induction fuel with
  | zero => intro n ds h; omega
  | succ fuel ih =>
    intro n ds hn
    rw [Nat.toDigitsCore]
    by_cases h0 : n / 10 = 0
    · simp only [h0, if_true]
      have hlt : n < 10 := by omega
      rw [Nat.mod_eq_of_lt hlt]
      simp [readDigits, digitValue_digitChar n hlt]
    · simp only [h0, if_false]
      rw [ih (n / 10) _ (by omega)]
      simp only [readDigits, List.foldl_cons,
        digitValue_digitChar (n % 10) (Nat.mod_lt _ (by norm_num))]
      congr 1
      omega

theorem readDigits_repr (n : Nat) : readDigits 0 (toString n).data = n := by
  have h : (toString n).data = Nat.toDigits 10 n := rfl
  rw [h, Nat.toDigits, readDigits_toDigitsCore (n + 1) n [] (by omega)]
  rfl

theorem unnamed_injective (a b : Nat) (h : unnamed a = unnamed b) : a = b := by
  have h1 : (unnamed a).data = (unnamed b).data := by rw [h]
  simp only [unnamed, String.data_append] at h1
  have h2 := List.append_cancel_left h1
  rw [← readDigits_repr a, ← readDigits_repr b, h2]

theorem gObjsFind_erase_self (m : List (String × Obj)) (n : String) :
    gObjsFind (gObjsErase m n) n = none := by
  induction m with
  | nil => rfl
  | cons p m ih =>
    obtain ⟨k, v⟩ := p
    unfold gObjsErase at ih ⊢
    by_cases h : k = n
    · rw [List.filter_cons_of_neg (by simpa using h)]
      exact ih
    · rw [List.filter_cons_of_pos (by simpa using h), gObjsFind, if_neg h]
      exact ih

theorem gObjsFind_erase_ne (m : List (String × Obj)) (n n2 : String) (hne : n2 ≠ n) :
    gObjsFind (gObjsErase m n) n2 = gObjsFind m n2 := by
  induction m with
  | nil => rfl
  | cons p m ih =>
    obtain ⟨k, v⟩ := p
    unfold gObjsErase at ih ⊢
    by_cases h : k = n
    · have h2 : k ≠ n2 := fun h3 => hne (h3.symm.trans h)
      rw [List.filter_cons_of_neg (by simpa using h), gObjsFind, if_neg h2]
      exact ih
    · rw [List.filter_cons_of_pos (by simpa using h)]
      by_cases h2 : k = n2
      · rw [gObjsFind, gObjsFind, if_pos h2, if_pos h2]
      · rw [gObjsFind, gObjsFind, if_neg h2, if_neg h2]
        exact ih

theorem gObjsFind_assign_self (m : List (String × Obj)) (n : String) (o : Obj) :
    gObjsFind (gObjsAssign m n o) n = some o := by
  induction m with
  | nil => simp [gObjsAssign, gObjsFind]
  | cons p m ih =>
    obtain ⟨k, v⟩ := p
    by_cases h : k = n
    · rw [gObjsAssign, if_pos h, gObjsFind, if_pos rfl]
    · rw [gObjsAssign, if_neg h, gObjsFind, if_neg h]
      exact ih

theorem gObjsFind_assign_ne (m : List (String × Obj)) (n n2 : String) (o : Obj)
    (hne : n2 ≠ n) : gObjsFind (gObjsAssign m n o) n2 = gObjsFind m n2 := by
  induction m with
  | nil => simp [gObjsAssign, gObjsFind, hne.symm]
  | cons p m ih =>
    obtain ⟨k, v⟩ := p
    by_cases h : k = n
    · have h2 : k ≠ n2 := fun h3 => hne (h3.symm.trans h)
      rw [gObjsAssign, if_pos h, gObjsFind, if_neg hne.symm, gObjsFind, if_neg h2]
    · rw [gObjsAssign, if_neg h]
      by_cases h2 : k = n2
      · rw [gObjsFind, gObjsFind, if_pos h2, if_pos h2]
      · rw [gObjsFind, gObjsFind, if_neg h2, if_neg h2]
        exact ih

theorem mem_keys_of_gObjsFind (m : List (String × Obj)) (n : String)
    (h : (gObjsFind m n).isSome) : n ∈ m.map Prod.fst := by
  induction m with
  | nil => simp [gObjsFind] at h
  | cons p m ih =>
    by_cases h1 : p.1 = n
    · simp [h1]
    · simp only [gObjsFind, h1, if_false] at h
      exact List.mem_cons_of_mem _ (ih h)

theorem generateName_none (m : List (String × Obj)) :
    ∀ (fuel c : Nat), generateName m fuel c = none →
      ∀ k, k < fuel → (gObjsFind m (unnamed (c + k))).isSome := by
  intro fuel
  induction fuel with
  | zero => intro c _ k hk; omega
  | succ fuel ih =>
    intro c hnone k hk
    rw [generateName] at hnone
    by_cases hf : (gObjsFind m (unnamed c)).isSome
    · rw [if_pos hf] at hnone
      cases k with
      | zero => simpa using hf
      | succ k =>
        have := ih (c + 1) hnone k (by omega)
        rwa [show c + 1 + k = c + (k + 1) by omega] at this
    · rw [if_neg hf] at hnone
      simp at hnone

theorem generateName_returns (m : List (String × Obj)) (c : Nat) :
    ∃ r, generateName m (m.length + 1) c = some r := by
  cases hr : generateName m (m.length + 1) c with
  | some r => exact ⟨r, rfl⟩
  | none =>
    exfalso
    have hall := generateName_none m (m.length + 1) c hr
    have hnd : ((List.range (m.length + 1)).map (fun k => unnamed (c + k))).Nodup := by
      apply List.Nodup.map _ (List.nodup_range _)
      intro a b hab
      have := unnamed_injective _ _ hab
      omega
    have hsub : (List.range (m.length + 1)).map (fun k => unnamed (c + k)) ⊆
        m.map Prod.fst := by
      intro n hn
      obtain ⟨k, hk, hkn⟩ := List.mem_map.mp hn
      rw [← hkn]
      exact mem_keys_of_gObjsFind m _ (hall k (List.mem_range.mp hk))
    have hlen := (List.subperm_of_subset hnd hsub).length_le
    simp at hlen

theorem generateName_spec (m : List (String × Obj)) :
    ∀ (fuel c : Nat) (r : String × Nat), generateName m fuel c = some r →
      gObjsFind m r.1 = none ∧ c < r.2 ∧ r.1 = unnamed (r.2 - 1) := by
  intro fuel
  induction fuel with
  | zero => intro c r h; simp [generateName] at h
  | succ fuel ih =>
    intro c r h
    rw [generateName] at h
    by_cases hf : (gObjsFind m (unnamed c)).isSome
    · rw [if_pos hf] at h
      obtain ⟨h1, h2, h3⟩ := ih (c + 1) r h
      exact ⟨h1, by omega, h3⟩
    · rw [if_neg hf] at h
      simp only [Option.some.injEq] at h
      subst h
      exact ⟨by simpa using hf, by simp, by simp⟩

end RegistryFacts

/-! ## Facts about the eviction loop -/

section EvictionFacts

variable {Obj Cls G : Type}

theorem evictLoop_exit (h : Hooks Obj Cls G) (x y z tpF : ℚ) (fuel i : Nat)
    (st : State Obj G) : evictLoop h x y z tpF fuel i i st = some st := by
  cases fuel <;> simp [evictLoop]

/-- The loop invariant of the eviction loop, for a range test `p` that the
`tryUnloadResources` calls do not change. -/
theorem evictLoop_spec (h : Hooks Obj Cls G) (x y z tpF : ℚ) (p : Obj → Bool)
    (hfix : ∀ g o o2, h.withinRange (h.tryUnloadResources o2 g) o x y z tpF =
      h.withinRange g o x y z tpF) :
    ∀ (fuel i i_ : Nat) (st : State Obj G), i ≤ i_ → i_ = st.s.loaded.length → i_ - i ≤ fuel →
      (∀ o, h.withinRange st.g o x y z tpF = p o) →
      ∃ st2 evs, evictLoop h x y z tpF fuel i i_ st = some st2 ∧ st2.trace = st.trace ++ evs ∧
        st2.s.loaded.Perm (st.s.loaded.take i ++ (st.s.loaded.drop i).filter p) ∧
        (evs.filterMap Event.checked).Perm (st.s.loaded.drop i) ∧
        (evs.filterMap Event.unloaded).Perm ((st.s.loaded.drop i).filter (fun o => !p o)) := by
  intro fuel
  induction fuel with
  | zero =>
    intro i i_ st hle hlen hfuel _
    have hii : i = i_ := by omega
    subst hii
    refine ⟨st, [], evictLoop_exit h x y z tpF 0 i st, by simp, ?_, ?_, ?_⟩
    · simp [List.drop_of_length_le (le_of_eq hlen.symm), List.take_of_length_le (le_of_eq hlen.symm)]
    · simp [List.drop_of_length_le (le_of_eq hlen.symm)]
    · simp [List.drop_of_length_le (le_of_eq hlen.symm)]
  | succ fuel ih =>
    intro i i_ st hle hlen hfuel hp
    by_cases hlt : i < i_
    · have hi : i < st.s.loaded.length := hlen ▸ hlt
      have hget : st.s.loaded[i]? = some st.s.loaded[i] := List.getElem?_eq_getElem hi
      have hdrop : st.s.loaded.drop i = st.s.loaded[i] :: st.s.loaded.drop (i + 1) :=
        List.drop_eq_getElem_cons hi
      have htake : st.s.loaded.take (i + 1) = st.s.loaded.take i ++ [st.s.loaded[i]] := by
        rw [List.take_succ, hget]
        rfl
      by_cases hpo : p st.s.loaded[i] = true
      · have hw : h.withinRange st.g st.s.loaded[i] x y z tpF = true := by rw [hp]; exact hpo
        obtain ⟨st2, evs, he, ht, hl, hc, hu⟩ :=
          ih (i + 1) i_ (st.callG (Event.evictionCheck st.s.loaded[i]) id) (by omega) hlen
            (by omega) hp
        refine ⟨st2, Event.evictionCheck st.s.loaded[i] :: evs, ?_, ?_, ?_, ?_, ?_⟩
        · rw [evictLoop, if_pos hlt, hget]
          simp only [hw, Bool.not_true, Bool.false_eq_true, if_false]
          exact he
        · rw [ht]
          simp [State.callG]
        · have hl2 : st2.s.loaded.Perm (st.s.loaded.take (i + 1) ++
              (st.s.loaded.drop (i + 1)).filter p) := hl
          rw [htake, List.append_assoc, List.singleton_append] at hl2
          rw [hdrop, List.filter_cons, if_pos hpo]
          exact hl2
        · have hc2 : (evs.filterMap Event.checked).Perm (st.s.loaded.drop (i + 1)) := hc
          rw [hdrop]
          simp only [List.filterMap_cons, Event.checked]
          exact hc2.cons _
        · have hu2 : (evs.filterMap Event.unloaded).Perm
              ((st.s.loaded.drop (i + 1)).filter (fun o => !p o)) := hu
          rw [hdrop, List.filter_cons]
          simp only [List.filterMap_cons, Event.unloaded, hpo, Bool.not_true,
            Bool.false_eq_true, if_false]
          exact hu2
      · have hpo2 : p st.s.loaded[i] = false := by simpa using hpo
        have hw : h.withinRange st.g st.s.loaded[i] x y z tpF = false := by rw [hp]; exact hpo2
        obtain ⟨X, hX, hXp⟩ := swapPop_split st.s.loaded i hi
        have hX2 : swapPop st.s.loaded i (i_ - 1) = st.s.loaded.take i ++ X := by
          rw [hlen]; exact hX
        have hlenX : (st.s.loaded.take i ++ X).length = i_ - 1 := by
          have h1 := hXp.length_eq
          simp only [List.length_append, List.length_take, List.length_drop] at h1 ⊢
          omega
        have htl : (st.s.loaded.take i).length = i := by
          simp only [List.length_take]
          omega
        obtain ⟨st2, evs, he, ht, hl, hc, hu⟩ :=
          ih i (i_ - 1)
            { s := { st.s with loaded := st.s.loaded.take i ++ X },
              g := h.tryUnloadResources st.s.loaded[i] st.g,
              trace := st.trace ++ [Event.evictionCheck st.s.loaded[i]] ++
                [Event.tryUnloadResources st.s.loaded[i]] }
            (by omega) hlenX.symm (by omega) (fun o => by rw [hfix]; exact hp o)
        simp only [List.take_left' htl, List.drop_left' htl] at hl hc hu
        refine ⟨st2, Event.evictionCheck st.s.loaded[i] ::
          Event.tryUnloadResources st.s.loaded[i] :: evs, ?_, ?_, ?_, ?_, ?_⟩
        · rw [evictLoop, if_pos hlt, hget]
          simp only [hw, Bool.not_false, if_true, State.callG, id, hX2]
          exact he
        · rw [ht]
          simp
        · rw [hdrop, List.filter_cons]
          simp only [hpo2, Bool.false_eq_true, if_false]
          exact hl.trans (List.Perm.append_left _ (hXp.filter p))
        · rw [hdrop]
          simp only [List.filterMap_cons, Event.checked, Event.unloaded]
          exact (hc.trans hXp).cons _
        · rw [hdrop, List.filter_cons]
          simp only [List.filterMap_cons, Event.checked, Event.unloaded, hpo2, Bool.not_false,
            if_true]
          exact (hu.trans (hXp.filter _)).cons _
    · have hii : i = i_ := by omega
      subst hii
      refine ⟨st, [], evictLoop_exit h x y z tpF _ i st, by simp, ?_, ?_, ?_⟩
      · simp [List.drop_of_length_le (le_of_eq hlen.symm),
          List.take_of_length_le (le_of_eq hlen.symm)]
      · simp [List.drop_of_length_le (le_of_eq hlen.symm)]
      · simp [List.drop_of_length_le (le_of_eq hlen.symm)]

end EvictionFacts

/-! ## Facts about the membership operations -/

section StreamerFacts

variable {Obj Cls G : Type} [DecidableEq Obj]

theorem unlist_activated (s : Streamer Obj) (o : Obj) (f : Bool) :
    (s.unlist o f).activated = remove_if_exists s.activated o := by
  unfold Streamer.unlist remove_if_exists
  dsimp only
  split_ifs <;> rfl

theorem unlist_needFrameCallbacks (s : Streamer Obj) (o : Obj) (f : Bool) :
    (s.unlist o f).needFrameCallbacks =
      if o ∈ s.activated ∧ f = true then remove_if_exists s.needFrameCallbacks o
      else s.needFrameCallbacks := by
  unfold Streamer.unlist
  dsimp only
  by_cases hm : o ∈ s.activated
  · have hi : s.activated.indexOf o < s.activated.length := List.indexOf_lt_length.mpr hm
    cases f <;> simp [hi, hm]
  · have hi : ¬ s.activated.indexOf o < s.activated.length :=
      fun hlt => hm (List.indexOf_lt_length.mp hlt)
    simp [hi, hm]

theorem list_preserves (s : Streamer Obj) (o : Obj) (f : Bool) (hinv : SetsInv s) :
    SetsInv (s.list o f) := by
  obtain ⟨ha, hn, hsub⟩ := hinv
  unfold Streamer.list
  by_cases hm : o ∈ s.activated
  · have hi : s.activated.indexOf o < s.activated.length := List.indexOf_lt_length.mpr hm
    simpa [hi] using ⟨ha, hn, hsub⟩
  · have hi : ¬ s.activated.indexOf o < s.activated.length :=
      fun hlt => hm (List.indexOf_lt_length.mp hlt)
    have hon : o ∉ s.needFrameCallbacks := fun h => hm (hsub o h)
    have ha' : (s.activated ++ [o]).Nodup :=
      List.nodup_append.mpr ⟨ha, by simp, by simpa using hm⟩
    have hn' : (s.needFrameCallbacks ++ [o]).Nodup :=
      List.nodup_append.mpr ⟨hn, by simp, by simpa using hon⟩
    rw [if_neg hi]
    cases f
    · refine ⟨ha', hn, ?_⟩
      intro x hx
      exact List.mem_append_left _ (hsub x hx)
    · refine ⟨ha', hn', ?_⟩
      intro x hx
      rcases List.mem_append.mp hx with h1 | h1
      · exact List.mem_append_left _ (hsub x h1)
      · exact List.mem_append_right _ h1

theorem unlist_preserves (s : Streamer Obj) (o : Obj) (f : Bool) (hinv : SetsInv s)
    (hag : o ∈ s.needFrameCallbacks → f = true) : SetsInv (s.unlist o f) := by
  obtain ⟨ha, hn, hsub⟩ := hinv
  refine ⟨?_, ?_, ?_⟩
  · rw [unlist_activated]
    exact nodup_remove_if_exists _ _ ha
  · rw [unlist_needFrameCallbacks]
    split_ifs
    · exact nodup_remove_if_exists _ _ hn
    · exact hn
  · intro x hx
    rw [unlist_activated]
    rw [unlist_needFrameCallbacks] at hx
    split_ifs at hx with hc
    · have hxo : x ≠ o := by
        intro h
        rw [h] at hx
        exact not_mem_remove_if_exists _ _ (List.nodup_iff_count_le_one.mp hn o) hx
      exact mem_remove_if_exists_of_ne _ _ _
        (hsub x (mem_of_mem_remove_if_exists _ _ _ hx)) hxo
    · by_cases hxo : x = o
      · subst hxo
        have hf := hag hx
        have hxa := hsub x hx
        exact absurd ⟨hxa, hf⟩ hc
      · exact mem_remove_if_exists_of_ne _ _ _ (hsub x hx) hxo

theorem setNeedsFrameCallbacks_preserves (s : Streamer Obj) (o : Obj) (v a : Bool)
    (hinv : SetsInv s) (hag : v = true → a = true → o ∈ s.activated) :
    SetsInv (s.setNeedsFrameCallbacks o v a) := by
  obtain ⟨ha, hn, hsub⟩ := hinv
  have hl := nodup_remove_if_exists s.needFrameCallbacks o hn
  have hol := not_mem_remove_if_exists s.needFrameCallbacks o
    (List.nodup_iff_count_le_one.mp hn o)
  unfold Streamer.setNeedsFrameCallbacks
  dsimp only
  split_ifs with hc
  · simp only [Bool.and_eq_true] at hc
    refine ⟨ha, List.nodup_append.mpr ⟨hl, by simp, by simpa using hol⟩, ?_⟩
    intro x hx
    rcases List.mem_append.mp hx with h1 | h1
    · exact hsub x (mem_of_mem_remove_if_exists _ _ _ h1)
    · simp only [List.mem_singleton] at h1
      rw [h1]
      exact hag hc.1 hc.2
  · exact ⟨ha, hl, fun x hx => hsub x (mem_of_mem_remove_if_exists _ _ _ hx)⟩

theorem step_preserves (s : Streamer Obj) (c : Call Obj) (hinv : SetsInv s)
    (hag : Call.Agrees s c) : SetsInv (s.step c) := by
  cases c with
  | list o f => exact list_preserves s o f hinv
  | unlist o f => exact unlist_preserves s o f hinv hag
  | setNeedsFrameCallbacks o v a => exact setNeedsFrameCallbacks_preserves s o v a hinv hag

theorem run_preserves (calls : List (Call Obj)) (s : Streamer Obj) (hinv : SetsInv s)
    (hag : RunAgrees s calls) : SetsInv (s.run calls) := by
  induction calls generalizing s with
  | nil => simpa [Streamer.run] using hinv
  | cons c calls ih =>
    simp only [Streamer.run, List.foldl_cons]
    exact ih (s.step c) (step_preserves s c hinv hag.1) hag.2

theorem deleteObject_eq (h : Hooks Obj Cls G) (o : Obj) (st : State Obj G)
    (hreg : (gObjsFind (h.destroy o (st.s, st.g)).1.gObjs (h.name o)).isSome) :
    deleteObject h o st = (Outcome.ok (),
      { s := { (h.destroy o (st.s, st.g)).1 with
                gObjs := gObjsErase (h.destroy o (st.s, st.g)).1.gObjs (h.name o),
                fresh := remove_if_exists (h.destroy o (st.s, st.g)).1.fresh o,
                needFrameCallbacks :=
                  remove_if_exists (h.destroy o (st.s, st.g)).1.needFrameCallbacks o },
        g := h.rsRemove o (h.destroy o (st.s, st.g)).2,
        trace := st.trace ++ [Event.destroy o] }) := by
  obtain ⟨v, hv⟩ := Option.isSome_iff_exists.mp hreg
  simp [deleteObject, eraseObject, purge, State.call, hv]

theorem deleteObject_outcome (h : Hooks Obj Cls G) (o : Obj) (st : State Obj G) :
    (deleteObject h o st).1 = Outcome.ok () ∨
      (deleteObject h o st).1 = Outcome.threw OgreError.ERR_DUPLICATE_ITEM := by
  unfold deleteObject eraseObject
  split
  · exact Or.inr rfl
  · exact Or.inl rfl

theorem insertObject_outcome (h : Hooks Obj Cls G) (name : String) (cls : Cls)
    (st : State Obj G) :
    (insertObject h name cls st).1 ≠ Outcome.threw OgreError.ERR_INTERNAL_ERROR := by
  unfold insertObject
  cases hf : gObjsFind st.s.gObjs name with
  | none => simp
  | some old =>
    simp only
    rcases deleteObject_outcome h old st with hd | hd
    · cases hr : deleteObject h old st with
      | mk r st1 =>
        rw [hr] at hd
        simp only at hd
        subst hd
        simp
    · cases hr : deleteObject h old st with
      | mk r st1 =>
        rw [hr] at hd
        simp only at hd
        subst hd
        simp

theorem insertObject_fresh_name (h : Hooks Obj Cls G) (name : String) (cls : Cls)
    (st : State Obj G) (hf : gObjsFind st.s.gObjs name = none) :
    insertObject h name cls st =
      (Outcome.ok (h.create name cls st.g).1,
        { st with
          s := { st.s with gObjs := gObjsAssign st.s.gObjs name (h.create name cls st.g).1,
                           fresh := st.s.fresh ++ [(h.create name cls st.g).1] },
          g := h.rsAdd (h.create name cls st.g).1 (h.create name cls st.g).2 }) := by
  simp [insertObject, hf]

theorem insertObject_collision (h : Hooks Obj Cls G) (name : String) (cls : Cls)
    (st : State Obj G) (old : Obj) (hf : gObjsFind st.s.gObjs name = some old)
    (hreg : (gObjsFind (h.destroy old (st.s, st.g)).1.gObjs (h.name old)).isSome) :
    insertObject h name cls st =
      (Outcome.ok (h.create name cls (deleteObject h old st).2.g).1,
        { (deleteObject h old st).2 with
          s := { (deleteObject h old st).2.s with
                 gObjs := gObjsAssign (deleteObject h old st).2.s.gObjs name
                   (h.create name cls (deleteObject h old st).2.g).1,
                 fresh := (deleteObject h old st).2.s.fresh ++
                   [(h.create name cls (deleteObject h old st).2.g).1] },
          g := h.rsAdd (h.create name cls (deleteObject h old st).2.g).1
            (h.create name cls (deleteObject h old st).2.g).2 }) := by
  simp [insertObject, hf, deleteObject_eq h old st hreg]

theorem list_of_mem (s : Streamer Obj) (o : Obj) (f : Bool) (hm : o ∈ s.activated) :
    s.list o f = s := by
  unfold Streamer.list
  rw [if_pos (List.indexOf_lt_length.mpr hm)]

theorem unlist_of_not_mem (s : Streamer Obj) (o : Obj) (f : Bool) (hm : o ∉ s.activated) :
    s.unlist o f = s := by
  unfold Streamer.unlist
  dsimp only
  rw [if_neg (fun hlt => hm (List.indexOf_lt_length.mp hlt))]

theorem mem_list_activated (s : Streamer Obj) (o : Obj) (f : Bool) :
    o ∈ (s.list o f).activated := by
  by_cases hm : o ∈ s.activated
  · rw [list_of_mem s o f hm]
    exact hm
  · unfold Streamer.list
    rw [if_neg (fun hlt => hm (List.indexOf_lt_length.mp hlt))]
    cases f <;> simp

theorem step_activated_nodup (s : Streamer Obj) (c : Call Obj) (ha : s.activated.Nodup) :
    (s.step c).activated.Nodup := by
  cases c with
  | list o f =>
    by_cases hm : o ∈ s.activated
    · simp only [Streamer.step]
      rw [list_of_mem s o f hm]
      exact ha
    · have ha' : (s.activated ++ [o]).Nodup :=
        List.nodup_append.mpr ⟨ha, by simp, by simpa using hm⟩
      simp only [Streamer.step, Streamer.list]
      rw [if_neg (fun hlt => hm (List.indexOf_lt_length.mp hlt))]
      cases f <;> exact ha'
  | unlist o f =>
    simp only [Streamer.step]
    rw [unlist_activated]
    exact nodup_remove_if_exists _ _ ha
  | setNeedsFrameCallbacks o v a =>
    simp only [Streamer.step, Streamer.setNeedsFrameCallbacks]
    split_ifs <;> exact ha

theorem run_activated_nodup (calls : List (Call Obj)) (s : Streamer Obj)
    (ha : s.activated.Nodup) : (s.run calls).activated.Nodup := by
  induction calls generalizing s with
  | nil => simpa [Streamer.run] using ha
  | cons c calls ih =>
    simp only [Streamer.run, List.foldl_cons]
    exact ih (s.step c) (step_activated_nodup s c ha)

theorem addObject_unnamed_eq (h : Hooks Obj Cls G) (cls : Cls) (st : State Obj G)
    (hg : st.s.gfx ≠ none) (hp : st.s.physics ≠ none) :
    ∃ k, st.s.nameGenerationCounter ≤ k ∧ gObjsFind st.s.gObjs (unnamed k) = none ∧
      addObject h "" cls st =
        (Outcome.ok (h.create (unnamed k) cls st.g).1,
          { st with
            s := { st.s with
                   nameGenerationCounter := k + 1,
                   gObjs := gObjsAssign st.s.gObjs (unnamed k) (h.create (unnamed k) cls st.g).1,
                   fresh := st.s.fresh ++ [(h.create (unnamed k) cls st.g).1] },
            g := h.rsAdd (h.create (unnamed k) cls st.g).1
              (h.create (unnamed k) cls st.g).2 }) := by
  obtain ⟨r, hr⟩ := generateName_returns st.s.gObjs st.s.nameGenerationCounter
  obtain ⟨hfree, hlt, hname⟩ := generateName_spec st.s.gObjs _ _ r hr
  have hk : r.2 = r.2 - 1 + 1 := by omega
  refine ⟨r.2 - 1, by omega, hname ▸ hfree, ?_⟩
  unfold addObject
  rw [if_neg hg, if_neg hp, if_pos rfl, hr]
  simp only
  rw [insertObject_fresh_name h r.1 cls
    { st with s := { st.s with nameGenerationCounter := r.2 } } hfree, ← hname, ← hk]

end StreamerFacts

/-! ## Facts about the frame pass -/

section LoadFacts

variable {Obj Cls G : Type}

theorem evictLoop_trace (h : Hooks Obj Cls G) (x y z tpF : ℚ) :
    ∀ (fuel i i_ : Nat) (st st2 : State Obj G), evictLoop h x y z tpF fuel i i_ st = some st2 →
      ∀ e, e ∈ st.trace → e ∈ st2.trace := by
  intro fuel
  induction fuel with
  | zero =>
    intro i i_ st st2 he e hm
    rw [evictLoop] at he
    split_ifs at he
    simp only [Option.some.injEq] at he
    rw [← he]
    exact hm
  | succ fuel ih =>
    intro i i_ st st2 he e hm
    rw [evictLoop] at he
    split_ifs at he with h1
    · cases hg : st.s.loaded[i]? with
      | none => simp [hg] at he
      | some o =>
        simp only [hg] at he
        split_ifs at he
        · exact ih _ _ _ _ he e (by simp [State.callG, hm])
        · exact ih _ _ _ _ he e (by simp [State.callG, hm])
    · simp only [Option.some.injEq] at he
      rw [← he]
      exact hm

theorem nearWalk_blocked (h : Hooks Obj Cls G) (g : G) (x y z r : ℚ) (b : Obj)
    (hin : h.withinRange g b x y z r = true) (hact : h.isActivated g b = true) :
    ∀ (k fuel : Nat) (p : Option Obj), nearReach h g k p = some b →
      nearWalk h g x y z r fuel p ≠ some false := by
  intro k
  induction k with
  | zero =>
    intro fuel p hp
    simp only [nearReach] at hp
    subst hp
    cases fuel with
    | zero => simp [nearWalk]
    | succ fuel => simp [nearWalk, hin, hact]
  | succ k ih =>
    intro fuel p hp
    cases p with
    | none => simp [nearReach] at hp
    | some o =>
      simp only [nearReach] at hp
      cases fuel with
      | zero => simp [nearWalk]
      | succ fuel =>
        rw [nearWalk]
        split_ifs
        · simp
        · exact ih fuel _ hp

/-- One iteration of the load-and-activation loop keeps `b` activated, keeps
the radius of the walk and logs no `activate a`, when `b` is an activated
object within that radius on the `near` chain of `a`. -/
theorem considerCandidate_blocked (h : Hooks Obj Cls G) (fuel : Nat) (x y z vis2 R : ℚ)
    (a b o : Obj) (st : State Obj G)
    (hchain : ∀ g, OnNearChain h g a b)
    (hin : ∀ g, h.withinRange g b x y z R = true)
    (hkeep : KeepsActivated h b) (hrad : KeepsRadius h)
    (hR : st.s.visibility * st.s.fadeOverlapFactor = R)
    (hact : h.isActivated st.g b = true) :
    h.isActivated (considerCandidate h fuel x y z vis2 o st).2.g b = true ∧
    (considerCandidate h fuel x y z vis2 o st).2.s.visibility *
      (considerCandidate h fuel x y z vis2 o st).2.s.fadeOverlapFactor = R ∧
    (Event.activate a ∈ (considerCandidate h fuel x y z vis2 o st).2.trace →
      Event.activate a ∈ st.trace) := by
  obtain ⟨kq, kd, ka, kn⟩ := hkeep
  obtain ⟨rd, ra, rn⟩ := hrad
  unfold considerCandidate
  simp only [State.callG, id]
  by_cases h1 : h.isActivated st.g o = true
  · rw [if_pos h1]
    exact ⟨hact, hR, by simp⟩
  · rw [if_neg h1]
    have hob : o ≠ b := by
      intro hc
      rw [hc] at h1
      exact h1 hact
    have hact1 : h.isActivated (h.queueBGPrepare o x y z st.g).2 b = true :=
      kq o x y z st.g hact
    have hg2 : ∀ (c : Bool), (if c = true then
        ({ s := { st.s with loaded := st.s.loaded ++ [o] },
           g := (h.queueBGPrepare o x y z st.g).2,
           trace := st.trace ++ [Event.candidate o] ++ [Event.queueBGPrepare o] } : State Obj G)
        else { s := st.s, g := (h.queueBGPrepare o x y z st.g).2,
               trace := st.trace ++ [Event.candidate o] ++ [Event.queueBGPrepare o] }).g =
        (h.queueBGPrepare o x y z st.g).2 := by
      intro c; cases c <;> rfl
    have ht2 : ∀ (c : Bool), (if c = true then
        ({ s := { st.s with loaded := st.s.loaded ++ [o] },
           g := (h.queueBGPrepare o x y z st.g).2,
           trace := st.trace ++ [Event.candidate o] ++ [Event.queueBGPrepare o] } : State Obj G)
        else { s := st.s, g := (h.queueBGPrepare o x y z st.g).2,
               trace := st.trace ++ [Event.candidate o] ++ [Event.queueBGPrepare o] }).trace =
        st.trace ++ [Event.candidate o] ++ [Event.queueBGPrepare o] := by
      intro c; cases c <;> rfl
    have hr2 : ∀ (c : Bool), (if c = true then
        ({ s := { st.s with loaded := st.s.loaded ++ [o] },
           g := (h.queueBGPrepare o x y z st.g).2,
           trace := st.trace ++ [Event.candidate o] ++ [Event.queueBGPrepare o] } : State Obj G)
        else { s := st.s, g := (h.queueBGPrepare o x y z st.g).2,
               trace := st.trace ++ [Event.candidate o] ++ [Event.queueBGPrepare o] }).s.visibility *
        (if c = true then
        ({ s := { st.s with loaded := st.s.loaded ++ [o] },
           g := (h.queueBGPrepare o x y z st.g).2,
           trace := st.trace ++ [Event.candidate o] ++ [Event.queueBGPrepare o] } : State Obj G)
        else { s := st.s, g := (h.queueBGPrepare o x y z st.g).2,
               trace := st.trace ++ [Event.candidate o] ++
                 [Event.queueBGPrepare o] }).s.fadeOverlapFactor = R := by
      intro c; cases c <;> exact hR
    generalize hst2 : (if (h.queueBGPrepare o x y z st.g).1 = true then
        ({ s := { st.s with loaded := st.s.loaded ++ [o] },
           g := (h.queueBGPrepare o x y z st.g).2,
           trace := st.trace ++ [Event.candidate o] ++ [Event.queueBGPrepare o] } : State Obj G)
        else { s := st.s, g := (h.queueBGPrepare o x y z st.g).2,
               trace := st.trace ++ [Event.candidate o] ++ [Event.queueBGPrepare o] }) = st2
    have hg : st2.g = (h.queueBGPrepare o x y z st.g).2 := by rw [← hst2]; exact hg2 _
    have ht : st2.trace = st.trace ++ [Event.candidate o] ++ [Event.queueBGPrepare o] := by
      rw [← hst2]; exact ht2 _
    have hRs : st2.s.visibility * st2.s.fadeOverlapFactor = R := by
      rw [← hst2]; exact hr2 _
    have hact2 : h.isActivated st2.g b = true := by rw [hg]; exact hact1
    have htr : Event.activate a ∈ st2.trace → Event.activate a ∈ st.trace := by
      rw [ht]
      simp
    by_cases h2 : (!h.backgroundPrepareComplete st2.g o) = true
    · rw [if_pos h2]
      exact ⟨hact2, hRs, htr⟩
    · rw [if_neg h2]
      by_cases h3 : h.range2 st2.g o x y z / vis2 > 1
      · rw [if_pos h3]
        exact ⟨hact2, hRs, htr⟩
      · rw [if_neg h3]
        cases hw : nearWalk h st2.g x y z (st2.s.visibility * st2.s.fadeOverlapFactor) fuel
            (h.getNear st2.g o) with
        | none => exact ⟨hact2, hRs, htr⟩
        | some c =>
          cases c with
          | true =>
            simp only [State.call]
            refine ⟨kd o (st2.s, st2.g) hob hact2, ?_, ?_⟩
            · rw [(rd o (st2.s, st2.g)).1, (rd o (st2.s, st2.g)).2]
              exact hRs
            · intro hm
              simp only [List.mem_append, List.mem_singleton] at hm
              rcases hm with hm | hm
              · exact htr hm
              · cases hm
          | false =>
            have hoa : o ≠ a := by
              intro hc
              subst hc
              obtain ⟨k, hk⟩ := hchain st2.g
              rw [hRs] at hw
              exact nearWalk_blocked h st2.g x y z R b (hin st2.g) hact2 k fuel _ hk hw
            have hne : Event.activate a ≠ Event.activate o := by
              intro hc
              injection hc with hc
              exact hoa hc.symm
            simp only [State.call]
            by_cases h4 : h.getClassIsNull st2.g o = true
            · rw [if_pos h4]
              exact ⟨hact2, hRs, htr⟩
            · rw [if_neg h4]
              have hRa : (h.activate o (st2.s, st2.g)).1.visibility *
                  (h.activate o (st2.s, st2.g)).1.fadeOverlapFactor = R := by
                rw [(ra o (st2.s, st2.g)).1, (ra o (st2.s, st2.g)).2]
                exact hRs
              by_cases h5 : h.getClassIsNull (h.activate o (st2.s, st2.g)).2 o = true
              · rw [if_pos h5]
                refine ⟨ka o (st2.s, st2.g) hact2, hRa, ?_⟩
                intro hm
                simp only [List.mem_append, List.mem_singleton] at hm
                rcases hm with hm | hm
                · exact htr hm
                · exact absurd hm hne
              · rw [if_neg h5]
                refine ⟨kn o _ _ (ka o (st2.s, st2.g) hact2), ?_, ?_⟩
                · rw [(rn o _ _).1, (rn o _ _).2]
                  exact hRa
                · intro hm
                  simp only [List.mem_append, List.mem_singleton] at hm
                  rcases hm with (hm | hm) | hm
                  · exact htr hm
                  · exact absurd hm hne
                  · cases hm

theorem loadAndActivate_blocked (h : Hooks Obj Cls G) (fuel : Nat) (x y z vis2 R : ℚ)
    (a b : Obj)
    (hchain : ∀ g, OnNearChain h g a b)
    (hin : ∀ g, h.withinRange g b x y z R = true)
    (hkeep : KeepsActivated h b) (hrad : KeepsRadius h) :
    ∀ (fnd : List Obj) (st : State Obj G), st.s.visibility * st.s.fadeOverlapFactor = R →
      h.isActivated st.g b = true →
      Event.activate a ∈ (loadAndActivate h fuel x y z vis2 fnd st).2.trace →
      Event.activate a ∈ st.trace := by
  intro fnd
  induction fnd with
  | nil =>
    intro st _ _ hm
    exact hm
  | cons o fnd ih =>
    intro st hR hact hm
    obtain ⟨h1, h2, h3⟩ := considerCandidate_blocked h fuel x y z vis2 R a b o st hchain hin
      hkeep hrad hR hact
    rw [loadAndActivate] at hm
    cases hr : considerCandidate h fuel x y z vis2 o st with
    | mk r st1 =>
      rw [hr] at hm h1 h2 h3
      cases r with
      | ok u =>
        cases u
        exact h3 (ih st1 h2 h1 hm)
      | threw e => exact h3 hm
      | diverged => exact h3 hm

theorem considerCandidate_shape (h : Hooks Obj Cls G) (fuel : Nat) (x y z vis2 : ℚ) (o : Obj)
    (st : State Obj G) :
    ∃ evs, (considerCandidate h fuel x y z vis2 o st).2.trace =
      st.trace ++ Event.candidate o :: evs := by
  unfold considerCandidate
  simp only [State.callG, id]
  by_cases h1 : h.isActivated st.g o = true
  · rw [if_pos h1]
    exact ⟨[], rfl⟩
  · rw [if_neg h1]
    generalize hst2 : (if (h.queueBGPrepare o x y z st.g).1 = true then
        ({ s := { st.s with loaded := st.s.loaded ++ [o] },
           g := (h.queueBGPrepare o x y z st.g).2,
           trace := st.trace ++ [Event.candidate o] ++ [Event.queueBGPrepare o] } : State Obj G)
        else { s := st.s, g := (h.queueBGPrepare o x y z st.g).2,
               trace := st.trace ++ [Event.candidate o] ++ [Event.queueBGPrepare o] }) = st2
    have ht : st2.trace = st.trace ++ [Event.candidate o] ++ [Event.queueBGPrepare o] := by
      rw [← hst2]
      split_ifs <;> rfl
    by_cases h2 : (!h.backgroundPrepareComplete st2.g o) = true
    · rw [if_pos h2]
      exact ⟨[Event.queueBGPrepare o], by simp [ht]⟩
    · rw [if_neg h2]
      by_cases h3 : h.range2 st2.g o x y z / vis2 > 1
      · rw [if_pos h3]
        exact ⟨[Event.queueBGPrepare o], by simp [ht]⟩
      · rw [if_neg h3]
        cases hw : nearWalk h st2.g x y z (st2.s.visibility * st2.s.fadeOverlapFactor) fuel
            (h.getNear st2.g o) with
        | none => exact ⟨[Event.queueBGPrepare o], by simp [ht]⟩
        | some c =>
          cases c with
          | true =>
            exact ⟨[Event.queueBGPrepare o, Event.deactivate o], by simp [State.call, ht]⟩
          | false =>
            simp only [State.call]
            by_cases h4 : h.getClassIsNull st2.g o = true
            · rw [if_pos h4]
              exact ⟨[Event.queueBGPrepare o], by simp [ht]⟩
            · rw [if_neg h4]
              by_cases h5 : h.getClassIsNull (h.activate o (st2.s, st2.g)).2 o = true
              · rw [if_pos h5]
                exact ⟨[Event.queueBGPrepare o, Event.activate o], by simp [ht]⟩
              · rw [if_neg h5]
                exact ⟨[Event.queueBGPrepare o, Event.activate o,
                  Event.notifyRange2 o (h.range2 st2.g o x y z / vis2)], by simp [ht]⟩

theorem considerCandidate_trace (h : Hooks Obj Cls G) (fuel : Nat) (x y z vis2 : ℚ) (o : Obj)
    (st : State Obj G) :
    (∀ e, e ∈ st.trace → e ∈ (considerCandidate h fuel x y z vis2 o st).2.trace) ∧
    Event.candidate o ∈ (considerCandidate h fuel x y z vis2 o st).2.trace := by
  obtain ⟨evs, hevs⟩ := considerCandidate_shape h fuel x y z vis2 o st
  rw [hevs]
  exact ⟨fun e he => List.mem_append_left _ he, by simp⟩

theorem loadAndActivate_spec (h : Hooks Obj Cls G) (fuel : Nat) (x y z vis2 : ℚ) :
    ∀ (fnd : List Obj) (st : State Obj G),
      (∀ e, e ∈ st.trace → e ∈ (loadAndActivate h fuel x y z vis2 fnd st).2.trace) ∧
      ((loadAndActivate h fuel x y z vis2 fnd st).1 = Outcome.ok () →
        ∀ o, o ∈ fnd → Event.candidate o ∈ (loadAndActivate h fuel x y z vis2 fnd st).2.trace) := by
  intro fnd
  induction fnd with
  | nil =>
    intro st
    exact ⟨fun e he => he, fun _ o ho => by simp at ho⟩
  | cons c fnd ih =>
    intro st
    obtain ⟨c1, c2⟩ := considerCandidate_trace h fuel x y z vis2 c st
    rw [loadAndActivate]
    cases hr : considerCandidate h fuel x y z vis2 c st with
    | mk r st1 =>
      rw [hr] at c1 c2
      simp only at c1 c2
      cases r with
      | ok u =>
        cases u
        simp only
        obtain ⟨i1, i2⟩ := ih st1
        refine ⟨fun e he => i1 e (c1 e he), ?_⟩
        intro hok o ho
        rcases List.mem_cons.mp ho with hoc | hof
        · subst hoc
          exact i1 _ c2
        · exact i2 hok o hof
      | threw e => exact ⟨c1, fun hc => by simp at hc⟩
      | diverged => exact ⟨c1, fun hc => by simp at hc⟩

theorem swapPop_length (v : List Obj) (i : Nat) (hi : i < v.length) :
    (swapPop v i (v.length - 1)).length = v.length - 1 := by
  obtain ⟨X, hX, hXp⟩ := swapPop_split v i hi
  rw [hX]
  have := hXp.length_eq
  simp only [List.length_append, List.length_take, List.length_drop] at this ⊢
  omega

theorem evictLoop_returns (h : Hooks Obj Cls G) (x y z tpF : ℚ) :
    ∀ (fuel i i_ : Nat) (st : State Obj G), i ≤ i_ → i_ = st.s.loaded.length → i_ - i ≤ fuel →
      ∃ st2, evictLoop h x y z tpF fuel i i_ st = some st2 := by
  intro fuel
  induction fuel with
  | zero =>
    intro i i_ st hle hlen hfuel
    have hii : i = i_ := by omega
    subst hii
    exact ⟨st, evictLoop_exit h x y z tpF 0 i st⟩
  | succ fuel ih =>
    intro i i_ st hle hlen hfuel
    by_cases hlt : i < i_
    · have hi : i < st.s.loaded.length := hlen ▸ hlt
      have hget : st.s.loaded[i]? = some st.s.loaded[i] := List.getElem?_eq_getElem hi
      rw [evictLoop, if_pos hlt, hget]
      simp only
      split_ifs
      · apply ih
        · omega
        · simp only [State.callG, id]
          rw [hlen, swapPop_length _ _ hi]
        · omega
      · apply ih
        · omega
        · exact hlen
        · omega
    · have hii : i = i_ := by omega
      subst hii
      exact ⟨st, evictLoop_exit h x y z tpF _ i st⟩

theorem considerCandidate_returns (h : Hooks Obj Cls G) (fuel : Nat) (x y z vis2 : ℚ) (o : Obj)
    (st : State Obj G)
    (hwalk : ∀ g (s : Streamer Obj) c,
      nearWalk h g x y z (s.visibility * s.fadeOverlapFactor) fuel (h.getNear g c) ≠ none) :
    (considerCandidate h fuel x y z vis2 o st).1 = Outcome.ok () := by
  unfold considerCandidate
  simp only [State.callG, id]
  split_ifs
  all_goals first
    | rfl
    | (split <;> first
        | rfl
        | (rename_i hw
           exact absurd hw (hwalk _ _ _)))

theorem loadAndActivate_returns (h : Hooks Obj Cls G) (fuel : Nat) (x y z vis2 : ℚ)
    (hwalk : ∀ g (s : Streamer Obj) c,
      nearWalk h g x y z (s.visibility * s.fadeOverlapFactor) fuel (h.getNear g c) ≠ none) :
    ∀ (fnd : List Obj) (st : State Obj G),
      (loadAndActivate h fuel x y z vis2 fnd st).1 = Outcome.ok () := by
  intro fnd
  induction fnd with
  | nil => intro st; rfl
  | cons o fnd ih =>
    intro st
    have hc := considerCandidate_returns h fuel x y z vis2 o st hwalk
    rw [loadAndActivate]
    cases hr : considerCandidate h fuel x y z vis2 o st with
    | mk r st1 =>
      rw [hr] at hc
      simp only at hc
      subst hc
      exact ih st1

theorem sampleHooks_keepsActivated (near far : SampleObj → Option SampleObj)
    (sd : SampleObj → Bool) (b : SampleObj) : KeepsActivated (sampleHooks near far sd) b := by
  refine ⟨?_, ?_, ?_, ?_⟩
  · intro o x y z g hb
    simp only [sampleHooks] at hb ⊢
    split_ifs <;> exact hb
  · intro o w hne hb
    simp only [sampleHooks, sampleDeactivate, decide_eq_true_eq] at hb ⊢
    split_ifs
    · exact (List.mem_erase_of_ne (Ne.symm hne)).mpr hb
    · exact hb
  · intro o w hb
    simp only [sampleHooks, decide_eq_true_eq] at hb ⊢
    exact List.mem_append_left _ hb
  · intro o r w hb
    exact hb

theorem sampleHooks_keepsRadius (near far : SampleObj → Option SampleObj)
    (sd : SampleObj → Bool) : KeepsRadius (sampleHooks near far sd) := by
  have hu : ∀ (s : Streamer SampleObj) (o : SampleObj) (f : Bool),
      (s.unlist o f).visibility = s.visibility ∧
      (s.unlist o f).fadeOverlapFactor = s.fadeOverlapFactor := by
    intro s o f
    unfold Streamer.unlist
    dsimp only
    split_ifs <;> exact ⟨rfl, rfl⟩
  have hl : ∀ (s : Streamer SampleObj) (o : SampleObj) (f : Bool),
      (s.list o f).visibility = s.visibility ∧
      (s.list o f).fadeOverlapFactor = s.fadeOverlapFactor := by
    intro s o f
    unfold Streamer.list
    split_ifs <;> exact ⟨rfl, rfl⟩
  refine ⟨?_, ?_, ?_⟩
  · intro o w
    simp only [sampleHooks, sampleDeactivate]
    split_ifs
    · exact hu w.1 o false
    · exact ⟨rfl, rfl⟩
  · intro o w
    exact hl w.1 o false
  · intro o r w
    exact ⟨rfl, rfl⟩

theorem nearReach_none (h : Hooks Obj Cls G) (g : G) (k : Nat) :
    nearReach h g k none = none := by
  cases k <;> rfl

theorem nearReach_add (h : Hooks Obj Cls G) (g : G) (b : Nat) :
    ∀ (a : Nat) (p : Option Obj), nearReach h g (a + b) p = nearReach h g b (nearReach h g a p) := by
  intro a
  induction a with
  | zero =>
    intro p
    rw [Nat.zero_add]
    rfl
  | succ a ih =>
    intro p
    cases p with
    | none => rw [nearReach_none, nearReach_none, nearReach_none]
    | some o =>
      have e : a + 1 + b = (a + b) + 1 := by omega
      rw [e]
      simp only [nearReach]
      exact ih _

theorem nearReach_none_of_le (h : Hooks Obj Cls G) (g : G) (p : Option Obj) (j k : Nat)
    (hjk : j ≤ k) (hj : nearReach h g j p = none) : nearReach h g k p = none := by
  have e : k = j + (k - j) := by omega
  rw [e, nearReach_add, hj, nearReach_none]

theorem nearWalk_terminates (h : Hooks Obj Cls G) (g : G) (x y z r : ℚ) :
    ∀ (n fuel : Nat) (p : Option Obj), nearReach h g n p = none → n ≤ fuel →
      nearWalk h g x y z r fuel p ≠ none := by
  intro n
  induction n with
  | zero =>
    intro fuel p hp _
    simp only [nearReach] at hp
    subst hp
    cases fuel <;> simp [nearWalk]
  | succ n ih =>
    intro fuel p hp hle
    cases p with
    | none => cases fuel <;> simp [nearWalk]
    | some o =>
      simp only [nearReach] at hp
      cases fuel with
      | zero => omega
      | succ fuel =>
        rw [nearWalk]
        split_ifs
        · simp
        · exact ih fuel _ hp (by omega)

theorem nearWalk_true_exists (h : Hooks Obj Cls G) (g : G) (x y z r : ℚ) :
    ∀ (fuel : Nat) (p : Option Obj), nearWalk h g x y z r fuel p = some true →
      ∃ k b, nearReach h g k p = some b ∧ h.withinRange g b x y z r = true ∧
        h.isActivated g b = true := by
  intro fuel
  induction fuel with
  | zero =>
    intro p hw
    cases p <;> simp [nearWalk] at hw
  | succ fuel ih =>
    intro p hw
    cases p with
    | none => simp [nearWalk] at hw
    | some o =>
      rw [nearWalk] at hw
      split_ifs at hw with hc
      · simp only [Bool.and_eq_true] at hc
        exact ⟨0, o, rfl, hc.1, hc.2⟩
      · obtain ⟨k, b, hk, hb⟩ := ih _ hw
        exact ⟨k + 1, b, hk, hb⟩

theorem nearWalk_true_of_blocked (h : Hooks Obj Cls G) (g : G) (x y z r : ℚ) (b : Obj)
    (hin : h.withinRange g b x y z r = true) (hact : h.isActivated g b = true) :
    ∀ (k fuel : Nat) (p : Option Obj), nearReach h g k p = some b → k < fuel →
      nearWalk h g x y z r fuel p = some true := by
  intro k
  induction k with
  | zero =>
    intro fuel p hp hlt
    simp only [nearReach] at hp
    subst hp
    cases fuel with
    | zero => omega
    | succ fuel => simp [nearWalk, hin, hact]
  | succ k ih =>
    intro fuel p hp hlt
    cases p with
    | none => simp [nearReach] at hp
    | some o =>
      simp only [nearReach] at hp
      cases fuel with
      | zero => omega
      | succ fuel =>
        rw [nearWalk]
        split_ifs
        · rfl
        · exact ih fuel _ hp (by omega)

theorem nearWalk_diverges (h : Hooks Obj Cls G) (g : G) (x y z r : ℚ) :
    ∀ (fuel : Nat) (p : Option Obj), (∀ k, nearReach h g k p ≠ none) →
      (∀ k b, nearReach h g k p = some b →
        ¬ (h.withinRange g b x y z r = true ∧ h.isActivated g b = true)) →
      nearWalk h g x y z r fuel p = none := by
  intro fuel
  induction fuel with
  | zero =>
    intro p hnn _
    cases p with
    | none => exact absurd rfl (hnn 0)
    | some o => rfl
  | succ fuel ih =>
    intro p hnn hfree
    cases p with
    | none => exact absurd rfl (hnn 0)
    | some o =>
      rw [nearWalk]
      have hc : ¬ (h.withinRange g o x y z r && h.isActivated g o) = true := by
        simp only [Bool.and_eq_true]
        exact hfree 0 o rfl
      rw [if_neg hc]
      exact ih _ (fun k => hnn (k + 1)) (fun k b hk => hfree (k + 1) b hk)

theorem nearReach_periodic (h : Hooks Obj Cls G) (g : G) (p : Option Obj) (i len : Nat)
    (hlen : 0 < len) (hcyc : nearReach h g (i + len) p = nearReach h g i p) :
    ∀ k, ∃ j, j < i + len ∧ nearReach h g k p = nearReach h g j p := by
  intro k
  induction k using Nat.strong_induction_on with
  | _ k ih =>
    by_cases hk : k < i + len
    · exact ⟨k, hk, rfl⟩
    · have e : k = (i + len) + (k - (i + len)) := by omega
      have e2 : nearReach h g k p = nearReach h g (i + (k - (i + len))) p := by
        rw [nearReach_add h g (k - (i + len)) i p, ← hcyc, ← nearReach_add, ← e]
      obtain ⟨j, hj, hj2⟩ := ih (i + (k - (i + len))) (by omega)
      exact ⟨j, hj, e2.trans hj2⟩

theorem nearReach_cycle_never_none (h : Hooks Obj Cls G) (g : G) (p : Option Obj)
    (i len : Nat) (hlen : 0 < len) (hi : nearReach h g i p ≠ none)
    (hcyc : nearReach h g (i + len) p = nearReach h g i p) :
    ∀ k, nearReach h g k p ≠ none := by
  intro k hk
  obtain ⟨j, hj, hj2⟩ := nearReach_periodic h g p i len hlen hcyc k
  rw [hj2] at hk
  have := nearReach_none_of_le h g p j (i + len) (by omega) hk
  rw [hcyc] at this
  exact hi this

theorem considerCandidate_walk (h : Hooks Obj Cls G) (fuel : Nat) (x y z vis2 : ℚ) (o : Obj)
    (st : State Obj G) (hna : h.isActivated st.g o = false)
    (hcomplete : h.backgroundPrepareComplete (h.queueBGPrepare o x y z st.g).2 o = true)
    (hrange : ¬ h.range2 (h.queueBGPrepare o x y z st.g).2 o x y z / vis2 > 1) :
    (nearWalk h (h.queueBGPrepare o x y z st.g).2 x y z
        (st.s.visibility * st.s.fadeOverlapFactor) fuel
        (h.getNear (h.queueBGPrepare o x y z st.g).2 o) = none →
      (considerCandidate h fuel x y z vis2 o st).1 = Outcome.diverged ∧
      (considerCandidate h fuel x y z vis2 o st).2.trace =
        st.trace ++ [Event.candidate o, Event.queueBGPrepare o]) ∧
    (nearWalk h (h.queueBGPrepare o x y z st.g).2 x y z
        (st.s.visibility * st.s.fadeOverlapFactor) fuel
        (h.getNear (h.queueBGPrepare o x y z st.g).2 o) = some true →
      (considerCandidate h fuel x y z vis2 o st).1 = Outcome.ok () ∧
      (considerCandidate h fuel x y z vis2 o st).2.trace =
        st.trace ++ [Event.candidate o, Event.queueBGPrepare o, Event.deactivate o]) ∧
    (nearWalk h (h.queueBGPrepare o x y z st.g).2 x y z
        (st.s.visibility * st.s.fadeOverlapFactor) fuel
        (h.getNear (h.queueBGPrepare o x y z st.g).2 o) = some false →
      (considerCandidate h fuel x y z vis2 o st).1 = Outcome.ok () ∧
      ∃ evs, (considerCandidate h fuel x y z vis2 o st).2.trace =
        st.trace ++ [Event.candidate o, Event.queueBGPrepare o] ++ evs ∧
        Event.deactivate o ∉ evs) := by
  have h1 : ¬ h.isActivated st.g o = true := by simp [hna]
  have h2 : ¬ (!h.backgroundPrepareComplete (h.queueBGPrepare o x y z st.g).2 o) = true := by
    simp [hcomplete]
  unfold considerCandidate
  simp only [State.callG, id]
  rw [if_neg h1]
  cases hq : (h.queueBGPrepare o x y z st.g).1
  · simp only [Bool.false_eq_true, if_false]
    rw [if_neg h2, if_neg hrange]
    refine ⟨?_, ?_, ?_⟩
    · intro hw
      rw [hw]
      simp
    · intro hw
      rw [hw]
      simp [State.call]
    · intro hw
      rw [hw]
      simp only [State.call]
      by_cases h4 : h.getClassIsNull (h.queueBGPrepare o x y z st.g).2 o = true
      · rw [if_pos h4]
        exact ⟨rfl, [], by simp, by simp⟩
      · rw [if_neg h4]
        split_ifs
        · exact ⟨rfl, [Event.activate o], by simp, by simp⟩
        · exact ⟨rfl, [Event.activate o, Event.notifyRange2 o
            (h.range2 (h.queueBGPrepare o x y z st.g).2 o x y z / vis2)], by simp, by simp⟩
  · simp only [if_true]
    rw [if_neg h2, if_neg hrange]
    refine ⟨?_, ?_, ?_⟩
    · intro hw
      rw [hw]
      simp
    · intro hw
      rw [hw]
      simp [State.call]
    · intro hw
      rw [hw]
      simp only [State.call]
      by_cases h4 : h.getClassIsNull (h.queueBGPrepare o x y z st.g).2 o = true
      · rw [if_pos h4]
        exact ⟨rfl, [], by simp, by simp⟩
      · rw [if_neg h4]
        split_ifs
        · exact ⟨rfl, [Event.activate o], by simp, by simp⟩
        · exact ⟨rfl, [Event.activate o, Event.notifyRange2 o
            (h.range2 (h.queueBGPrepare o x y z st.g).2 o x y z / vis2)], by simp, by simp⟩

theorem nearReach_succ (h : Hooks Obj Cls G) (g : G) (j : Nat) (p : Option Obj) (c : Obj)
    (hc : nearReach h g (j + 1) p = some c) :
    ∃ u, nearReach h g j p = some u ∧ h.getNear g u = some c := by
  rw [nearReach_add h g 1 j p] at hc
  cases hu : nearReach h g j p with
  | none =>
    rw [hu] at hc
    simp [nearReach] at hc
  | some u =>
    rw [hu] at hc
    exact ⟨u, rfl, hc⟩

theorem nearReach_back (h : Hooks Obj Cls G) (g : G) (p : Option Obj) (len : Nat)
    (hinj : ∀ a b c, h.getNear g a = some c → h.getNear g b = some c → a = b) :
    ∀ i, nearReach h g i p ≠ none → nearReach h g (i + len) p = nearReach h g i p →
      nearReach h g len p = p := by
  intro i
  induction i with
  | zero =>
    intro _ hcyc
    rw [Nat.zero_add] at hcyc
    exact hcyc
  | succ i ih =>
    intro hi hcyc
    obtain ⟨c, hc⟩ := Option.ne_none_iff_exists'.mp hi
    have e : i + 1 + len = (i + len) + 1 := by omega
    rw [e, hc] at hcyc
    obtain ⟨u, hu, hun⟩ := nearReach_succ h g i p c hc
    obtain ⟨v, hv, hvn⟩ := nearReach_succ h g (i + len) p c hcyc
    have huv : v = u := hinj v u c hvn hun
    apply ih
    · rw [hu]
      simp
    · rw [hv, hu, huv]

theorem nearReach_add_cycles (h : Hooks Obj Cls G) (g : G) (p : Option Obj) (len : Nat)
    (hcyc : nearReach h g len p = p) (k : Nat) :
    ∀ n, nearReach h g (k + n * len) p = nearReach h g k p := by
  intro n
  induction n with
  | zero => simp
  | succ n ih =>
    have e : k + (n + 1) * len = len + (k + n * len) := by ring
    rw [e, nearReach_add, hcyc, ih]

theorem nearReach_periodic_from (h : Hooks Obj Cls G) (g : G) (p : Option Obj) (i len : Nat)
    (hlen : 0 < len) (hcyc : nearReach h g (i + len) p = nearReach h g i p) :
    ∀ k, i ≤ k → ∃ j, i ≤ j ∧ j < i + len ∧ nearReach h g k p = nearReach h g j p := by
  intro k
  induction k using Nat.strong_induction_on with
  | _ k ih =>
    intro hik
    by_cases hk : k < i + len
    · exact ⟨k, hik, hk, rfl⟩
    · have e : k = (i + len) + (k - (i + len)) := by omega
      have e2 : nearReach h g k p = nearReach h g (i + (k - (i + len))) p := by
        rw [nearReach_add h g (k - (i + len)) i p, ← hcyc, ← nearReach_add, ← e]
      obtain ⟨j, hj1, hj2, hj3⟩ := ih (i + (k - (i + len))) (by omega) (by omega)
      exact ⟨j, hj1, hj2, e2.trans hj3⟩

theorem nearReach_ring (h : Hooks Obj Cls G) (g : G) (p : Option Obj) (i len : Nat)
    (hlen : 0 < len) (hi : nearReach h g i p ≠ none)
    (hcyc : nearReach h g (i + len) p = nearReach h g i p)
    (hinj : ∀ a b c, h.getNear g a = some c → h.getNear g b = some c → a = b) :
    ∀ k, ∃ j, i ≤ j ∧ j < i + len ∧ nearReach h g k p = nearReach h g j p := by
  intro k
  have h0 := nearReach_back h g p len hinj i hi hcyc
  have hk := nearReach_add_cycles h g p len h0 k i
  have hle : i ≤ k + i * len := by
    have : i * 1 ≤ i * len := Nat.mul_le_mul_left i hlen
    omega
  obtain ⟨j, hj1, hj2, hj3⟩ := nearReach_periodic_from h g p i len hlen hcyc (k + i * len) hle
  exact ⟨j, hj1, hj2, hk.symm.trans hj3⟩

theorem nearWalk_cycle_diverges (h : Hooks Obj Cls G) (g : G) (x y z r : ℚ) (p : Option Obj)
    (i len : Nat) (hlen : 0 < len) (hi : nearReach h g i p ≠ none)
    (hcyc : nearReach h g (i + len) p = nearReach h g i p)
    (hfree : ∀ k b, k < i + len → nearReach h g k p = some b →
      ¬ (h.withinRange g b x y z r = true ∧ h.isActivated g b = true)) :
    ∀ fuel, nearWalk h g x y z r fuel p = none := by
  intro fuel
  apply nearWalk_diverges h g x y z r fuel p
    (nearReach_cycle_never_none h g p i len hlen hi hcyc)
  intro k b hk
  obtain ⟨j, hj, hj2⟩ := nearReach_periodic h g p i len hlen hcyc k
  exact hfree j b hj (hj2 ▸ hk)

theorem nearWalk_ring_diverges (h : Hooks Obj Cls G) (g : G) (x y z r : ℚ) (p : Option Obj)
    (i len : Nat) (hlen : 0 < len) (hi : nearReach h g i p ≠ none)
    (hcyc : nearReach h g (i + len) p = nearReach h g i p)
    (hinj : ∀ a b c, h.getNear g a = some c → h.getNear g b = some c → a = b)
    (hfree : ∀ k b, i ≤ k → k < i + len → nearReach h g k p = some b →
      ¬ (h.withinRange g b x y z r = true ∧ h.isActivated g b = true)) :
    ∀ fuel, nearWalk h g x y z r fuel p = none := by
  intro fuel
  apply nearWalk_diverges h g x y z r fuel p
    (nearReach_cycle_never_none h g p i len hlen hi hcyc)
  intro k b hk
  obtain ⟨j, hj1, hj2, hj3⟩ := nearReach_ring h g p i len hlen hi hcyc hinj k
  exact hfree j b hj1 hj2 (hj3 ▸ hk)

theorem ringNear_injective (a b c : SampleObj) (ha : ringNear a = some c)
    (hb : ringNear b = some c) : a = b := by
  have hAB : ringA ≠ ringB := by decide
  have hAC : ringA ≠ ringC := by decide
  have hBC : ringB ≠ ringC := by decide
  have hAD : ringA ≠ distant := by decide
  have hBD : ringB ≠ distant := by decide
  have hCD : ringC ≠ distant := by decide
  unfold ringNear at ha hb
  split_ifs at ha hb <;> simp_all

theorem nearWalk_cycle_diverges_any (h : Hooks Obj Cls G) (g : G) (x y z r : ℚ)
    (p : Option Obj) (i len : Nat) (hlen : 0 < len) (hi : nearReach h g i p ≠ none)
    (hcyc : nearReach h g (i + len) p = nearReach h g i p)
    (hfree : ∀ k, k < i + len →
      (nearReach h g k p).any (fun b => h.withinRange g b x y z r && h.isActivated g b) =
        false) :
    ∀ fuel, nearWalk h g x y z r fuel p = none := by
  apply nearWalk_cycle_diverges h g x y z r p i len hlen hi hcyc
  intro k b hk hb hc
  have := hfree k hk
  rw [hb] at this
  simp [hc.1, hc.2] at this

theorem evict_of_loaded_nil (h : Hooks Obj Cls G) (x y z tpF : ℚ) (st : State Obj G)
    (hl : st.s.loaded = []) : evict h x y z tpF st = some st := by
  unfold evict
  rw [hl]
  simp [evictLoop]

theorem loadAndActivate_head_diverged (h : Hooks Obj Cls G) (fuel : Nat) (x y z vis2 : ℚ)
    (o : Obj) (fnd : List Obj) (st : State Obj G)
    (hd : (considerCandidate h fuel x y z vis2 o st).1 = Outcome.diverged) :
    loadAndActivate h fuel x y z vis2 (o :: fnd) st = considerCandidate h fuel x y z vis2 o st := by
  rw [loadAndActivate]
  cases hr : considerCandidate h fuel x y z vis2 o st with
  | mk r st1 =>
    rw [hr] at hd
    simp only at hd
    subst hd
    rfl

end LoadFacts

section DeactivationFacts

variable {Obj Cls G : Type} [DecidableEq Obj]

theorem deleteObject_trace (h : Hooks Obj Cls G) (o : Obj) (st : State Obj G) :
    (deleteObject h o st).2.trace = st.trace ++ [Event.destroy o] := by
  unfold deleteObject eraseObject
  split <;> rfl

theorem deactivateVictim_spec (h : Hooks Obj Cls G) (x y z vis2 : ℚ) (o : Obj)
    (st : State Obj G) (fnd : List Obj) :
    (∀ e, e ∈ st.trace → e ∈ (deactivateVictim h x y z vis2 o st fnd).2.1.trace) ∧
    (∀ c, c ∈ fnd → c ∈ (deactivateVictim h x y z vis2 o st fnd).2.2) ∧
    (h.range2 st.g o x y z / vis2 > 1 →
      Event.deactivate o ∈ (deactivateVictim h x y z vis2 o st fnd).2.1.trace ∧
      ∀ b, (∀ g, h.getFar g o = some b) →
        b ∈ (deactivateVictim h x y z vis2 o st fnd).2.2) := by
  unfold deactivateVictim
  dsimp only
  generalize hst2 : (match h.getFar (st.call (Event.notifyRange2 o (h.range2 st.g o x y z / vis2))
      (h.notifyRange2 o (h.range2 st.g o x y z / vis2))).g o with
    | some f =>
      (st.call (Event.notifyRange2 o (h.range2 st.g o x y z / vis2))
        (h.notifyRange2 o (h.range2 st.g o x y z / vis2))).call
        (Event.notifyRange2 f (h.range2 (st.call (Event.notifyRange2 o
          (h.range2 st.g o x y z / vis2))
          (h.notifyRange2 o (h.range2 st.g o x y z / vis2))).g f x y z / vis2))
        (h.notifyRange2 f (h.range2 (st.call (Event.notifyRange2 o
          (h.range2 st.g o x y z / vis2))
          (h.notifyRange2 o (h.range2 st.g o x y z / vis2))).g f x y z / vis2))
    | none => st.call (Event.notifyRange2 o (h.range2 st.g o x y z / vis2))
        (h.notifyRange2 o (h.range2 st.g o x y z / vis2))) = st2
  have hmono : ∀ e, e ∈ st.trace → e ∈ st2.trace := by
    intro e he
    rw [← hst2]
    split <;> simp [State.call, he]
  by_cases hr : h.range2 st.g o x y z / vis2 > 1
  · rw [if_pos hr]
    have hfnd : ∀ c, c ∈ fnd → c ∈ (match h.getFar st2.g o with
        | some f => fnd ++ [f]
        | none => fnd) := by
      intro c hc
      split
      · exact List.mem_append_left _ hc
      · exact hc
    have hfar : ∀ b, (∀ g, h.getFar g o = some b) → b ∈ (match h.getFar st2.g o with
        | some f => fnd ++ [f]
        | none => fnd) := by
      intro b hb
      rw [hb st2.g]
      simp
    by_cases hk : (h.deactivate o (st2.s, st2.g)).1 = true
    · rw [if_pos hk]
      have htr := deleteObject_trace h o
        (st2.call (Event.deactivate o) (fun w => (h.deactivate o w).2))
      cases hd : deleteObject h o
          (st2.call (Event.deactivate o) (fun w => (h.deactivate o w).2)) with
      | mk r st4 =>
        rw [hd] at htr
        simp only at htr
        have ht4 : ∀ e, e ∈ st.trace → e ∈ st4.trace := by
          intro e he
          rw [htr]
          simp [State.call, hmono e he]
        have hd4 : Event.deactivate o ∈ st4.trace := by
          rw [htr]
          simp [State.call]
        cases r with
        | ok u => cases u; exact ⟨ht4, hfnd, fun _ => ⟨hd4, hfar⟩⟩
        | threw e => exact ⟨ht4, hfnd, fun _ => ⟨hd4, hfar⟩⟩
        | diverged => exact ⟨ht4, hfnd, fun _ => ⟨hd4, hfar⟩⟩
    · rw [if_neg hk]
      refine ⟨?_, hfnd, fun _ => ⟨?_, hfar⟩⟩
      · intro e he
        simp [State.call, hmono e he]
      · simp [State.call]
  · rw [if_neg hr]
    exact ⟨hmono, fun c hc => hc, fun hc => absurd hc hr⟩

theorem deactivateDistant_spec (h : Hooks Obj Cls G) (x y z vis2 : ℚ) :
    ∀ (victims : List Obj) (st : State Obj G) (fnd : List Obj),
      (∀ e, e ∈ st.trace → e ∈ (deactivateDistant h x y z vis2 victims st fnd).2.1.trace) ∧
      (∀ c, c ∈ fnd → c ∈ (deactivateDistant h x y z vis2 victims st fnd).2.2) ∧
      ((deactivateDistant h x y z vis2 victims st fnd).1 = Outcome.ok () →
        ∀ a, a ∈ victims → (∀ g, h.range2 g a x y z / vis2 > 1) →
          Event.deactivate a ∈ (deactivateDistant h x y z vis2 victims st fnd).2.1.trace ∧
          ∀ b, (∀ g, h.getFar g a = some b) →
            b ∈ (deactivateDistant h x y z vis2 victims st fnd).2.2) := by
  intro victims
  induction victims with
  | nil =>
    intro st fnd
    exact ⟨fun e he => he, fun c hc => hc, fun _ a ha => by simp at ha⟩
  | cons o victims ih =>
    intro st fnd
    obtain ⟨v1, v2, v3⟩ := deactivateVictim_spec h x y z vis2 o st fnd
    rw [deactivateDistant]
    cases hv : deactivateVictim h x y z vis2 o st fnd with
    | mk r1 rest1 =>
      obtain ⟨st1, fnd1⟩ := rest1
      rw [hv] at v1 v2 v3
      simp only at v1 v2 v3
      cases r1 with
      | ok u =>
        cases u
        simp only
        obtain ⟨i1, i2, i3⟩ := ih st1 fnd1
        refine ⟨fun e he => i1 e (v1 e he), fun c hc => i2 c (v2 c hc), ?_⟩
        intro hok a ha hr
        rcases List.mem_cons.mp ha with hao | hav
        · subst hao
          obtain ⟨w1, w2⟩ := v3 (hr st.g)
          exact ⟨i1 _ w1, fun b hb => i2 b (w2 b hb)⟩
        · exact i3 hok a hav hr
      | threw e =>
        exact ⟨v1, v2, fun hc => by simp at hc⟩
      | diverged =>
        exact ⟨v1, v2, fun hc => by simp at hc⟩

theorem deactivateVictim_returns (h : Hooks Obj Cls G) (x y z vis2 : ℚ) (o : Obj)
    (st : State Obj G) (fnd : List Obj) (hkill : ∀ c w, (h.deactivate c w).1 = false) :
    (deactivateVictim h x y z vis2 o st fnd).1 = Outcome.ok () := by
  unfold deactivateVictim
  dsimp only
  by_cases hr : h.range2 st.g o x y z / vis2 > 1
  · rw [if_pos hr, hkill]
    simp
  · rw [if_neg hr]

theorem deactivateDistant_returns (h : Hooks Obj Cls G) (x y z vis2 : ℚ)
    (hkill : ∀ c w, (h.deactivate c w).1 = false) :
    ∀ (victims : List Obj) (st : State Obj G) (fnd : List Obj),
      (deactivateDistant h x y z vis2 victims st fnd).1 = Outcome.ok () := by
  intro victims
  induction victims with
  | nil => intro st fnd; rfl
  | cons o victims ih =>
    intro st fnd
    have hv := deactivateVictim_returns h x y z vis2 o st fnd hkill
    rw [deactivateDistant]
    cases hr : deactivateVictim h x y z vis2 o st fnd with
    | mk r rest =>
      obtain ⟨st1, fnd1⟩ := rest
      rw [hr] at hv
      simp only at hv
      subst hv
      exact ih st1 fnd1

end DeactivationFacts

/-! ## Facts about objects a frame pass leaves inactive -/

section InactiveFacts

variable {Obj Cls G : Type} [DecidableEq Obj]

theorem deleteObject_g (h : Hooks Obj Cls G) (o : Obj) (st : State Obj G) :
    (deleteObject h o st).2.g = h.rsRemove o (h.destroy o (st.s, st.g)).2 := by
  unfold deleteObject eraseObject
  split <;> rfl

theorem deactivateVictim_no_activate (h : Hooks Obj Cls G) (x y z vis2 : ℚ) (o c : Obj)
    (st : State Obj G) (fnd : List Obj) :
    Event.activate c ∈ (deactivateVictim h x y z vis2 o st fnd).2.1.trace →
      Event.activate c ∈ st.trace := by
  unfold deactivateVictim
  dsimp only
  have hd := deleteObject_trace h o
  have h1 : Event.activate c ∈ (st.call (Event.notifyRange2 o (h.range2 st.g o x y z / vis2))
      (h.notifyRange2 o (h.range2 st.g o x y z / vis2))).trace → Event.activate c ∈ st.trace := by
    intro hc
    simpa [State.call] using hc
  generalize st.call (Event.notifyRange2 o (h.range2 st.g o x y z / vis2))
      (h.notifyRange2 o (h.range2 st.g o x y z / vis2)) = st1 at h1 ⊢
  have h2 : Event.activate c ∈ (match h.getFar st1.g o with
      | some f => st1.call (Event.notifyRange2 f (h.range2 st1.g f x y z / vis2))
          (h.notifyRange2 f (h.range2 st1.g f x y z / vis2))
      | none => st1).trace → Event.activate c ∈ st.trace := by
    intro hc
    split at hc
    · apply h1
      simpa [State.call] using hc
    · exact h1 hc
  generalize (match h.getFar st1.g o with
      | some f => st1.call (Event.notifyRange2 f (h.range2 st1.g f x y z / vis2))
          (h.notifyRange2 f (h.range2 st1.g f x y z / vis2))
      | none => st1) = st2 at h2 ⊢
  have h3 : Event.activate c ∈
      (st2.call (Event.deactivate o) (fun w => (h.deactivate o w).2)).trace →
      Event.activate c ∈ st.trace := by
    intro hc
    apply h2
    simpa [State.call] using hc
  split_ifs
  · have h4 : Event.activate c ∈ (deleteObject h o
        (st2.call (Event.deactivate o) (fun w => (h.deactivate o w).2))).2.trace →
        Event.activate c ∈ st.trace := by
      intro hc
      rw [hd] at hc
      apply h3
      simpa using hc
    split
    all_goals
      rename_i heq
      rw [heq] at h4
      exact h4
  · exact h3
  · exact h2

theorem deactivateVictim_inactive (h : Hooks Obj Cls G) (x y z vis2 : ℚ) (o b : Obj)
    (st : State Obj G) (fnd : List Obj) (hk : KeepsInactive h b)
    (hb : h.isActivated st.g b = false) :
    h.isActivated (deactivateVictim h x y z vis2 o st fnd).2.1.g b = false := by
  obtain ⟨_, k2, _, k4, k5, k6, _⟩ := hk
  unfold deactivateVictim
  dsimp only
  have hd := deleteObject_g h o
  have h1 : h.isActivated (st.call (Event.notifyRange2 o (h.range2 st.g o x y z / vis2))
      (h.notifyRange2 o (h.range2 st.g o x y z / vis2))).g b = false := k4 _ _ _ hb
  generalize st.call (Event.notifyRange2 o (h.range2 st.g o x y z / vis2))
      (h.notifyRange2 o (h.range2 st.g o x y z / vis2)) = st1 at h1 ⊢
  have h2 : h.isActivated (match h.getFar st1.g o with
      | some f => st1.call (Event.notifyRange2 f (h.range2 st1.g f x y z / vis2))
          (h.notifyRange2 f (h.range2 st1.g f x y z / vis2))
      | none => st1).g b = false := by
    split
    · exact k4 _ _ _ h1
    · exact h1
  generalize (match h.getFar st1.g o with
      | some f => st1.call (Event.notifyRange2 f (h.range2 st1.g f x y z / vis2))
          (h.notifyRange2 f (h.range2 st1.g f x y z / vis2))
      | none => st1) = st2 at h2 ⊢
  have h3 : h.isActivated (st2.call (Event.deactivate o) (fun w => (h.deactivate o w).2)).g b =
      false := k2 _ _ h2
  split_ifs
  · have h4 : h.isActivated (deleteObject h o
        (st2.call (Event.deactivate o) (fun w => (h.deactivate o w).2))).2.g b = false := by
      rw [hd]
      exact k6 _ _ (k5 _ _ h3)
    split
    all_goals
      rename_i heq
      rw [heq] at h4
      exact h4
  · exact h3
  · exact h2

theorem deactivateDistant_no_activate (h : Hooks Obj Cls G) (x y z vis2 : ℚ) (c : Obj) :
    ∀ (victims : List Obj) (st : State Obj G) (fnd : List Obj),
      Event.activate c ∈ (deactivateDistant h x y z vis2 victims st fnd).2.1.trace →
        Event.activate c ∈ st.trace := by
  intro victims
  induction victims with
  | nil => intro st fnd hc; exact hc
  | cons o victims ih =>
    intro st fnd
    have v1 := deactivateVictim_no_activate h x y z vis2 o c st fnd
    rw [deactivateDistant]
    cases hv : deactivateVictim h x y z vis2 o st fnd with
    | mk r1 rest1 =>
      obtain ⟨st1, fnd1⟩ := rest1
      rw [hv] at v1
      simp only at v1
      cases r1 with
      | ok u =>
        cases u
        simp only
        exact fun hc => v1 (ih st1 fnd1 hc)
      | threw e => exact v1
      | diverged => exact v1

theorem deactivateDistant_inactive (h : Hooks Obj Cls G) (x y z vis2 : ℚ) (b : Obj)
    (hk : KeepsInactive h b) :
    ∀ (victims : List Obj) (st : State Obj G) (fnd : List Obj),
      h.isActivated st.g b = false →
        h.isActivated (deactivateDistant h x y z vis2 victims st fnd).2.1.g b = false := by
  intro victims
  induction victims with
  | nil => intro st fnd hb; exact hb
  | cons o victims ih =>
    intro st fnd
    have v2 := deactivateVictim_inactive h x y z vis2 o b st fnd hk
    rw [deactivateDistant]
    cases hv : deactivateVictim h x y z vis2 o st fnd with
    | mk r1 rest1 =>
      obtain ⟨st1, fnd1⟩ := rest1
      rw [hv] at v2
      simp only at v2
      cases r1 with
      | ok u =>
        cases u
        simp only
        exact fun hb => ih st1 fnd1 (v2 hb)
      | threw e => exact v2
      | diverged => exact v2

end InactiveFacts

section EvictionInactive

variable {Obj Cls G : Type}

theorem evictLoop_no_activate (h : Hooks Obj Cls G) (x y z tpF : ℚ) (c : Obj) :
    ∀ (fuel i i_ : Nat) (st st2 : State Obj G), evictLoop h x y z tpF fuel i i_ st = some st2 →
      Event.activate c ∈ st2.trace → Event.activate c ∈ st.trace := by
  intro fuel
  induction fuel with
  | zero =>
    intro i i_ st st2 he
    rw [evictLoop] at he
    split_ifs at he
    simp only [Option.some.injEq] at he
    subst he
    exact fun hc => hc
  | succ fuel ih =>
    intro i i_ st st2 he
    rw [evictLoop] at he
    split_ifs at he with h1
    · split at he
      · simp at he
      · rename_i o ho
        split_ifs at he
        · intro hc
          simpa [State.callG] using ih _ _ _ _ he hc
        · intro hc
          simpa [State.callG] using ih _ _ _ _ he hc
    · simp only [Option.some.injEq] at he
      subst he
      exact fun hc => hc

theorem evictLoop_inactive (h : Hooks Obj Cls G) (x y z tpF : ℚ) (b : Obj)
    (hk : KeepsInactive h b) :
    ∀ (fuel i i_ : Nat) (st st2 : State Obj G), evictLoop h x y z tpF fuel i i_ st = some st2 →
      h.isActivated st.g b = false → h.isActivated st2.g b = false := by
  obtain ⟨_, _, _, _, _, _, k7, _⟩ := hk
  intro fuel
  induction fuel with
  | zero =>
    intro i i_ st st2 he
    rw [evictLoop] at he
    split_ifs at he
    simp only [Option.some.injEq] at he
    subst he
    exact fun hb => hb
  | succ fuel ih =>
    intro i i_ st st2 he
    rw [evictLoop] at he
    split_ifs at he with h1
    · split at he
      · simp at he
      · rename_i o ho
        split_ifs at he
        · exact fun hb => ih _ _ _ _ he (k7 _ _ hb)
        · exact fun hb => ih _ _ _ _ he hb
    · simp only [Option.some.injEq] at he
      subst he
      exact fun hb => hb

end EvictionInactive

section CandidateFacts

variable {Obj Cls G : Type}

theorem considerCandidate_skips (h : Hooks Obj Cls G) (fuel : Nat) (x y z vis2 : ℚ) (o : Obj)
    (st : State Obj G) (hna : h.isActivated st.g o = false)
    (hskip : h.backgroundPrepareComplete (h.queueBGPrepare o x y z st.g).2 o = false ∨
      h.range2 (h.queueBGPrepare o x y z st.g).2 o x y z / vis2 > 1) :
    considerCandidate h fuel x y z vis2 o st =
      (Outcome.ok (),
        { s := if (h.queueBGPrepare o x y z st.g).1 = true
            then { st.s with loaded := st.s.loaded ++ [o] } else st.s,
          g := (h.queueBGPrepare o x y z st.g).2,
          trace := st.trace ++ [Event.candidate o, Event.queueBGPrepare o] }) := by
  unfold considerCandidate
  simp only [State.callG, id]
  rw [if_neg (by simp [hna])]
  cases hq : (h.queueBGPrepare o x y z st.g).1
  · simp only [Bool.false_eq_true, if_false]
    rcases hskip with hs | hs
    · simp [hs]
    · by_cases h2 : (!h.backgroundPrepareComplete (h.queueBGPrepare o x y z st.g).2 o) = true
      · rw [if_pos h2]
        simp
      · rw [if_neg h2, if_pos hs]
        simp
  · simp only [if_true]
    rcases hskip with hs | hs
    · simp [hs]
    · by_cases h2 : (!h.backgroundPrepareComplete (h.queueBGPrepare o x y z st.g).2 o) = true
      · rw [if_pos h2]
        simp
      · rw [if_neg h2, if_pos hs]
        simp

theorem considerCandidate_activate (h : Hooks Obj Cls G) (fuel : Nat) (x y z vis2 : ℚ)
    (c o : Obj) (st : State Obj G)
    (hm : Event.activate c ∈ (considerCandidate h fuel x y z vis2 o st).2.trace) :
    Event.activate c ∈ st.trace ∨
      (c = o ∧ h.isActivated st.g o = false ∧
        h.backgroundPrepareComplete (h.queueBGPrepare o x y z st.g).2 o = true ∧
        ¬ h.range2 (h.queueBGPrepare o x y z st.g).2 o x y z / vis2 > 1) := by
  by_cases h1 : h.isActivated st.g o = true
  · left
    unfold considerCandidate at hm
    simp only [State.callG, id] at hm
    rw [if_pos h1] at hm
    simpa using hm
  · have hna : h.isActivated st.g o = false := by simpa using h1
    by_cases h2 : h.backgroundPrepareComplete (h.queueBGPrepare o x y z st.g).2 o = true
    · by_cases h3 : h.range2 (h.queueBGPrepare o x y z st.g).2 o x y z / vis2 > 1
      · left
        rw [considerCandidate_skips h fuel x y z vis2 o st hna (Or.inr h3)] at hm
        simpa using hm
      · by_cases hco : c = o
        · exact Or.inr ⟨hco, hna, h2, h3⟩
        · left
          have hne : Event.activate c ≠ Event.activate o := by
            intro hc
            injection hc with hc
            exact hco hc
          unfold considerCandidate at hm
          simp only [State.callG, id] at hm
          rw [if_neg h1] at hm
          have hg2 : ∀ (q : Bool), (if q = true then
              ({ s := { st.s with loaded := st.s.loaded ++ [o] },
                 g := (h.queueBGPrepare o x y z st.g).2,
                 trace := st.trace ++ [Event.candidate o] ++ [Event.queueBGPrepare o] } :
                   State Obj G)
              else { s := st.s, g := (h.queueBGPrepare o x y z st.g).2,
                     trace := st.trace ++ [Event.candidate o] ++
                       [Event.queueBGPrepare o] }).g =
              (h.queueBGPrepare o x y z st.g).2 := by
            intro q; cases q <;> rfl
          have ht2 : ∀ (q : Bool), (if q = true then
              ({ s := { st.s with loaded := st.s.loaded ++ [o] },
                 g := (h.queueBGPrepare o x y z st.g).2,
                 trace := st.trace ++ [Event.candidate o] ++ [Event.queueBGPrepare o] } :
                   State Obj G)
              else { s := st.s, g := (h.queueBGPrepare o x y z st.g).2,
                     trace := st.trace ++ [Event.candidate o] ++
                       [Event.queueBGPrepare o] }).trace =
              st.trace ++ [Event.candidate o] ++ [Event.queueBGPrepare o] := by
            intro q; cases q <;> rfl
          generalize hst2 : (if (h.queueBGPrepare o x y z st.g).1 = true then
              ({ s := { st.s with loaded := st.s.loaded ++ [o] },
                 g := (h.queueBGPrepare o x y z st.g).2,
                 trace := st.trace ++ [Event.candidate o] ++ [Event.queueBGPrepare o] } :
                   State Obj G)
              else { s := st.s, g := (h.queueBGPrepare o x y z st.g).2,
                     trace := st.trace ++ [Event.candidate o] ++
                       [Event.queueBGPrepare o] }) = st2 at hm
          have ht : st2.trace = st.trace ++ [Event.candidate o] ++ [Event.queueBGPrepare o] := by
            rw [← hst2]; exact ht2 _
          have htr : Event.activate c ∈ st2.trace → Event.activate c ∈ st.trace := by
            rw [ht]
            simp
          by_cases h2' : (!h.backgroundPrepareComplete st2.g o) = true
          · rw [if_pos h2'] at hm
            exact htr hm
          · rw [if_neg h2'] at hm
            by_cases h3' : h.range2 st2.g o x y z / vis2 > 1
            · rw [if_pos h3'] at hm
              exact htr hm
            · rw [if_neg h3'] at hm
              cases hw : nearWalk h st2.g x y z (st2.s.visibility * st2.s.fadeOverlapFactor) fuel
                  (h.getNear st2.g o) with
              | none =>
                rw [hw] at hm
                exact htr hm
              | some w =>
                rw [hw] at hm
                cases w with
                | true =>
                  simp only [State.call, List.mem_append, List.mem_singleton] at hm
                  rcases hm with hm | hm
                  · exact htr hm
                  · cases hm
                | false =>
                  simp only [State.call] at hm
                  by_cases h4 : h.getClassIsNull st2.g o = true
                  · rw [if_pos h4] at hm
                    exact htr hm
                  · rw [if_neg h4] at hm
                    by_cases h5 : h.getClassIsNull (h.activate o (st2.s, st2.g)).2 o = true
                    · rw [if_pos h5] at hm
                      simp only [List.mem_append, List.mem_singleton] at hm
                      rcases hm with hm | hm
                      · exact htr hm
                      · exact absurd hm hne
                    · rw [if_neg h5] at hm
                      simp only [List.mem_append, List.mem_singleton] at hm
                      rcases hm with (hm | hm) | hm
                      · exact htr hm
                      · exact absurd hm hne
                      · cases hm
    · left
      have h2f : h.backgroundPrepareComplete (h.queueBGPrepare o x y z st.g).2 o = false := by
        simpa using h2
      rw [considerCandidate_skips h fuel x y z vis2 o st hna (Or.inl h2f)] at hm
      simpa using hm

theorem considerCandidate_inactive (h : Hooks Obj Cls G) (fuel : Nat) (x y z vis2 : ℚ)
    (b o : Obj) (st : State Obj G) (hk : KeepsInactive h b)
    (hskip : (∀ g, h.backgroundPrepareComplete g b = false) ∨
      (∀ g, h.range2 g b x y z / vis2 > 1))
    (hb : h.isActivated st.g b = false) :
    h.isActivated (considerCandidate h fuel x y z vis2 o st).2.g b = false := by
  obtain ⟨k1, k2, k3, k4, _⟩ := hk
  by_cases hob : o = b
  · subst hob
    rw [considerCandidate_skips h fuel x y z vis2 o st hb
      (hskip.elim (fun hs => Or.inl (hs _)) (fun hs => Or.inr (hs _)))]
    exact k1 _ _ _ _ _ hb
  · unfold considerCandidate
    simp only [State.callG, id]
    by_cases h1 : h.isActivated st.g o = true
    · rw [if_pos h1]
      exact hb
    · rw [if_neg h1]
      have hg2 : ∀ (q : Bool), (if q = true then
          ({ s := { st.s with loaded := st.s.loaded ++ [o] },
             g := (h.queueBGPrepare o x y z st.g).2,
             trace := st.trace ++ [Event.candidate o] ++ [Event.queueBGPrepare o] } :
               State Obj G)
          else { s := st.s, g := (h.queueBGPrepare o x y z st.g).2,
                 trace := st.trace ++ [Event.candidate o] ++
                   [Event.queueBGPrepare o] }).g =
          (h.queueBGPrepare o x y z st.g).2 := by
        intro q; cases q <;> rfl
      generalize hst2 : (if (h.queueBGPrepare o x y z st.g).1 = true then
          ({ s := { st.s with loaded := st.s.loaded ++ [o] },
             g := (h.queueBGPrepare o x y z st.g).2,
             trace := st.trace ++ [Event.candidate o] ++ [Event.queueBGPrepare o] } :
               State Obj G)
          else { s := st.s, g := (h.queueBGPrepare o x y z st.g).2,
                 trace := st.trace ++ [Event.candidate o] ++
                   [Event.queueBGPrepare o] }) = st2
      have hb2 : h.isActivated st2.g b = false := by
        rw [← hst2, hg2]
        exact k1 _ _ _ _ _ hb
      by_cases h2 : (!h.backgroundPrepareComplete st2.g o) = true
      · rw [if_pos h2]
        exact hb2
      · rw [if_neg h2]
        by_cases h3 : h.range2 st2.g o x y z / vis2 > 1
        · rw [if_pos h3]
          exact hb2
        · rw [if_neg h3]
          cases hw : nearWalk h st2.g x y z (st2.s.visibility * st2.s.fadeOverlapFactor) fuel
              (h.getNear st2.g o) with
          | none => exact hb2
          | some w =>
            cases w with
            | true =>
              simp only [State.call]
              exact k2 o (st2.s, st2.g) hb2
            | false =>
              simp only [State.call]
              by_cases h4 : h.getClassIsNull st2.g o = true
              · rw [if_pos h4]
                exact hb2
              · rw [if_neg h4]
                by_cases h5 : h.getClassIsNull (h.activate o (st2.s, st2.g)).2 o = true
                · rw [if_pos h5]
                  exact k3 o (st2.s, st2.g) hob hb2
                · rw [if_neg h5]
                  exact k4 o _ _ (k3 o (st2.s, st2.g) hob hb2)

theorem loadAndActivate_activate (h : Hooks Obj Cls G) (fuel : Nat) (x y z vis2 : ℚ)
    (c : Obj) :
    ∀ (fnd : List Obj) (st : State Obj G),
      Event.activate c ∈ (loadAndActivate h fuel x y z vis2 fnd st).2.trace →
      Event.activate c ∈ st.trace ∨
        (c ∈ fnd ∧ ∃ g, h.isActivated g c = false ∧
          h.backgroundPrepareComplete (h.queueBGPrepare c x y z g).2 c = true ∧
          ¬ h.range2 (h.queueBGPrepare c x y z g).2 c x y z / vis2 > 1) := by
  intro fnd
  induction fnd with
  | nil =>
    intro st hm
    exact Or.inl hm
  | cons o fnd ih =>
    intro st hm
    have h1 := considerCandidate_activate h fuel x y z vis2 c o st
    have key : Event.activate c ∈ (considerCandidate h fuel x y z vis2 o st).2.trace ∨
        (c ∈ fnd ∧ ∃ g, h.isActivated g c = false ∧
          h.backgroundPrepareComplete (h.queueBGPrepare c x y z g).2 c = true ∧
          ¬ h.range2 (h.queueBGPrepare c x y z g).2 c x y z / vis2 > 1) := by
      rw [loadAndActivate] at hm
      cases hr : considerCandidate h fuel x y z vis2 o st with
      | mk r st1 =>
        rw [hr] at hm
        cases r with
        | ok u =>
          cases u
          exact ih st1 hm
        | threw e => exact Or.inl hm
        | diverged => exact Or.inl hm
    rcases key with hk | ⟨hk, hg⟩
    · rcases h1 hk with h2 | ⟨hco, h3, h4, h5⟩
      · exact Or.inl h2
      · subst hco
        exact Or.inr ⟨List.mem_cons_self _ _, st.g, h3, h4, h5⟩
    · exact Or.inr ⟨List.mem_cons_of_mem _ hk, hg⟩

theorem loadAndActivate_inactive (h : Hooks Obj Cls G) (fuel : Nat) (x y z vis2 : ℚ)
    (b : Obj) (hk : KeepsInactive h b)
    (hskip : (∀ g, h.backgroundPrepareComplete g b = false) ∨
      (∀ g, h.range2 g b x y z / vis2 > 1)) :
    ∀ (fnd : List Obj) (st : State Obj G), h.isActivated st.g b = false →
      h.isActivated (loadAndActivate h fuel x y z vis2 fnd st).2.g b = false := by
  intro fnd
  induction fnd with
  | nil =>
    intro st hb
    exact hb
  | cons o fnd ih =>
    intro st hb
    have h1 := considerCandidate_inactive h fuel x y z vis2 b o st hk hskip hb
    rw [loadAndActivate]
    cases hr : considerCandidate h fuel x y z vis2 o st with
    | mk r st1 =>
      rw [hr] at h1
      cases r with
      | ok u =>
        cases u
        exact ih st1 h1
      | threw e => exact h1
      | diverged => exact h1

end CandidateFacts

section PassFacts

variable {Obj Cls G : Type} [DecidableEq Obj]

theorem centre_inv (h : Hooks Obj Cls G) (fuel : Nat) (x y z : ℚ) (st : State Obj G)
    (I : State Obj G → Prop)
    (h0 : I { st with s := { st.s with fresh := [] } })
    (hA : ∀ victims s fnd, I s →
      I (deactivateDistant h x y z (st.s.visibility * st.s.visibility) victims s fnd).2.1)
    (hB : ∀ s s2, evict h x y z (st.s.prepareDistanceFactor * st.s.visibility) s = some s2 →
      I s → I s2)
    (hC : ∀ fnd s, I s →
      I (loadAndActivate h fuel x y z (st.s.visibility * st.s.visibility) fnd s).2)
    (hD : ∀ s, I s → I { s with g := h.checkGPUUsage (h.handleBastards s.g) }) :
    I (centre h fuel x y z st).2 := by
  have key : ∀ r, centre h fuel x y z st = r → I r.2 := by
    intro r hc
    unfold centre at hc
    dsimp only at hc
    have a1 := hA st.s.activated { st with s := { st.s with fresh := [] } } st.s.fresh h0
    cases hd : deactivateDistant h x y z (st.s.visibility * st.s.visibility)
        st.s.activated { st with s := { st.s with fresh := [] } } st.s.fresh with
    | mk r1 rest =>
      obtain ⟨st1, fnd1⟩ := rest
      rw [hd] at hc a1
      simp only at a1
      cases r1 with
      | threw e =>
        simp only at hc
        rw [← hc]
        exact a1
      | diverged =>
        simp only at hc
        rw [← hc]
        exact a1
      | ok u =>
        cases u
        simp only at hc
        cases he : evict h x y z (st.s.prepareDistanceFactor * st.s.visibility) st1 with
        | none =>
          rw [he] at hc
          simp only at hc
          rw [← hc]
          exact a1
        | some st2 =>
          rw [he] at hc
          simp only at hc
          have b1 := hB st1 st2 he a1
          have c1 := hC (h.getPresent st2.g x y z st2.s.stepSize
            (st.s.prepareDistanceFactor * st.s.visibility) fnd1) st2 b1
          cases hl : loadAndActivate h fuel x y z (st.s.visibility * st.s.visibility)
              (h.getPresent st2.g x y z st2.s.stepSize
                (st.s.prepareDistanceFactor * st.s.visibility) fnd1) st2 with
          | mk r3 st3 =>
            rw [hl] at hc c1
            simp only at c1
            cases r3 with
            | threw e =>
              simp only at hc
              rw [← hc]
              exact c1
            | diverged =>
              simp only at hc
              rw [← hc]
              exact c1
            | ok u =>
              cases u
              simp only at hc
              rw [← hc]
              exact hD st3 c1
  exact key _ rfl

theorem centre_ok (h : Hooks Obj Cls G) (fuel : Nat) (x y z : ℚ) (st : State Obj G)
    (hok : (centre h fuel x y z st).1 = Outcome.ok ()) :
    ∃ st1 fnd1 st2 st3,
      deactivateDistant h x y z (st.s.visibility * st.s.visibility) st.s.activated
        { st with s := { st.s with fresh := [] } } st.s.fresh = (Outcome.ok (), st1, fnd1) ∧
      evict h x y z (st.s.prepareDistanceFactor * st.s.visibility) st1 = some st2 ∧
      loadAndActivate h fuel x y z (st.s.visibility * st.s.visibility)
        (h.getPresent st2.g x y z st2.s.stepSize
          (st.s.prepareDistanceFactor * st.s.visibility) fnd1) st2 = (Outcome.ok (), st3) ∧
      centre h fuel x y z st =
        (Outcome.ok (), { st3 with g := h.checkGPUUsage (h.handleBastards st3.g) }) := by
  have key : ∀ r, centre h fuel x y z st = r → r.1 = Outcome.ok () →
      ∃ st1 fnd1 st2 st3,
        deactivateDistant h x y z (st.s.visibility * st.s.visibility) st.s.activated
          { st with s := { st.s with fresh := [] } } st.s.fresh = (Outcome.ok (), st1, fnd1) ∧
        evict h x y z (st.s.prepareDistanceFactor * st.s.visibility) st1 = some st2 ∧
        loadAndActivate h fuel x y z (st.s.visibility * st.s.visibility)
          (h.getPresent st2.g x y z st2.s.stepSize
            (st.s.prepareDistanceFactor * st.s.visibility) fnd1) st2 = (Outcome.ok (), st3) ∧
        r = (Outcome.ok (), { st3 with g := h.checkGPUUsage (h.handleBastards st3.g) }) := by
    intro r hc hdone
    unfold centre at hc
    dsimp only at hc
    cases hd : deactivateDistant h x y z (st.s.visibility * st.s.visibility)
        st.s.activated { st with s := { st.s with fresh := [] } } st.s.fresh with
    | mk r1 rest =>
      obtain ⟨st1, fnd1⟩ := rest
      rw [hd] at hc
      cases r1 with
      | threw e =>
        simp only at hc
        rw [← hc] at hdone
        simp at hdone
      | diverged =>
        simp only at hc
        rw [← hc] at hdone
        simp at hdone
      | ok u =>
        cases u
        simp only at hc
        cases he : evict h x y z (st.s.prepareDistanceFactor * st.s.visibility) st1 with
        | none =>
          rw [he] at hc
          simp only at hc
          rw [← hc] at hdone
          simp at hdone
        | some st2 =>
          rw [he] at hc
          simp only at hc
          cases hl : loadAndActivate h fuel x y z (st.s.visibility * st.s.visibility)
              (h.getPresent st2.g x y z st2.s.stepSize
                (st.s.prepareDistanceFactor * st.s.visibility) fnd1) st2 with
          | mk r3 st3 =>
            rw [hl] at hc
            cases r3 with
            | threw e =>
              simp only at hc
              rw [← hc] at hdone
              simp at hdone
            | diverged =>
              simp only at hc
              rw [← hc] at hdone
              simp at hdone
            | ok u =>
              cases u
              simp only at hc
              exact ⟨st1, fnd1, st2, st3, rfl, he, hl, hc.symm⟩
  exact key _ rfl hok

theorem loadAndActivate_queues (h : Hooks Obj Cls G) (fuel : Nat) (x y z vis2 : ℚ)
    (b : Obj) (hk : KeepsInactive h b)
    (hskip : (∀ g, h.backgroundPrepareComplete g b = false) ∨
      (∀ g, h.range2 g b x y z / vis2 > 1)) :
    ∀ (fnd : List Obj) (st : State Obj G), h.isActivated st.g b = false → b ∈ fnd →
      (loadAndActivate h fuel x y z vis2 fnd st).1 = Outcome.ok () →
      Event.queueBGPrepare b ∈ (loadAndActivate h fuel x y z vis2 fnd st).2.trace := by
  intro fnd
  induction fnd with
  | nil =>
    intro st _ hm
    simp at hm
  | cons o fnd ih =>
    intro st hb hm hok
    have h1 := considerCandidate_inactive h fuel x y z vis2 b o st hk hskip hb
    rw [loadAndActivate] at hok ⊢
    by_cases hob : o = b
    · subst hob
      have hs := considerCandidate_skips h fuel x y z vis2 o st hb
        (hskip.elim (fun hs => Or.inl (hs _)) (fun hs => Or.inr (hs _)))
      rw [hs]
      simp only
      apply (loadAndActivate_spec h fuel x y z vis2 fnd _).1
      simp
    · have hm2 : b ∈ fnd := by
        rcases List.mem_cons.mp hm with hm | hm
        · exact absurd hm.symm hob
        · exact hm
      cases hr : considerCandidate h fuel x y z vis2 o st with
      | mk r st1 =>
        rw [hr] at h1 hok
        cases r with
        | ok u =>
          cases u
          exact ih st1 h1 hm2 hok
        | threw e => simp at hok
        | diverged => simp at hok

theorem sampleHooks_keepsInactive (near far : SampleObj → Option SampleObj)
    (sd : SampleObj → Bool) (b : SampleObj) : KeepsInactive (sampleHooks near far sd) b := by
  have hd : ∀ o (w : Streamer SampleObj × SampleWorld), b ∉ w.2.active →
      b ∉ (sampleDeactivate sd o w).2.2.active := by
    intro o w hb
    simp only [sampleDeactivate]
    split_ifs
    · exact fun hc => hb (List.mem_of_mem_erase hc)
    · exact hb
  refine ⟨?_, ?_, ?_, ?_, ?_, ?_, ?_, ?_, ?_⟩
  · intro o x y z g hb
    simp only [sampleHooks] at hb ⊢
    split_ifs <;> exact hb
  · intro o w hb
    simp only [sampleHooks, decide_eq_false_iff_not] at hb ⊢
    exact hd o w hb
  · intro o w hne hb
    simp only [sampleHooks, decide_eq_false_iff_not, List.mem_append, List.mem_singleton,
      not_or] at hb ⊢
    exact ⟨hb, fun hc => hne hc.symm⟩
  · intro o r w hb
    exact hb
  · intro o w hb
    simp only [sampleHooks, decide_eq_false_iff_not] at hb ⊢
    exact hd o w hb
  · intro o g hb
    exact hb
  · intro o g hb
    exact hb
  · intro g hb
    exact hb
  · intro g hb
    exact hb

theorem insertObject_fresh (h : Hooks Obj Cls G) (name : String) (cls : Cls)
    (st : State Obj G) (self : Obj) (hok : (insertObject h name cls st).1 = Outcome.ok self) :
    self ∈ (insertObject h name cls st).2.s.fresh := by
  unfold insertObject at hok ⊢
  dsimp only at hok ⊢
  split at hok
  all_goals
    simp only at hok ⊢
    first
    | (cases hok; simp)
    | cases hok

theorem addObject_fresh (h : Hooks Obj Cls G) (name : String) (cls : Cls)
    (st : State Obj G) (self : Obj) (hok : (addObject h name cls st).1 = Outcome.ok self) :
    self ∈ (addObject h name cls st).2.s.fresh := by
  unfold addObject at hok ⊢
  by_cases hg : st.s.gfx = none
  · rw [if_pos hg] at hok
    cases hok
  · rw [if_neg hg] at hok ⊢
    by_cases hp : st.s.physics = none
    · rw [if_pos hp] at hok
      cases hok
    · rw [if_neg hp] at hok ⊢
      by_cases hn : name = ""
      · rw [if_pos hn] at hok ⊢
        cases hgen : generateName st.s.gObjs (st.s.gObjs.length + 1)
            st.s.nameGenerationCounter with
        | none =>
          rw [hgen] at hok
          cases hok
        | some r =>
          rw [hgen] at hok
          exact insertObject_fresh h _ cls _ self hok
      · rw [if_neg hn] at hok ⊢
        exact insertObject_fresh h name cls st self hok

theorem centre_diverges_at_head (h : Hooks Obj Cls G) (fuel : Nat) (x y z : ℚ)
    (st : State Obj G) (o : Obj) (rest : List Obj)
    (D : Outcome Unit × State Obj G × List Obj)
    (hD : deactivateDistant h x y z (st.s.visibility * st.s.visibility) st.s.activated
      { st with s := { st.s with fresh := [] } } st.s.fresh = D)
    (hD1 : D.1 = Outcome.ok ()) (hL : D.2.1.s.loaded = [])
    (hP : h.getPresent D.2.1.g x y z D.2.1.s.stepSize
      (st.s.prepareDistanceFactor * st.s.visibility) D.2.2 = o :: rest)
    (hW : (considerCandidate h fuel x y z (st.s.visibility * st.s.visibility) o D.2.1).1 =
      Outcome.diverged) :
    centre h fuel x y z st =
      considerCandidate h fuel x y z (st.s.visibility * st.s.visibility) o D.2.1 := by
  have hl := loadAndActivate_head_diverged h fuel x y z (st.s.visibility * st.s.visibility)
    o rest D.2.1 hW
  unfold centre
  dsimp only
  rw [hD]
  obtain ⟨r1, st1, fnd1⟩ := D
  simp only at hD1 hL hP hW hl
  subst hD1
  simp only
  rw [evict_of_loaded_nil h x y z _ st1 hL]
  simp only
  rw [hP, hl]
  cases hc : considerCandidate h fuel x y z (st.s.visibility * st.s.visibility) o st1 with
  | mk r st3 =>
    rw [hc] at hW
    simp only at hW
    subst hW
    rfl

theorem centre_keeps_phaseA_trace (h : Hooks Obj Cls G) (fuel : Nat) (x y z : ℚ)
    (st : State Obj G) (e : Event Obj)
    (he : e ∈ (deactivateDistant h x y z (st.s.visibility * st.s.visibility) st.s.activated
      { st with s := { st.s with fresh := [] } } st.s.fresh).2.1.trace) :
    e ∈ (centre h fuel x y z st).2.trace := by
  have key : ∀ r, centre h fuel x y z st = r → e ∈ r.2.trace := by
    intro r hc
    unfold centre at hc
    dsimp only at hc
    cases hd : deactivateDistant h x y z (st.s.visibility * st.s.visibility)
        st.s.activated { st with s := { st.s with fresh := [] } } st.s.fresh with
    | mk r1 rest =>
      obtain ⟨st1, fnd1⟩ := rest
      rw [hd] at hc he
      simp only at he
      cases r1 with
      | threw e1 =>
        simp only at hc
        rw [← hc]
        exact he
      | diverged =>
        simp only at hc
        rw [← hc]
        exact he
      | ok u =>
        cases u
        simp only at hc
        cases hev : evict h x y z (st.s.prepareDistanceFactor * st.s.visibility) st1 with
        | none =>
          rw [hev] at hc
          simp only at hc
          rw [← hc]
          exact he
        | some st2 =>
          rw [hev] at hc
          simp only at hc
          have e1 := evictLoop_trace h x y z _ _ _ _ st1 st2 hev e he
          have l1 := (loadAndActivate_spec h fuel x y z (st.s.visibility * st.s.visibility)
            (h.getPresent st2.g x y z st2.s.stepSize
              (st.s.prepareDistanceFactor * st.s.visibility) fnd1) st2).1 e e1
          cases hl : loadAndActivate h fuel x y z (st.s.visibility * st.s.visibility)
              (h.getPresent st2.g x y z st2.s.stepSize
                (st.s.prepareDistanceFactor * st.s.visibility) fnd1) st2 with
          | mk r3 st3 =>
            rw [hl] at hc l1
            simp only at l1
            cases r3 with
            | threw e3 =>
              simp only at hc
              rw [← hc]
              exact l1
            | diverged =>
              simp only at hc
              rw [← hc]
              exact l1
            | ok u =>
              cases u
              simp only at hc
              rw [← hc]
              exact l1
  exact key _ rfl

end PassFacts

/-! ## Theorems about the streamer -/

section StreamerTheorems

variable {Obj Cls G : Type} [DecidableEq Obj]

/-- C3, amended: starting from empty `activated` and `needFrameCallbacks`,
after any sequence of `list`, `unlist` and `setNeedsFrameCallbacks` calls in
which the flags each call reads agree with the sets (`unlist(o)` finds the
wants-frame-callback flag set when `o` is subscribed, and
`setNeedsFrameCallbacks(o, true)` finds `o` activated only when it is
listed), every object in `needFrameCallbacks` is in `activated`; and a
further such `unlist(o)` leaves `o` in neither vector. -/
theorem needFrameCallbacks_subset_activated (s0 : Streamer Obj) (h1 : s0.activated = [])
    (h2 : s0.needFrameCallbacks = []) (calls : List (Call Obj)) (hag : RunAgrees s0 calls) :
    (∀ o, o ∈ (s0.run calls).needFrameCallbacks → o ∈ (s0.run calls).activated) ∧
    (∀ o f, Call.Agrees (s0.run calls) (Call.unlist o f) →
      o ∉ ((s0.run calls).unlist o f).activated ∧
      o ∉ ((s0.run calls).unlist o f).needFrameCallbacks) := by
  have hinv0 : SetsInv s0 := by simp [SetsInv, h1, h2]
  have hinv := run_preserves calls s0 hinv0 hag
  refine ⟨hinv.2.2, ?_⟩
  intro o f hagu
  have hinv' := unlist_preserves (s0.run calls) o f hinv hagu
  have hna : o ∉ ((s0.run calls).unlist o f).activated := by
    rw [unlist_activated]
    exact not_mem_remove_if_exists _ _ (List.nodup_iff_count_le_one.mp hinv.1 o)
  exact ⟨hna, fun hn => hna (hinv'.2.2 o hn)⟩

/-- Witness for C3 (amended): object 7 is listed wanting callbacks, drops and
regains its subscription, and is unlisted. -/
theorem needFrameCallbacks_subset_activated_witness :
    RunAgrees (Streamer.initial 1 1 1 1 : Streamer Nat)
      [Call.list 7 true, Call.setNeedsFrameCallbacks 7 false true,
        Call.setNeedsFrameCallbacks 7 true true, Call.list 8 false] ∧
    (∀ o, o ∈ ((Streamer.initial 1 1 1 1 : Streamer Nat).run
        [Call.list 7 true, Call.setNeedsFrameCallbacks 7 false true,
          Call.setNeedsFrameCallbacks 7 true true, Call.list 8 false]).needFrameCallbacks →
      o ∈ ((Streamer.initial 1 1 1 1 : Streamer Nat).run
        [Call.list 7 true, Call.setNeedsFrameCallbacks 7 false true,
          Call.setNeedsFrameCallbacks 7 true true, Call.list 8 false]).activated) :=
  ⟨by decide,
    (needFrameCallbacks_subset_activated (Streamer.initial 1 1 1 1 : Streamer Nat) rfl rfl
      [Call.list 7 true, Call.setNeedsFrameCallbacks 7 false true,
        Call.setNeedsFrameCallbacks 7 true true, Call.list 8 false] (by decide)).1⟩

/-- Counterexample for C3 as stated: `list(7)` while 7 wants frame callbacks,
then `unlist(7)` after the flag has been cleared, leaves 7 in
`needFrameCallbacks` and not in `activated`. -/
theorem needFrameCallbacks_not_subset_activated :
    7 ∈ ((Streamer.initial 1 1 1 1 : Streamer Nat).run
      [Call.list 7 true, Call.unlist 7 false]).needFrameCallbacks ∧
    7 ∉ ((Streamer.initial 1 1 1 1 : Streamer Nat).run
      [Call.list 7 true, Call.unlist 7 false]).activated := by
  decide

/-- C8, amended: when `o` is registered under its name and the `destroy`
hook leaves the registry alone and leaves `o` at most once in `fresh` and in
`needFrameCallbacks`, `deleteObject(o)` returns; afterwards `o` is in neither
`fresh` nor `needFrameCallbacks` and its name is not in the registry, while
`loaded` and `activated` are exactly as the `destroy` hook left them
(`deleteObject` itself removes `o` from neither). The hook is the first call
and receives the state as it was before any removal: the removals act on
what the hook returns. -/
theorem deleteObject_removes (h : Hooks Obj Cls G) (o : Obj) (st : State Obj G)
    (hpre : gObjsFind st.s.gObjs (h.name o) = some o)
    (hreg : (h.destroy o (st.s, st.g)).1.gObjs = st.s.gObjs)
    (hfresh : (h.destroy o (st.s, st.g)).1.fresh.count o ≤ 1)
    (hnfc : (h.destroy o (st.s, st.g)).1.needFrameCallbacks.count o ≤ 1) :
    (deleteObject h o st).1 = Outcome.ok () ∧
    o ∉ (deleteObject h o st).2.s.fresh ∧
    o ∉ (deleteObject h o st).2.s.needFrameCallbacks ∧
    gObjsFind (deleteObject h o st).2.s.gObjs (h.name o) = none ∧
    (deleteObject h o st).2.s.fresh = remove_if_exists (h.destroy o (st.s, st.g)).1.fresh o ∧
    (deleteObject h o st).2.s.needFrameCallbacks =
      remove_if_exists (h.destroy o (st.s, st.g)).1.needFrameCallbacks o ∧
    (deleteObject h o st).2.s.loaded = (h.destroy o (st.s, st.g)).1.loaded ∧
    (deleteObject h o st).2.s.activated = (h.destroy o (st.s, st.g)).1.activated ∧
    (deleteObject h o st).2.trace = st.trace ++ [Event.destroy o] := by
  have hsome : (gObjsFind (h.destroy o (st.s, st.g)).1.gObjs (h.name o)).isSome := by
    rw [hreg, hpre]
    rfl
  rw [deleteObject_eq h o st hsome]
  exact ⟨rfl, not_mem_remove_if_exists _ _ hfresh, not_mem_remove_if_exists _ _ hnfc,
    gObjsFind_erase_self _ _, rfl, rfl, rfl, rfl, rfl⟩

/-- C6, amended: in a configured streamer whose registry maps the non-empty
`name` to `old` (an object of that name), when the `destroy` hook leaves the
registry alone and leaves `old` at most once in `fresh` and in
`needFrameCallbacks`, and the created object is a new one: `addObject(name, cls)` first deletes `old` (the
`destroy` hook runs, and `old` is out of the registry, `fresh` and
`needFrameCallbacks`), then inserts the created object into that state; it
returns the created object, the registry maps `name` to it and not to `old`,
it is in `fresh`, and every other name is mapped as before. -/
theorem addObject_replaces (h : Hooks Obj Cls G) (name : String) (cls : Cls)
    (st : State Obj G) (old : Obj)
    (hgfx : st.s.gfx ≠ none) (hphys : st.s.physics ≠ none) (hname : name ≠ "")
    (hold : gObjsFind st.s.gObjs name = some old) (hnm : h.name old = name)
    (hreg : (h.destroy old (st.s, st.g)).1.gObjs = st.s.gObjs)
    (hfresh : (h.destroy old (st.s, st.g)).1.fresh.count old ≤ 1)
    (hnfc : (h.destroy old (st.s, st.g)).1.needFrameCallbacks.count old ≤ 1)
    (hnew : (h.create name cls (deleteObject h old st).2.g).1 ≠ old) :
    (deleteObject h old st).1 = Outcome.ok () ∧
    Event.destroy old ∈ (deleteObject h old st).2.trace ∧
    gObjsFind (deleteObject h old st).2.s.gObjs name = none ∧
    old ∉ (deleteObject h old st).2.s.fresh ∧
    old ∉ (deleteObject h old st).2.s.needFrameCallbacks ∧
    (addObject h name cls st).1 = Outcome.ok (h.create name cls (deleteObject h old st).2.g).1 ∧
    (addObject h name cls st).2.s.gObjs =
      gObjsAssign (deleteObject h old st).2.s.gObjs name
        (h.create name cls (deleteObject h old st).2.g).1 ∧
    (addObject h name cls st).2.s.fresh =
      (deleteObject h old st).2.s.fresh ++ [(h.create name cls (deleteObject h old st).2.g).1] ∧
    (addObject h name cls st).2.s.needFrameCallbacks =
      (deleteObject h old st).2.s.needFrameCallbacks ∧
    gObjsFind (addObject h name cls st).2.s.gObjs name =
      some (h.create name cls (deleteObject h old st).2.g).1 ∧
    gObjsFind (addObject h name cls st).2.s.gObjs name ≠ some old ∧
    (h.create name cls (deleteObject h old st).2.g).1 ∈ (addObject h name cls st).2.s.fresh ∧
    old ∉ (addObject h name cls st).2.s.fresh ∧
    (∀ n, n ≠ name →
      gObjsFind (addObject h name cls st).2.s.gObjs n = gObjsFind st.s.gObjs n) := by
  have hpre : gObjsFind st.s.gObjs (h.name old) = some old := by rw [hnm]; exact hold
  have hsome : (gObjsFind (h.destroy old (st.s, st.g)).1.gObjs (h.name old)).isSome := by
    rw [hreg, hpre]
    rfl
  have hde := deleteObject_eq h old st hsome
  have d1 : (deleteObject h old st).1 = Outcome.ok () := by rw [hde]
  have d2 : old ∉ (deleteObject h old st).2.s.fresh := by
    rw [hde]
    exact not_mem_remove_if_exists _ _ hfresh
  have d3 : old ∉ (deleteObject h old st).2.s.needFrameCallbacks := by
    rw [hde]
    exact not_mem_remove_if_exists _ _ hnfc
  have d4 : gObjsFind (deleteObject h old st).2.s.gObjs (h.name old) = none := by
    rw [hde]
    exact gObjsFind_erase_self _ _
  have d9 : (deleteObject h old st).2.trace = st.trace ++ [Event.destroy old] := by rw [hde]
  have hadd : addObject h name cls st = insertObject h name cls st := by
    simp [addObject, hgfx, hphys, hname]
  rw [hadd, insertObject_collision h name cls st old hold hsome]
  have hdel : (deleteObject h old st).2.s.gObjs = gObjsErase st.s.gObjs name := by
    rw [deleteObject_eq h old st hsome, hnm, hreg]
  refine ⟨d1, by rw [d9]; simp, by rw [← hnm]; exact d4, d2, d3, rfl, rfl, rfl, rfl,
    gObjsFind_assign_self _ _ _, ?_, by simp, ?_, ?_⟩
  · simp only [gObjsFind_assign_self]
    intro hc
    exact hnew (Option.some.inj hc)
  · simp only [List.mem_append, List.mem_singleton, not_or]
    exact ⟨d2, fun hc => hnew hc.symm⟩
  · intro n hn
    simp only
    rw [gObjsFind_assign_ne _ _ _ _ hn, hdel, gObjsFind_erase_ne _ _ _ hn]

/-- C10: `addObject` throws the configuration error exactly when the graphics
handle or the physics handle is null; in that case the state (registry,
`fresh`, spatial index, name counter and all the rest) is unchanged; and when
both handles are set it returns an object, the name loop always ending, as
long as the `destroy` hook of a replaced object leaves that object's name
registered. -/
theorem addObject_configuration_error (h : Hooks Obj Cls G) (name : String) (cls : Cls)
    (st : State Obj G) :
    ((addObject h name cls st).1 = Outcome.threw OgreError.ERR_INTERNAL_ERROR ↔
      (st.s.gfx = none ∨ st.s.physics = none)) ∧
    ((st.s.gfx = none ∨ st.s.physics = none) → (addObject h name cls st).2 = st) ∧
    (st.s.gfx ≠ none → st.s.physics ≠ none →
      (∀ old, gObjsFind st.s.gObjs name = some old →
        (gObjsFind (h.destroy old (st.s, st.g)).1.gObjs (h.name old)).isSome) →
      ∃ self, (addObject h name cls st).1 = Outcome.ok self) := by
  refine ⟨⟨?_, ?_⟩, ?_, ?_⟩
  · intro hthrow
    by_contra hc
    simp only [not_or] at hc
    obtain ⟨hg, hp⟩ := hc
    unfold addObject at hthrow
    rw [if_neg hg, if_neg hp] at hthrow
    by_cases hn : name = ""
    · rw [if_pos hn] at hthrow
      obtain ⟨r, hr⟩ := generateName_returns st.s.gObjs st.s.nameGenerationCounter
      rw [hr] at hthrow
      exact insertObject_outcome h _ _ _ hthrow
    · rw [if_neg hn] at hthrow
      exact insertObject_outcome h _ _ _ hthrow
  · intro hc
    unfold addObject
    rcases hc with hg | hp
    · rw [if_pos hg]
    · by_cases hg : st.s.gfx = none
      · rw [if_pos hg]
      · rw [if_neg hg, if_pos hp]
  · intro hc
    unfold addObject
    rcases hc with hg | hp
    · rw [if_pos hg]
    · by_cases hg : st.s.gfx = none
      · rw [if_pos hg]
      · rw [if_neg hg, if_pos hp]
  · intro hg hp hhook
    unfold addObject
    rw [if_neg hg, if_neg hp]
    by_cases hn : name = ""
    · rw [if_pos hn]
      obtain ⟨r, hr⟩ := generateName_returns st.s.gObjs st.s.nameGenerationCounter
      rw [hr]
      have hfree := (generateName_spec st.s.gObjs _ _ r hr).1
      simp only
      rw [insertObject_fresh_name h r.1 cls
        { st with s := { st.s with nameGenerationCounter := r.2 } } hfree]
      exact ⟨_, rfl⟩
    · rw [if_neg hn]
      cases hf : gObjsFind st.s.gObjs name with
      | none =>
        rw [insertObject_fresh_name h name cls st hf]
        exact ⟨_, rfl⟩
      | some old =>
        rw [insertObject_collision h name cls st old hf (hhook old hf)]
        exact ⟨_, rfl⟩

/-- Witness for C8 (amended): deleting the activated, loaded `rock1` of the
sample run after its second pass. -/
theorem deleteObject_removes_witness :
    (deleteObject plainHooks rock1 samplePass2).1 = Outcome.ok () ∧
    rock1 ∉ (deleteObject plainHooks rock1 samplePass2).2.s.fresh ∧
    rock1 ∉ (deleteObject plainHooks rock1 samplePass2).2.s.needFrameCallbacks ∧
    gObjsFind (deleteObject plainHooks rock1 samplePass2).2.s.gObjs "rock1" = none :=
  ⟨(deleteObject_removes plainHooks rock1 samplePass2 (by decide!) (by decide!) (by decide!)
      (by decide!)).1,
    (deleteObject_removes plainHooks rock1 samplePass2 (by decide!) (by decide!) (by decide!)
      (by decide!)).2.1,
    (deleteObject_removes plainHooks rock1 samplePass2 (by decide!) (by decide!) (by decide!)
      (by decide!)).2.2.1,
    (deleteObject_removes plainHooks rock1 samplePass2 (by decide!) (by decide!) (by decide!)
      (by decide!)).2.2.2.1⟩

/-- Counterexample for C8 as stated: in the sample run, `rock1` is registered
and, after its load was queued by a frame pass, is in `loaded`;
`deleteObject(rock1)` returns and `rock1` is still in `loaded`. -/
theorem deleteObject_leaves_loaded :
    gObjsFind samplePass2.s.gObjs "rock1" = some rock1 ∧
    rock1 ∈ samplePass2.s.loaded ∧
    (deleteObject plainHooks rock1 samplePass2).1 = Outcome.ok () ∧
    rock1 ∈ (deleteObject plainHooks rock1 samplePass2).2.s.loaded := by
  decide!

/-- Witness for C6 (amended): `addObject("rock1", 4)` on the sample run that already
holds the activated `rock1`. -/
theorem addObject_replaces_witness :
    gObjsFind (addObject plainHooks "rock1" 4 samplePass2).2.s.gObjs "rock1" =
      some ⟨1, "rock1", 4⟩ ∧
    Event.destroy rock1 ∈ (deleteObject plainHooks rock1 samplePass2).2.trace ∧
    rock1 ∉ (addObject plainHooks "rock1" 4 samplePass2).2.s.fresh :=
  ⟨(addObject_replaces plainHooks "rock1" 4 samplePass2 rock1 (by decide!) (by decide!)
      (by decide!) (by decide!) (by decide!) (by decide!) (by decide!) (by decide!)
      (by decide!)).2.2.2.2.2.2.2.2.2.1.trans (by decide!),
    (addObject_replaces plainHooks "rock1" 4 samplePass2 rock1 (by decide!) (by decide!)
      (by decide!) (by decide!) (by decide!) (by decide!) (by decide!) (by decide!)
      (by decide!)).2.1,
    (addObject_replaces plainHooks "rock1" 4 samplePass2 rock1 (by decide!) (by decide!)
      (by decide!) (by decide!) (by decide!) (by decide!) (by decide!) (by decide!)
      (by decide!)).2.2.2.2.2.2.2.2.2.2.2.2.1⟩

/-- Witness for C10: on a streamer without handles `addObject("rock1")`
throws and changes nothing; on the configured sample streamer it returns. -/
theorem addObject_configuration_error_witness :
    (addObject plainHooks "rock1" 3
      ⟨(Streamer.initial 10 2 1 1 : Streamer SampleObj), SampleWorld.initial [], []⟩).1 =
        Outcome.threw OgreError.ERR_INTERNAL_ERROR ∧
    (addObject plainHooks "rock1" 3
      ⟨(Streamer.initial 10 2 1 1 : Streamer SampleObj), SampleWorld.initial [], []⟩).2 =
        ⟨(Streamer.initial 10 2 1 1 : Streamer SampleObj), SampleWorld.initial [], []⟩ ∧
    (∃ self, (addObject plainHooks "rock1" 3
      ⟨sampleStreamer, SampleWorld.initial [], []⟩).1 = Outcome.ok self) :=
  ⟨(addObject_configuration_error plainHooks "rock1" 3
      ⟨(Streamer.initial 10 2 1 1 : Streamer SampleObj), SampleWorld.initial [], []⟩).1.mpr
      (Or.inl rfl),
    (addObject_configuration_error plainHooks "rock1" 3
      ⟨(Streamer.initial 10 2 1 1 : Streamer SampleObj), SampleWorld.initial [], []⟩).2.1
      (Or.inl rfl),
    (addObject_configuration_error plainHooks "rock1" 3
      ⟨sampleStreamer, SampleWorld.initial [], []⟩).2.2 (by decide) (by decide)
      (fun old hold => by simp [sampleStreamer, Streamer.initial, gObjsFind] at hold)⟩

/-- C5, amended: let `a` be in `activated` when the pass starts, with the far
substitute `b` and `range2(a)/visibility² > 1` throughout the pass (`rs`
keeping what was already in `fnd`). If the pass returns, it has called
`deactivate` on `a`, and `b` is among the candidates the load-and-activation
loop takes up in the same pass. The pass does return when no deactivated
object asks to be deleted and every walk along `near` links ends within the
fuel. When no deactivated object asks to be deleted, the `deactivate` call
on `a` is made whether or not the pass returns. -/
theorem centre_deactivates_and_requeues (h : Hooks Obj Cls G) (fuel : Nat) (x y z : ℚ)
    (st : State Obj G) (a b : Obj)
    (ha : a ∈ st.s.activated) (hfar : ∀ g, h.getFar g a = some b)
    (hr : ∀ g, h.range2 g a x y z / (st.s.visibility * st.s.visibility) > 1)
    (hpres : ∀ g x y z s r fnd o, o ∈ fnd → o ∈ h.getPresent g x y z s r fnd) :
    ((centre h fuel x y z { st with trace := [] }).1 = Outcome.ok () →
      Event.deactivate a ∈ (centre h fuel x y z { st with trace := [] }).2.trace ∧
      Event.candidate b ∈ (centre h fuel x y z { st with trace := [] }).2.trace) ∧
    ((∀ c w, (h.deactivate c w).1 = false) →
      (∀ g (s : Streamer Obj) c,
        nearWalk h g x y z (s.visibility * s.fadeOverlapFactor) fuel (h.getNear g c) ≠ none) →
      (centre h fuel x y z { st with trace := [] }).1 = Outcome.ok ()) ∧
    ((∀ c w, (h.deactivate c w).1 = false) →
      Event.deactivate a ∈ (centre h fuel x y z { st with trace := [] }).2.trace) := by
  refine ⟨?_, ?_, ?_⟩
  · have key : ∀ r, centre h fuel x y z { st with trace := [] } = r → r.1 = Outcome.ok () →
        Event.deactivate a ∈ r.2.trace ∧ Event.candidate b ∈ r.2.trace := by
      intro r hc hdone
      unfold centre at hc
      dsimp only at hc
      obtain ⟨_, _, d3⟩ := deactivateDistant_spec h x y z (st.s.visibility * st.s.visibility)
        st.s.activated { s := { st.s with fresh := [] }, g := st.g, trace := [] } st.s.fresh
      cases hd : deactivateDistant h x y z (st.s.visibility * st.s.visibility)
          st.s.activated { s := { st.s with fresh := [] }, g := st.g, trace := [] }
          st.s.fresh with
      | mk r1 rest =>
        obtain ⟨st1, fnd1⟩ := rest
        rw [hd] at hc d3
        cases r1 with
        | threw e =>
          simp only at hc
          rw [← hc] at hdone
          simp at hdone
        | diverged =>
          simp only at hc
          rw [← hc] at hdone
          simp at hdone
        | ok u =>
          cases u
          simp only at hc d3
          obtain ⟨w1, w2⟩ := d3 trivial a ha hr
          have w3 := w2 b hfar
          cases he : evict h x y z (st.s.prepareDistanceFactor * st.s.visibility) st1 with
          | none =>
            rw [he] at hc
            simp only at hc
            rw [← hc] at hdone
            simp at hdone
          | some st2 =>
            rw [he] at hc
            simp only at hc
            have e1 := evictLoop_trace h x y z _ _ _ _ st1 st2 he
            obtain ⟨l1, l2⟩ := loadAndActivate_spec h fuel x y z
              (st.s.visibility * st.s.visibility)
              (h.getPresent st2.g x y z st2.s.stepSize
                (st.s.prepareDistanceFactor * st.s.visibility) fnd1) st2
            cases hl : loadAndActivate h fuel x y z (st.s.visibility * st.s.visibility)
                (h.getPresent st2.g x y z st2.s.stepSize
                  (st.s.prepareDistanceFactor * st.s.visibility) fnd1) st2 with
            | mk r3 st3 =>
              rw [hl] at hc l1 l2
              cases r3 with
              | threw e =>
                simp only at hc
                rw [← hc] at hdone
                simp at hdone
              | diverged =>
                simp only at hc
                rw [← hc] at hdone
                simp at hdone
              | ok u =>
                cases u
                simp only at hc l1 l2
                rw [← hc]
                exact ⟨l1 _ (e1 _ w1), l2 trivial b (hpres _ _ _ _ _ _ _ _ w3)⟩
    exact key _ rfl
  · intro hkill hwalk
    have key : ∀ r, centre h fuel x y z { st with trace := [] } = r →
        r.1 = Outcome.ok () := by
      intro r hc
      unfold centre at hc
      dsimp only at hc
      have hd := deactivateDistant_returns h x y z (st.s.visibility * st.s.visibility) hkill
        st.s.activated { s := { st.s with fresh := [] }, g := st.g, trace := [] } st.s.fresh
      cases hdd : deactivateDistant h x y z (st.s.visibility * st.s.visibility)
          st.s.activated { s := { st.s with fresh := [] }, g := st.g, trace := [] }
          st.s.fresh with
      | mk r1 rest =>
        obtain ⟨st1, fnd1⟩ := rest
        rw [hdd] at hd hc
        simp only at hd
        subst hd
        simp only at hc
        obtain ⟨st2, he⟩ := evictLoop_returns h x y z
          (st.s.prepareDistanceFactor * st.s.visibility)
          st1.s.loaded.length 0 st1.s.loaded.length st1 (Nat.zero_le _) rfl (by omega)
        have he2 : evict h x y z (st.s.prepareDistanceFactor * st.s.visibility) st1 =
            some st2 := he
        rw [he2] at hc
        simp only at hc
        have hl := loadAndActivate_returns h fuel x y z (st.s.visibility * st.s.visibility)
          hwalk
          (h.getPresent st2.g x y z st2.s.stepSize
            (st.s.prepareDistanceFactor * st.s.visibility) fnd1) st2
        cases hll : loadAndActivate h fuel x y z (st.s.visibility * st.s.visibility)
            (h.getPresent st2.g x y z st2.s.stepSize
              (st.s.prepareDistanceFactor * st.s.visibility) fnd1) st2 with
        | mk r3 st3 =>
          rw [hll] at hl hc
          simp only at hl
          subst hl
          simp only at hc
          rw [← hc]
    exact key _ rfl
  · intro hkill
    apply centre_keeps_phaseA_trace
    have hret := deactivateDistant_returns h x y z (st.s.visibility * st.s.visibility) hkill
      st.s.activated { s := { st.s with fresh := [] }, g := st.g, trace := [] } st.s.fresh
    exact ((deactivateDistant_spec h x y z (st.s.visibility * st.s.visibility)
      st.s.activated { s := { st.s with fresh := [] }, g := st.g, trace := [] }
      st.s.fresh).2.2 hret a ha hr).1

/-- Witness for C5 (amended): the sample pair after "hi" was activated, with the
reference point moved to x = 100. -/
theorem centre_deactivates_and_requeues_witness :
    Event.deactivate hiFirst ∈
      (centre (lodHooks loSecond hiFirst) 5 100 0 0 { lodHiLoPass2 with trace := [] }).2.trace ∧
    Event.candidate loSecond ∈
      (centre (lodHooks loSecond hiFirst) 5 100 0 0 { lodHiLoPass2 with trace := [] }).2.trace :=
  (centre_deactivates_and_requeues (lodHooks loSecond hiFirst) 5 100 0 0 lodHiLoPass2
    hiFirst loSecond (by decide!) (fun _ => by simp [lodHooks, sampleHooks])
    (fun _ => by
      have hv : lodHiLoPass2.s.visibility = 10 := by decide!
      simp only [lodHooks, sampleHooks, sampleRange2, hiFirst, hv]
      norm_num)
    (fun _ _ _ _ _ _ _ _ ho => List.mem_append_left _ ho)).1 (by decide!)

/-- C15: in every state, `list(o)` with `o` already in `activated` changes
nothing and `unlist(o)` with `o` not in `activated` changes nothing; hence
`list(o); list(o)` is `list(o)` in every state, and `unlist(o); unlist(o)` is
`unlist(o)` in every state that holds `o` at most once in `activated`,
whatever the flags of `o` are at either call; every state reached from an
empty `activated` by `list`, `unlist` and `setNeedsFrameCallbacks` calls is
such a state. -/
theorem list_unlist_idempotent (s : Streamer Obj) (o : Obj) (f f2 : Bool) :
    (o ∈ s.activated → s.list o f = s) ∧
    (o ∉ s.activated → s.unlist o f = s) ∧
    (s.list o f).list o f2 = s.list o f ∧
    (s.activated.count o ≤ 1 → (s.unlist o f).unlist o f2 = s.unlist o f) ∧
    (∀ calls, s.activated = [] →
      ((s.run calls).unlist o f).unlist o f2 = (s.run calls).unlist o f) := by
  have hun : ∀ t : Streamer Obj, t.activated.count o ≤ 1 →
      (t.unlist o f).unlist o f2 = t.unlist o f := by
    intro t hc
    apply unlist_of_not_mem
    rw [unlist_activated]
    exact not_mem_remove_if_exists _ _ hc
  refine ⟨list_of_mem s o f, unlist_of_not_mem s o f, ?_, hun s, ?_⟩
  · exact list_of_mem _ o f2 (mem_list_activated s o f)
  · intro calls h0
    exact hun _ (List.nodup_iff_count_le_one.mp
      (run_activated_nodup calls s (by simp [h0])) o)

/-- Witness for C15: with 7 and 8 activated and 7 subscribed, `list(7)` is a
no-op, `unlist(9)` is a no-op, and a second `unlist(7)` changes nothing. -/
theorem list_unlist_idempotent_witness :
    (({ (Streamer.initial 1 1 1 1 : Streamer Nat) with
        activated := [7, 8], needFrameCallbacks := [7] }).list 7 true =
      { (Streamer.initial 1 1 1 1 : Streamer Nat) with
        activated := [7, 8], needFrameCallbacks := [7] }) ∧
    (({ (Streamer.initial 1 1 1 1 : Streamer Nat) with
        activated := [7, 8], needFrameCallbacks := [7] }).unlist 9 true =
      { (Streamer.initial 1 1 1 1 : Streamer Nat) with
        activated := [7, 8], needFrameCallbacks := [7] }) ∧
    ((({ (Streamer.initial 1 1 1 1 : Streamer Nat) with
        activated := [7, 8], needFrameCallbacks := [7] }).unlist 7 true).unlist 7 true =
      ({ (Streamer.initial 1 1 1 1 : Streamer Nat) with
        activated := [7, 8], needFrameCallbacks := [7] }).unlist 7 true) :=
  ⟨(list_unlist_idempotent { (Streamer.initial 1 1 1 1 : Streamer Nat) with
      activated := [7, 8], needFrameCallbacks := [7] } 7 true true).1 (by decide),
    (list_unlist_idempotent { (Streamer.initial 1 1 1 1 : Streamer Nat) with
      activated := [7, 8], needFrameCallbacks := [7] } 9 true true).2.1 (by decide),
    (list_unlist_idempotent { (Streamer.initial 1 1 1 1 : Streamer Nat) with
      activated := [7, 8], needFrameCallbacks := [7] } 7 true true).2.2.2.1 (by decide)⟩

/-- C16, amended: starting from empty `activated` and `needFrameCallbacks`,
after any sequence of `list`, `unlist` and `setNeedsFrameCallbacks` calls no
object occurs more than once in `activated`, whatever the flags are; and no
object occurs more than once in `needFrameCallbacks` when the flags each
call reads agree with the sets (`unlist(o)` finds the wants-frame-callback
flag set when `o` is subscribed, and `setNeedsFrameCallbacks(o, true)` finds
`o` activated only when it is listed). -/
theorem vectors_nodup (s0 : Streamer Obj) (h1 : s0.activated = [])
    (h2 : s0.needFrameCallbacks = []) (calls : List (Call Obj)) :
    (s0.run calls).activated.Nodup ∧
    (RunAgrees s0 calls → (s0.run calls).needFrameCallbacks.Nodup) := by
  refine ⟨run_activated_nodup calls s0 (by simp [h1]), ?_⟩
  intro hag
  have hinv0 : SetsInv s0 := by simp [SetsInv, h1, h2]
  exact (run_preserves calls s0 hinv0 hag).2.1

/-- Witness for C16 (amended): 7 is listed subscribed, unsubscribes, is
unlisted and is listed again. -/
theorem vectors_nodup_witness :
    ((Streamer.initial 1 1 1 1 : Streamer Nat).run
      [Call.list 7 true, Call.setNeedsFrameCallbacks 7 false true, Call.unlist 7 false,
        Call.list 7 true]).activated.Nodup ∧
    ((Streamer.initial 1 1 1 1 : Streamer Nat).run
      [Call.list 7 true, Call.setNeedsFrameCallbacks 7 false true, Call.unlist 7 false,
        Call.list 7 true]).needFrameCallbacks.Nodup :=
  ⟨(vectors_nodup (Streamer.initial 1 1 1 1 : Streamer Nat) rfl rfl
      [Call.list 7 true, Call.setNeedsFrameCallbacks 7 false true, Call.unlist 7 false,
        Call.list 7 true]).1,
    (vectors_nodup (Streamer.initial 1 1 1 1 : Streamer Nat) rfl rfl
      [Call.list 7 true, Call.setNeedsFrameCallbacks 7 false true, Call.unlist 7 false,
        Call.list 7 true]).2 (by decide)⟩

/-- Counterexample for C16 as stated: `list(7)` while 7 wants frame callbacks,
`unlist(7)` after the flag has been cleared, and `list(7)` after it has been
set again leave 7 twice in `needFrameCallbacks`. -/
theorem needFrameCallbacks_duplicate :
    ((Streamer.initial 1 1 1 1 : Streamer Nat).run
      [Call.list 7 true, Call.unlist 7 false, Call.list 7 true]).needFrameCallbacks = [7, 7] ∧
    ¬ ((Streamer.initial 1 1 1 1 : Streamer Nat).run
      [Call.list 7 true, Call.unlist 7 false, Call.list 7 true]).needFrameCallbacks.Nodup := by
  decide

/-- C14: in a configured streamer (any registry, any counter), `addObject`
with an empty name returns an object; its name is `"Unnamed:<k1>"` for some
`k1` at or above the counter, that name was not a key of the registry, no
call is made on an existing object (the trace is unchanged, and every other
name is mapped as before), and the counter becomes `k1 + 1`. A second such
call picks `"Unnamed:<k2>"` with `k1 < k2`, a different name, and afterwards
the registry maps the first name to the first object and the second name to
the second. -/
theorem addObject_generates_name (h : Hooks Obj Cls G) (cls cls2 : Cls) (st : State Obj G)
    (hg : st.s.gfx ≠ none) (hp : st.s.physics ≠ none) :
    ∃ k1 k2 o1 o2,
      st.s.nameGenerationCounter ≤ k1 ∧ k1 < k2 ∧
      gObjsFind st.s.gObjs (unnamed k1) = none ∧
      (addObject h "" cls st).1 = Outcome.ok o1 ∧
      (addObject h "" cls st).2.trace = st.trace ∧
      (addObject h "" cls st).2.s.nameGenerationCounter = k1 + 1 ∧
      (addObject h "" cls st).2.s.gObjs = gObjsAssign st.s.gObjs (unnamed k1) o1 ∧
      (∀ n, n ≠ unnamed k1 →
        gObjsFind (addObject h "" cls st).2.s.gObjs n = gObjsFind st.s.gObjs n) ∧
      gObjsFind (addObject h "" cls st).2.s.gObjs (unnamed k2) = none ∧
      unnamed k1 ≠ unnamed k2 ∧
      (addObject h "" cls2 (addObject h "" cls st).2).1 = Outcome.ok o2 ∧
      (addObject h "" cls2 (addObject h "" cls st).2).2.trace = st.trace ∧
      (addObject h "" cls2 (addObject h "" cls st).2).2.s.nameGenerationCounter = k2 + 1 ∧
      gObjsFind (addObject h "" cls2 (addObject h "" cls st).2).2.s.gObjs (unnamed k1) =
        some o1 ∧
      gObjsFind (addObject h "" cls2 (addObject h "" cls st).2).2.s.gObjs (unnamed k2) =
        some o2 := by
  obtain ⟨k1, hk1, hfree1, heq1⟩ := addObject_unnamed_eq h cls st hg hp
  have hg1 : (addObject h "" cls st).2.s.gfx ≠ none := by rw [heq1]; exact hg
  have hp1 : (addObject h "" cls st).2.s.physics ≠ none := by rw [heq1]; exact hp
  obtain ⟨k2, hk2, hfree2, heq2⟩ :=
    addObject_unnamed_eq h cls2 (addObject h "" cls st).2 hg1 hp1
  have hc1 : (addObject h "" cls st).2.s.nameGenerationCounter = k1 + 1 := by rw [heq1]
  have hlt : k1 < k2 := by omega
  have hne : unnamed k1 ≠ unnamed k2 := fun hc => by
    have := unnamed_injective k1 k2 hc
    omega
  have hreg1 : (addObject h "" cls st).2.s.gObjs =
      gObjsAssign st.s.gObjs (unnamed k1) (h.create (unnamed k1) cls st.g).1 := by rw [heq1]
  refine ⟨k1, k2, (h.create (unnamed k1) cls st.g).1,
    (h.create (unnamed k2) cls2 (addObject h "" cls st).2.g).1, hk1, hlt, hfree1, ?_, ?_, hc1,
    hreg1, ?_, hfree2, hne, ?_, ?_, ?_, ?_, ?_⟩
  · rw [heq1]
  · rw [heq1]
  · intro n hn
    rw [hreg1, gObjsFind_assign_ne _ _ _ _ hn]
  · rw [heq2]
  · rw [heq2]
    simp only
    rw [heq1]
  · rw [heq2]
  · rw [heq2]
    simp only
    rw [gObjsFind_assign_ne _ _ _ _ hne, hreg1, gObjsFind_assign_self]
  · rw [heq2]
    simp only
    rw [gObjsFind_assign_self]

/-- Witness for C14: two unnamed objects added to the configured sample
streamer. -/
theorem addObject_generates_name_witness :
    sampleStreamer.gfx ≠ none ∧ sampleStreamer.physics ≠ none ∧
    ∃ k1 k2 o1 o2, k1 < k2 ∧
      (addObject plainHooks "" 3 ⟨sampleStreamer, SampleWorld.initial [], []⟩).1 =
        Outcome.ok o1 ∧
      (addObject plainHooks "" 4
        (addObject plainHooks "" 3 ⟨sampleStreamer, SampleWorld.initial [], []⟩).2).1 =
        Outcome.ok o2 ∧
      gObjsFind (addObject plainHooks "" 4
        (addObject plainHooks "" 3 ⟨sampleStreamer, SampleWorld.initial [], []⟩).2).2.s.gObjs
          (unnamed k1) = some o1 ∧
      gObjsFind (addObject plainHooks "" 4
        (addObject plainHooks "" 3 ⟨sampleStreamer, SampleWorld.initial [], []⟩).2).2.s.gObjs
          (unnamed k2) = some o2 := by
  refine ⟨by decide, by decide, ?_⟩
  obtain ⟨k1, k2, o1, o2, _, hlt, _, h1, _, _, _, _, _, _, h2, _, _, h3, h4⟩ :=
    addObject_generates_name plainHooks 3 4 ⟨sampleStreamer, SampleWorld.initial [], []⟩
      (by decide) (by decide)
  exact ⟨k1, k2, o1, o2, hlt, h1, h2, h3, h4⟩

/-- C12: in the load-and-activation phase `activate` is called on a candidate
only when, at that point, the candidate is not activated, its background
load is complete and `range2 / visibility² <= 1`: this holds for one turn of
the loop (where the load and the range are read in the state `queueBGPrepare`
leaves), for the loop over any candidate list, and for the whole pass. A
candidate that is not activated and whose load is not complete or whose
`r² > 1` gets the `queueBGPrepare` call and nothing else in its turn; and if
its load is never complete or its `r²` is always above 1, the pass makes no
`activate` call on it and, no other call activating it, it is not activated
when the pass ends. -/
theorem activate_only_when_ready (h : Hooks Obj Cls G) (fuel : Nat) (x y z : ℚ)
    (st : State Obj G) (c : Obj) :
    (∀ o vis2,
      Event.activate c ∈ (considerCandidate h fuel x y z vis2 o { st with trace := [] }).2.trace →
      c = o ∧ h.isActivated st.g o = false ∧
        h.backgroundPrepareComplete (h.queueBGPrepare o x y z st.g).2 o = true ∧
        ¬ h.range2 (h.queueBGPrepare o x y z st.g).2 o x y z / vis2 > 1) ∧
    (∀ fnd vis2,
      Event.activate c ∈ (loadAndActivate h fuel x y z vis2 fnd { st with trace := [] }).2.trace →
      c ∈ fnd ∧ ∃ g, h.isActivated g c = false ∧
        h.backgroundPrepareComplete (h.queueBGPrepare c x y z g).2 c = true ∧
        ¬ h.range2 (h.queueBGPrepare c x y z g).2 c x y z / vis2 > 1) ∧
    (Event.activate c ∈ (centre h fuel x y z { st with trace := [] }).2.trace →
      ∃ g, h.isActivated g c = false ∧
        h.backgroundPrepareComplete (h.queueBGPrepare c x y z g).2 c = true ∧
        ¬ h.range2 (h.queueBGPrepare c x y z g).2 c x y z /
          (st.s.visibility * st.s.visibility) > 1) ∧
    (∀ vis2, h.isActivated st.g c = false →
      (h.backgroundPrepareComplete (h.queueBGPrepare c x y z st.g).2 c = false ∨
        h.range2 (h.queueBGPrepare c x y z st.g).2 c x y z / vis2 > 1) →
      considerCandidate h fuel x y z vis2 c st =
        (Outcome.ok (),
          { s := if (h.queueBGPrepare c x y z st.g).1 = true
              then { st.s with loaded := st.s.loaded ++ [c] } else st.s,
            g := (h.queueBGPrepare c x y z st.g).2,
            trace := st.trace ++ [Event.candidate c, Event.queueBGPrepare c] })) ∧
    (((∀ g, h.backgroundPrepareComplete g c = false) ∨
        (∀ g, h.range2 g c x y z / (st.s.visibility * st.s.visibility) > 1)) →
      Event.activate c ∉ (centre h fuel x y z { st with trace := [] }).2.trace ∧
      (KeepsInactive h c → h.isActivated st.g c = false →
        h.isActivated (centre h fuel x y z { st with trace := [] }).2.g c = false)) := by
  have hpass : Event.activate c ∈ (centre h fuel x y z { st with trace := [] }).2.trace →
      ∃ g, h.isActivated g c = false ∧
        h.backgroundPrepareComplete (h.queueBGPrepare c x y z g).2 c = true ∧
        ¬ h.range2 (h.queueBGPrepare c x y z g).2 c x y z /
          (st.s.visibility * st.s.visibility) > 1 := by
    apply centre_inv h fuel x y z { st with trace := [] }
      (fun s => Event.activate c ∈ s.trace →
        ∃ g, h.isActivated g c = false ∧
          h.backgroundPrepareComplete (h.queueBGPrepare c x y z g).2 c = true ∧
          ¬ h.range2 (h.queueBGPrepare c x y z g).2 c x y z /
            (st.s.visibility * st.s.visibility) > 1)
    · intro hm
      simp at hm
    · intro victims s fnd hI hm
      exact hI (deactivateDistant_no_activate h x y z _ c victims s fnd hm)
    · intro s s2 he hI hm
      exact hI (evictLoop_no_activate h x y z _ c _ _ _ s s2 he hm)
    · intro fnd s hI hm
      rcases loadAndActivate_activate h fuel x y z _ c fnd s hm with h1 | ⟨_, h1⟩
      · exact hI h1
      · exact h1
    · intro s hI hm
      exact hI hm
  refine ⟨?_, ?_, hpass, ?_, ?_⟩
  · intro o vis2 hm
    rcases considerCandidate_activate h fuel x y z vis2 c o { st with trace := [] } hm
      with h1 | h1
    · simp at h1
    · exact h1
  · intro fnd vis2 hm
    rcases loadAndActivate_activate h fuel x y z vis2 c fnd { st with trace := [] } hm
      with h1 | h1
    · simp at h1
    · exact h1
  · intro vis2 hna hskip
    exact considerCandidate_skips h fuel x y z vis2 c st hna hskip
  · intro hskip
    constructor
    · intro hm
      obtain ⟨g, _, h2, h3⟩ := hpass hm
      rcases hskip with hs | hs
      · rw [hs] at h2
        cases h2
      · exact h3 (hs _)
    · intro hk hna
      have k8 := hk.2.2.2.2.2.2.2.1
      have k9 := hk.2.2.2.2.2.2.2.2
      apply centre_inv h fuel x y z { st with trace := [] }
        (fun s => h.isActivated s.g c = false)
      · exact hna
      · intro victims s fnd hI
        exact deactivateDistant_inactive h x y z _ c hk victims s fnd hI
      · intro s s2 he hI
        exact evictLoop_inactive h x y z _ c hk _ _ _ s s2 he hI
      · intro fnd s hI
        exact loadAndActivate_inactive h fuel x y z _ c hk hskip fnd s hI
      · intro s hI
        exact k9 _ (k8 _ hI)

/-- Witness for C12: in the sample run the second pass at the origin
activates `rock1`, whose load is then complete and which is in range, and a
pass centred on x = 100 does not. -/
theorem activate_only_when_ready_witness :
    Event.activate rock1 ∈
      (centre plainHooks 5 0 0 0 { samplePass1 with trace := [] }).2.trace ∧
    (∃ g, plainHooks.isActivated g rock1 = false ∧
      plainHooks.backgroundPrepareComplete (plainHooks.queueBGPrepare rock1 0 0 0 g).2 rock1 =
        true ∧
      ¬ plainHooks.range2 (plainHooks.queueBGPrepare rock1 0 0 0 g).2 rock1 0 0 0 /
        (samplePass1.s.visibility * samplePass1.s.visibility) > 1) ∧
    Event.activate rock1 ∉
      (centre plainHooks 5 100 0 0 { samplePass1 with trace := [] }).2.trace :=
  ⟨by decide!,
    (activate_only_when_ready plainHooks 5 0 0 0 samplePass1 rock1).2.2.1 (by decide!),
    ((activate_only_when_ready plainHooks 5 100 0 0 samplePass1 rock1).2.2.2.2
      (Or.inr (fun _ => by
        have hv : samplePass1.s.visibility = 10 := by decide!
        simp only [plainHooks, sampleHooks, sampleRange2, rock1, hv]
        norm_num))).1⟩

/-- C13, amended: an object that `addObject` has just returned is in `fresh`.
When it is not activated, no call other than `activate` on itself activates
it, and the reference point of the following pass is outside its visibility
radius (`range2 / visibility² > 1`, as it is outside the prepare radius when
the prepare factor is at least 1), a pass that returns takes the object up
as a candidate and does invoke `queueBGPrepare` on it, whatever the distance
(`rs` keeping what was already in `fnd`); that turn of the loop appends the
object to `loaded` exactly when `queueBGPrepare` returns true; the pass makes
no `activate` call on the object, and the object is not activated when the
pass ends. -/
theorem new_object_is_candidate (h : Hooks Obj Cls G) (fuel : Nat) (x y z : ℚ)
    (name : String) (cls : Cls) (st0 st : State Obj G) (self : Obj)
    (hadd : addObject h name cls st0 = (Outcome.ok self, st))
    (hna : h.isActivated st.g self = false)
    (hk : KeepsInactive h self)
    (hr : ∀ g, h.range2 g self x y z / (st.s.visibility * st.s.visibility) > 1)
    (hpres : ∀ g x y z s r fnd o, o ∈ fnd → o ∈ h.getPresent g x y z s r fnd)
    (hok : (centre h fuel x y z { st with trace := [] }).1 = Outcome.ok ()) :
    self ∈ st.s.fresh ∧
    Event.candidate self ∈ (centre h fuel x y z { st with trace := [] }).2.trace ∧
    Event.queueBGPrepare self ∈ (centre h fuel x y z { st with trace := [] }).2.trace ∧
    (∀ st1 : State Obj G, h.isActivated st1.g self = false →
      (considerCandidate h fuel x y z (st.s.visibility * st.s.visibility) self st1).2.s.loaded =
        if (h.queueBGPrepare self x y z st1.g).1 = true then st1.s.loaded ++ [self]
        else st1.s.loaded) ∧
    Event.activate self ∉ (centre h fuel x y z { st with trace := [] }).2.trace ∧
    h.isActivated (centre h fuel x y z { st with trace := [] }).2.g self = false := by
  have hfresh : self ∈ st.s.fresh := by
    have := addObject_fresh h name cls st0 self (by rw [hadd])
    rw [hadd] at this
    exact this
  have hskip : (∀ g, h.backgroundPrepareComplete g self = false) ∨
      (∀ g, h.range2 g self x y z / (st.s.visibility * st.s.visibility) > 1) := Or.inr hr
  obtain ⟨st1, fnd1, st2, st3, hd, he, hl, hc⟩ :=
    centre_ok h fuel x y z { st with trace := [] } hok
  simp only at hd he hl
  have d1 := (deactivateDistant_spec h x y z (st.s.visibility * st.s.visibility)
    st.s.activated { s := { st.s with fresh := [] }, g := st.g, trace := [] } st.s.fresh).2.1
    self hfresh
  have d2 := deactivateDistant_inactive h x y z (st.s.visibility * st.s.visibility) self hk
    st.s.activated { s := { st.s with fresh := [] }, g := st.g, trace := [] } st.s.fresh hna
  have d3 := deactivateDistant_no_activate h x y z (st.s.visibility * st.s.visibility) self
    st.s.activated { s := { st.s with fresh := [] }, g := st.g, trace := [] } st.s.fresh
  rw [hd] at d1 d2 d3
  simp only at d1 d2 d3
  have e2 := evictLoop_inactive h x y z _ self hk _ _ _ st1 st2 he d2
  have e3 := evictLoop_no_activate h x y z _ self _ _ _ st1 st2 he
  have hmem : self ∈ h.getPresent st2.g x y z st2.s.stepSize
      (st.s.prepareDistanceFactor * st.s.visibility) fnd1 := hpres _ _ _ _ _ _ _ _ d1
  have l1 := (loadAndActivate_spec h fuel x y z (st.s.visibility * st.s.visibility)
    (h.getPresent st2.g x y z st2.s.stepSize
      (st.s.prepareDistanceFactor * st.s.visibility) fnd1) st2).2
  have l2 := loadAndActivate_queues h fuel x y z (st.s.visibility * st.s.visibility) self hk
    hskip (h.getPresent st2.g x y z st2.s.stepSize
      (st.s.prepareDistanceFactor * st.s.visibility) fnd1) st2 e2 hmem
  have l3 := loadAndActivate_inactive h fuel x y z (st.s.visibility * st.s.visibility) self hk
    hskip (h.getPresent st2.g x y z st2.s.stepSize
      (st.s.prepareDistanceFactor * st.s.visibility) fnd1) st2 e2
  have l4 := loadAndActivate_activate h fuel x y z (st.s.visibility * st.s.visibility) self
    (h.getPresent st2.g x y z st2.s.stepSize
      (st.s.prepareDistanceFactor * st.s.visibility) fnd1) st2
  rw [hl] at l1 l2 l3 l4
  simp only at l1 l2 l3 l4
  rw [hc]
  refine ⟨hfresh, l1 trivial self hmem, l2 trivial, ?_, ?_, ?_⟩
  · intro s1 hs1
    rw [considerCandidate_skips h fuel x y z _ self s1 hs1 (Or.inr (hr _))]
    simp only
    split_ifs <;> rfl
  · intro hm
    rcases l4 hm with h1 | ⟨_, g, _, _, h4⟩
    · have := d3 (e3 h1)
      simp at this
    · exact h4 (hr _)
  · exact hk.2.2.2.2.2.2.2.2 _ (hk.2.2.2.2.2.2.2.1 _ l3)

/-- Witness for C13 (amended): `rock1` added to the configured sample
streamer, then a pass centred on x = 100, which is outside its visibility
radius of 10 and its prepare radius of 20. -/
theorem new_object_is_candidate_witness :
    Event.candidate rock1 ∈
      (centre plainHooks 5 100 0 0 { sampleAdded with trace := [] }).2.trace ∧
    Event.queueBGPrepare rock1 ∈
      (centre plainHooks 5 100 0 0 { sampleAdded with trace := [] }).2.trace ∧
    Event.activate rock1 ∉
      (centre plainHooks 5 100 0 0 { sampleAdded with trace := [] }).2.trace ∧
    plainHooks.isActivated
      (centre plainHooks 5 100 0 0 { sampleAdded with trace := [] }).2.g rock1 = false :=
  have w := new_object_is_candidate plainHooks 5 100 0 0 "rock1" 3
    ⟨sampleStreamer, SampleWorld.initial [], []⟩ sampleAdded rock1
    (Prod.ext (by decide!) rfl) (by decide!)
    (sampleHooks_keepsInactive _ _ _ rock1)
    (fun _ => by
      have hv : sampleAdded.s.visibility = 10 := by decide!
      simp only [plainHooks, sampleHooks, sampleRange2, rock1, hv]
      norm_num)
    (fun _ _ _ _ _ _ _ _ ho => List.mem_append_left _ ho) (by decide!)
  ⟨w.2.1, w.2.2.1, w.2.2.2.2.1, w.2.2.2.2.2⟩

/-- Counterexample for C13 as stated: `rock1` is added at x = 3 and the next
pass is centred on x = 100, outside its prepare radius of 20; the pass
invokes `queueBGPrepare` on `rock1` and leaves it in `loaded`. -/
theorem new_object_load_queued :
    (addObject plainHooks "rock1" 3 ⟨sampleStreamer, SampleWorld.initial [], []⟩).1 =
      Outcome.ok rock1 ∧
    plainHooks.withinRange sampleAdded.g rock1 100 0 0
      (sampleAdded.s.prepareDistanceFactor * sampleAdded.s.visibility) = false ∧
    (centre plainHooks 5 100 0 0 { sampleAdded with trace := [] }).1 = Outcome.ok () ∧
    Event.queueBGPrepare rock1 ∈
      (centre plainHooks 5 100 0 0 { sampleAdded with trace := [] }).2.trace ∧
    rock1 ∈ (centre plainHooks 5 100 0 0 { sampleAdded with trace := [] }).2.s.loaded := by
  decide!

/-- Counterexample for C6 as stated: in the configured sample streamer the
name "rock1" is mapped to `rock1`, which is twice in `needFrameCallbacks`;
`addObject("rock1", 3)` runs the `destroy` hook of `rock1`, returns a new
object, and leaves `rock1` in `needFrameCallbacks`. -/
theorem addObject_leaves_subscriber :
    sampleListedTwice.s.gfx ≠ none ∧ sampleListedTwice.s.physics ≠ none ∧
    gObjsFind sampleListedTwice.s.gObjs "rock1" = some rock1 ∧
    sampleListedTwice.s.needFrameCallbacks = [rock1, rock1] ∧
    (addObject plainHooks "rock1" 3 sampleListedTwice).1 = Outcome.ok ⟨1, "rock1", 3⟩ ∧
    Event.destroy rock1 ∈ (addObject plainHooks "rock1" 3 sampleListedTwice).2.trace ∧
    rock1 ∈ (addObject plainHooks "rock1" 3 sampleListedTwice).2.s.needFrameCallbacks := by
  decide!

/-- Counterexample for C5 as stated: `distant` is activated, has the far
substitute `standIn` and is out of range of the origin; `ringA`, added since
the last pass, is in range with its load complete, and its `near` links run
round the ring, where nothing is activated. The pass deactivates `distant`,
takes up `ringA` and never leaves the walk along its `near` links, whatever
the fuel: `standIn` is not examined. -/
theorem centre_never_examines_far :
    distant ∈ ringState.s.activated ∧
    (∀ g, ringHooks.getFar g distant = some standIn) ∧
    (∀ g, ringHooks.range2 g distant 0 0 0 /
      (ringState.s.visibility * ringState.s.visibility) > 1) ∧
    (∀ fuel,
      (centre ringHooks fuel 0 0 0 { ringState with trace := [] }).1 = Outcome.diverged ∧
      Event.deactivate distant ∈
        (centre ringHooks fuel 0 0 0 { ringState with trace := [] }).2.trace ∧
      Event.candidate standIn ∉
        (centre ringHooks fuel 0 0 0 { ringState with trace := [] }).2.trace) := by
  refine ⟨by decide!, fun _ => rfl, fun _ => ?_, fun fuel => ?_⟩
  · have hv : ringState.s.visibility = 10 := by decide!
    simp only [ringHooks, sampleHooks, sampleRange2, distant, hv]
    norm_num
  · have hw := considerCandidate_walk ringHooks fuel 0 0 0
      (ringState.s.visibility * ringState.s.visibility) ringA
      (deactivateDistant ringHooks 0 0 0 (ringState.s.visibility * ringState.s.visibility)
        ringState.s.activated
        { s := { ringState.s with fresh := [] }, g := ringState.g, trace := [] }
        ringState.s.fresh).2.1
      (by decide!) (by decide!) (by decide!)
    have hn := nearWalk_cycle_diverges_any ringHooks
      (ringHooks.queueBGPrepare ringA 0 0 0
        (deactivateDistant ringHooks 0 0 0 (ringState.s.visibility * ringState.s.visibility)
          ringState.s.activated
          { s := { ringState.s with fresh := [] }, g := ringState.g, trace := [] }
          ringState.s.fresh).2.1.g).2 0 0 0
      ((deactivateDistant ringHooks 0 0 0 (ringState.s.visibility * ringState.s.visibility)
          ringState.s.activated
          { s := { ringState.s with fresh := [] }, g := ringState.g, trace := [] }
          ringState.s.fresh).2.1.s.visibility *
        (deactivateDistant ringHooks 0 0 0 (ringState.s.visibility * ringState.s.visibility)
          ringState.s.activated
          { s := { ringState.s with fresh := [] }, g := ringState.g, trace := [] }
          ringState.s.fresh).2.1.s.fadeOverlapFactor)
      (some ringB) 0 3 (by decide) (by decide!) (by decide!) (by decide!) fuel
    obtain ⟨hd1, hd2⟩ := hw.1 hn
    have key := centre_diverges_at_head ringHooks fuel 0 0 0 { ringState with trace := [] }
      ringA [standIn] _ rfl (by decide!) (by decide!) (by decide!) hd1
    rw [key]
    refine ⟨hd1, ?_, ?_⟩
    · rw [hd2]
      decide!
    · rw [hd2]
      decide!

end StreamerTheorems

/-! ## Theorems about the frame pass -/

section PassTheorems

variable {Obj Cls G : Type}

/-- C9: for every `loaded` vector, when the range test is not changed by the
`tryUnloadResources` calls, the eviction loop of `Streamer::centre` returns;
the elements it takes up are, as a multiset, exactly the elements of the
original vector; `tryUnloadResources` is called exactly on the elements not
within range, once for each; and `loaded` ends as the multiset of the
original elements that are within range. -/
theorem eviction_loop (h : Hooks Obj Cls G) (x y z tpF : ℚ) (st : State Obj G)
    (hfix : ∀ g o o2, h.withinRange (h.tryUnloadResources o2 g) o x y z tpF =
      h.withinRange g o x y z tpF) :
    ∃ st2 evs, evict h x y z tpF st = some st2 ∧ st2.trace = st.trace ++ evs ∧
      (evs.filterMap Event.checked).Perm st.s.loaded ∧
      (evs.filterMap Event.unloaded).Perm
        (st.s.loaded.filter (fun o => !h.withinRange st.g o x y z tpF)) ∧
      st2.s.loaded.Perm (st.s.loaded.filter (fun o => h.withinRange st.g o x y z tpF)) := by
  obtain ⟨st2, evs, he, ht, hl, hc, hu⟩ :=
    evictLoop_spec h x y z tpF (fun o => h.withinRange st.g o x y z tpF) hfix
      st.s.loaded.length 0 st.s.loaded.length st (Nat.zero_le _) rfl (by omega) (fun _ => rfl)
  exact ⟨st2, evs, he, ht, by simpa using hc, by simpa using hu, by simpa using hl⟩

/-- Witness for C9: four loaded sample objects, the first and third out of
range of the origin, over the sample object model. -/
theorem eviction_loop_witness :
    ∃ st2 evs,
      evict (sampleHooks (fun _ => none) (fun _ => none) (fun _ => false)) 0 0 0 10
        ⟨{ (Streamer.initial 5 2 1 1 : Streamer SampleObj) with
            loaded := [⟨0, "a", 50⟩, ⟨1, "b", 3⟩, ⟨2, "c", -40⟩, ⟨3, "d", 9⟩] },
          SampleWorld.initial [], []⟩ = some st2 ∧
      st2.trace = [] ++ evs ∧
      (evs.filterMap Event.checked).Perm
        [⟨0, "a", 50⟩, ⟨1, "b", 3⟩, ⟨2, "c", -40⟩, ⟨3, "d", 9⟩] ∧
      (evs.filterMap Event.unloaded).Perm
        (([⟨0, "a", 50⟩, ⟨1, "b", 3⟩, ⟨2, "c", -40⟩, ⟨3, "d", 9⟩] : List SampleObj).filter
          (fun o => !(sampleHooks (fun _ => none) (fun _ => none) (fun _ => false)).withinRange
            (SampleWorld.initial []) o 0 0 0 10)) ∧
      st2.s.loaded.Perm
        (([⟨0, "a", 50⟩, ⟨1, "b", 3⟩, ⟨2, "c", -40⟩, ⟨3, "d", 9⟩] : List SampleObj).filter
          (fun o => (sampleHooks (fun _ => none) (fun _ => none) (fun _ => false)).withinRange
            (SampleWorld.initial []) o 0 0 0 10)) :=
  eviction_loop (sampleHooks (fun _ => none) (fun _ => none) (fun _ => false)) 0 0 0 10
    ⟨{ (Streamer.initial 5 2 1 1 : Streamer SampleObj) with
        loaded := [⟨0, "a", 50⟩, ⟨1, "b", 3⟩, ⟨2, "c", -40⟩, ⟨3, "d", 9⟩] },
      SampleWorld.initial [], []⟩ (fun _ _ _ => rfl)

/-- C2, amended: let `b` be on the `near` chain of `a`, within the streamer's
own overlap-scaled visibility radius `visibility * fadeOverlapFactor`, and
activated when the load-and-activation loop starts; let no call of the loop
deactivate `b` or change the two settings of the radius. Then the loop never
calls `activate` on `a`. In a turn that takes up `a` while `a` is not
activated, with `a`'s load complete and `range2(a)/visibility² <= 1`, `b`
being then on the chain of `a`, within that radius and activated: if the turn
returns it has called `queueBGPrepare` and then `deactivate` on `a` and
nothing else, and it does return when the walk has more turns than it takes
to reach `b`. A candidate that is activated when the loop takes it up is
skipped with no call at all, so an activated `a` is not deactivated by the
loop. -/
theorem near_occlusion (h : Hooks Obj Cls G) (fuel : Nat) (x y z vis2 : ℚ) (a b : Obj) :
    (∀ (fnd : List Obj) (st : State Obj G),
      (∀ g, OnNearChain h g a b) →
      (∀ g, h.withinRange g b x y z (st.s.visibility * st.s.fadeOverlapFactor) = true) →
      KeepsActivated h b → KeepsRadius h →
      h.isActivated st.g b = true →
      Event.activate a ∉
        (loadAndActivate h fuel x y z vis2 fnd { st with trace := [] }).2.trace) ∧
    (∀ (st : State Obj G) (k : Nat), h.isActivated st.g a = false →
      h.backgroundPrepareComplete (h.queueBGPrepare a x y z st.g).2 a = true →
      ¬ h.range2 (h.queueBGPrepare a x y z st.g).2 a x y z / vis2 > 1 →
      nearReach h (h.queueBGPrepare a x y z st.g).2 k
        (h.getNear (h.queueBGPrepare a x y z st.g).2 a) = some b →
      h.withinRange (h.queueBGPrepare a x y z st.g).2 b x y z
        (st.s.visibility * st.s.fadeOverlapFactor) = true →
      h.isActivated (h.queueBGPrepare a x y z st.g).2 b = true →
      ((considerCandidate h fuel x y z vis2 a { st with trace := [] }).1 = Outcome.ok () →
        (considerCandidate h fuel x y z vis2 a { st with trace := [] }).2.trace =
          [Event.candidate a, Event.queueBGPrepare a, Event.deactivate a]) ∧
      (k < fuel →
        (considerCandidate h fuel x y z vis2 a { st with trace := [] }).1 = Outcome.ok ())) ∧
    (∀ (st : State Obj G), h.isActivated st.g a = true →
      considerCandidate h fuel x y z vis2 a st =
        (Outcome.ok (), st.callG (Event.candidate a) id)) := by
  refine ⟨?_, ?_, ?_⟩
  · intro fnd st hchain hin hkeep hrad hact hm
    have := loadAndActivate_blocked h fuel x y z vis2
      (st.s.visibility * st.s.fadeOverlapFactor) a b hchain hin hkeep hrad fnd
      { st with trace := [] } rfl hact hm
    simp at this
  · intro st k hna hcomplete hrange hk hin hact
    obtain ⟨w1, w2, w3⟩ := considerCandidate_walk h fuel x y z vis2 a { st with trace := [] }
      hna hcomplete hrange
    have hnf := nearWalk_blocked h (h.queueBGPrepare a x y z st.g).2 x y z
      (st.s.visibility * st.s.fadeOverlapFactor) b hin hact k fuel _ hk
    constructor
    · intro hok
      cases hw : nearWalk h (h.queueBGPrepare a x y z st.g).2 x y z
          (st.s.visibility * st.s.fadeOverlapFactor) fuel
          (h.getNear (h.queueBGPrepare a x y z st.g).2 a) with
      | none =>
        have := (w1 hw).1
        rw [this] at hok
        cases hok
      | some c =>
        cases c with
        | true => simpa using (w2 hw).2
        | false => exact absurd hw hnf
    · intro hlt
      exact (w2 (nearWalk_true_of_blocked h (h.queueBGPrepare a x y z st.g).2 x y z
        (st.s.visibility * st.s.fadeOverlapFactor) b hin hact k fuel _ hk hlt)).1
  · intro st hact
    unfold considerCandidate
    simp only [State.callG, id] at hact ⊢
    rw [if_pos hact]

/-- Witness for C2 (amended): in the sample pair where "hi" is activated and
"lo" is not, with the reference point at distance 3 from both and the radius
10, the loop over both candidates does not activate "lo", and the turn for
"lo" returns with the `deactivate` call. -/
theorem near_occlusion_witness :
    Event.activate loSecond ∉
      (loadAndActivate (lodHooks loSecond hiFirst) 5 3 0 0 100 [hiFirst, loSecond]
        { lodHiLoPass2 with trace := [] }).2.trace ∧
    (considerCandidate (lodHooks loSecond hiFirst) 5 3 0 0 100 loSecond
      { lodHiLoPass2 with trace := [] }).1 = Outcome.ok () ∧
    (considerCandidate (lodHooks loSecond hiFirst) 5 3 0 0 100 loSecond
      { lodHiLoPass2 with trace := [] }).2.trace =
      [Event.candidate loSecond, Event.queueBGPrepare loSecond, Event.deactivate loSecond] :=
  have w1 := (near_occlusion (lodHooks loSecond hiFirst) 5 3 0 0 100 loSecond hiFirst).1
    [hiFirst, loSecond] lodHiLoPass2
    (fun _ => ⟨0, by simp [nearReach, lodHooks, sampleHooks]⟩)
    (fun _ => (by decide! : (lodHooks loSecond hiFirst).withinRange (SampleWorld.initial [])
      hiFirst 3 0 0 (lodHiLoPass2.s.visibility * lodHiLoPass2.s.fadeOverlapFactor) = true))
    (sampleHooks_keepsActivated _ _ _ hiFirst) (sampleHooks_keepsRadius _ _ _) (by decide!)
  have w2 := (near_occlusion (lodHooks loSecond hiFirst) 5 3 0 0 100 loSecond hiFirst).2.1
    lodHiLoPass2 0 (by decide!) (by decide!) (by decide!) (by decide!) (by decide!) (by decide!)
  ⟨w1, w2.2 (by decide), w2.1 (w2.2 (by decide))⟩

/-- Counterexample for C2 as stated: in the sample pair where "lo" was
activated before "hi", a frame pass starts with "lo" activated and its near
substitute "hi" activated and within range; the pass returns, takes up "lo"
as a candidate, and makes no `deactivate` call on "lo". -/
theorem near_occlusion_no_deactivate :
    (lodHooks loFirst hiSecond).getNear lodLoHiPass2.g loFirst = some hiSecond ∧
    (lodHooks loFirst hiSecond).withinRange lodLoHiPass2.g hiSecond 0 0 0
      (lodLoHiPass2.s.visibility * lodLoHiPass2.s.fadeOverlapFactor) = true ∧
    (lodHooks loFirst hiSecond).isActivated lodLoHiPass2.g hiSecond = true ∧
    (lodHooks loFirst hiSecond).isActivated lodLoHiPass2.g loFirst = true ∧
    (centre (lodHooks loFirst hiSecond) 5 0 0 0 { lodLoHiPass2 with trace := [] }).1 =
      Outcome.ok () ∧
    Event.candidate loFirst ∈
      (centre (lodHooks loFirst hiSecond) 5 0 0 0 { lodLoHiPass2 with trace := [] }).2.trace ∧
    Event.deactivate loFirst ∉
      (centre (lodHooks loFirst hiSecond) 5 0 0 0 { lodLoHiPass2 with trace := [] }).2.trace := by
  decide!

/-- C21: the walk along the `near` links, started at the pointer `p` in the
state `g`. If the chain from `p` reaches a null link after `n` steps, the walk
ends within `n` turns, and it abandons the candidate exactly when some object
on the chain is both within range `r` and activated. If the chain runs into a
cycle (after `i` steps it is at an object it is at again `len` steps later) it
never reaches a null link; then the walk does not end when none of the
objects it reaches is both within range and activated, and it ends,
abandoning the candidate, as soon as it reaches one that is. When no two
objects share a `near`, the cycle goes through the start of the chain, and
the walk does not end when no object in the cycle is both within range and
activated. In the loop body of `Streamer::centre`, for a candidate that gets
as far as the walk, a walk that does not end leaves the pass without a
result, a walk that abandons the candidate is followed by the `deactivate`
call and no other, and a walk that reaches the null link is followed by no
`deactivate` call. -/
theorem near_walk (h : Hooks Obj Cls G) (g : G) (x y z r : ℚ) (p : Option Obj) :
    (∀ n, nearReach h g n p = none → ∀ fuel, n ≤ fuel →
      nearWalk h g x y z r fuel p ≠ none ∧
      (nearWalk h g x y z r fuel p = some true ↔
        ∃ k b, nearReach h g k p = some b ∧ h.withinRange g b x y z r = true ∧
          h.isActivated g b = true)) ∧
    (∀ i len, 0 < len → nearReach h g i p ≠ none →
      nearReach h g (i + len) p = nearReach h g i p →
      (∀ k, nearReach h g k p ≠ none) ∧
      ((∀ k b, k < i + len → nearReach h g k p = some b →
          ¬ (h.withinRange g b x y z r = true ∧ h.isActivated g b = true)) →
        ∀ fuel, nearWalk h g x y z r fuel p = none) ∧
      ((∀ a b c, h.getNear g a = some c → h.getNear g b = some c → a = b) →
        nearReach h g len p = p ∧
        ((∀ k b, i ≤ k → k < i + len → nearReach h g k p = some b →
            ¬ (h.withinRange g b x y z r = true ∧ h.isActivated g b = true)) →
          ∀ fuel, nearWalk h g x y z r fuel p = none)) ∧
      (∀ k b, nearReach h g k p = some b → h.withinRange g b x y z r = true →
        h.isActivated g b = true →
        ∀ fuel, k < fuel → nearWalk h g x y z r fuel p = some true)) ∧
    (∀ (fuel : Nat) (vis2 : ℚ) (o : Obj) (st : State Obj G),
      h.isActivated st.g o = false →
      h.backgroundPrepareComplete (h.queueBGPrepare o x y z st.g).2 o = true →
      ¬ h.range2 (h.queueBGPrepare o x y z st.g).2 o x y z / vis2 > 1 →
      (nearWalk h (h.queueBGPrepare o x y z st.g).2 x y z
          (st.s.visibility * st.s.fadeOverlapFactor) fuel
          (h.getNear (h.queueBGPrepare o x y z st.g).2 o) = none →
        (considerCandidate h fuel x y z vis2 o st).1 = Outcome.diverged ∧
        (considerCandidate h fuel x y z vis2 o st).2.trace =
          st.trace ++ [Event.candidate o, Event.queueBGPrepare o]) ∧
      (nearWalk h (h.queueBGPrepare o x y z st.g).2 x y z
          (st.s.visibility * st.s.fadeOverlapFactor) fuel
          (h.getNear (h.queueBGPrepare o x y z st.g).2 o) = some true →
        (considerCandidate h fuel x y z vis2 o st).1 = Outcome.ok () ∧
        (considerCandidate h fuel x y z vis2 o st).2.trace =
          st.trace ++ [Event.candidate o, Event.queueBGPrepare o, Event.deactivate o]) ∧
      (nearWalk h (h.queueBGPrepare o x y z st.g).2 x y z
          (st.s.visibility * st.s.fadeOverlapFactor) fuel
          (h.getNear (h.queueBGPrepare o x y z st.g).2 o) = some false →
        (considerCandidate h fuel x y z vis2 o st).1 = Outcome.ok () ∧
        ∃ evs, (considerCandidate h fuel x y z vis2 o st).2.trace =
          st.trace ++ [Event.candidate o, Event.queueBGPrepare o] ++ evs ∧
          Event.deactivate o ∉ evs)) := by
  refine ⟨?_, ?_, ?_⟩
  · intro n hn fuel hle
    have hterm := nearWalk_terminates h g x y z r n fuel p hn hle
    refine ⟨hterm, nearWalk_true_exists h g x y z r fuel p, ?_⟩
    rintro ⟨k, b, hk, hin, hact⟩
    have hnf := nearWalk_blocked h g x y z r b hin hact k fuel p hk
    cases hw : nearWalk h g x y z r fuel p with
    | none => exact absurd hw hterm
    | some c =>
      cases c with
      | true => rfl
      | false => exact absurd hw hnf
  · intro i len hlen hi hcyc
    have hnn := nearReach_cycle_never_none h g p i len hlen hi hcyc
    refine ⟨hnn, ?_, ?_, ?_⟩
    · intro hfree fuel
      apply nearWalk_diverges h g x y z r fuel p hnn
      intro k b hk
      obtain ⟨j, hj, hj2⟩ := nearReach_periodic h g p i len hlen hcyc k
      exact hfree j b hj (hj2 ▸ hk)
    · intro hinj
      refine ⟨nearReach_back h g p len hinj i hi hcyc, ?_⟩
      intro hfree fuel
      apply nearWalk_diverges h g x y z r fuel p hnn
      intro k b hk
      obtain ⟨j, hj1, hj2, hj3⟩ := nearReach_ring h g p i len hlen hi hcyc hinj k
      exact hfree j b hj1 hj2 (hj3 ▸ hk)
    · intro k b hk hin hact fuel hlt
      exact nearWalk_true_of_blocked h g x y z r b hin hact k fuel p hk hlt
  · intro fuel vis2 o st hna hcomplete hrange
    exact considerCandidate_walk h fuel x y z vis2 o st hna hcomplete hrange

/-- Witness for C21: the chain of "lo" in the sample pair ends after "hi",
and the walk for `ringA` of the sample ring, where no two objects share a
`near` and no object of the ring is activated, does not end. -/
theorem near_walk_witness :
    nearWalk (lodHooks loFirst hiSecond) (SampleWorld.initial []) 0 0 0 10 1
      (some hiSecond) ≠ none ∧
    (∀ fuel, nearWalk ringHooks ringWorld 0 0 0 10 fuel
      (ringHooks.getNear ringWorld ringA) = none) :=
  ⟨((near_walk (lodHooks loFirst hiSecond) (SampleWorld.initial []) 0 0 0 10
      (some hiSecond)).1 1 (by decide!) 1 (le_refl 1)).1,
    (((near_walk ringHooks ringWorld 0 0 0 10 (ringHooks.getNear ringWorld ringA)).2.1 0 3
      (by decide) (by decide!) (by decide!)).2.2.1
      (fun a b c ha hb => ringNear_injective a b c ha hb)).2
      (fun k b _ hk hb hc => by
        have hbl : b = distant := by
          have := hc.2
          simpa [ringHooks, sampleHooks, ringWorld] using this
        subst hbl
        have h0 : nearReach ringHooks ringWorld 0 (ringHooks.getNear ringWorld ringA) ≠
            some distant := by decide!
        have h1 : nearReach ringHooks ringWorld 1 (ringHooks.getNear ringWorld ringA) ≠
            some distant := by decide!
        have h2 : nearReach ringHooks ringWorld 2 (ringHooks.getNear ringWorld ringA) ≠
            some distant := by decide!
        have hk3 : k = 0 ∨ k = 1 ∨ k = 2 := by omega
        rcases hk3 with hk3 | hk3 | hk3
        · subst hk3
          exact h0 hb
        · subst hk3
          exact h1 hb
        · subst hk3
          exact h2 hb)⟩

end PassTheorems

/-! ## Theorems about the interpolation table -/

section SplineTheorems

variable {T : Type} [LinearOrderedField T]

/-- C1: after any sequence of `addPoint` calls on a fresh table followed by
`commit()`, `operator[]` evaluated at the x of any stored sample `(x, y)`
returns exactly `y` (minimum, maximum and interior samples alike). -/
theorem evaluate_at_sample (calls : List (T × T)) (x y : T)
    (hmem : (x, y) ∈ (build calls).commit.points) :
    ((build calls).commit.evaluate x).1 = EvalResult.value y := by
  apply evaluate_sample_of_sorted _ _ x y hmem
  rw [commit_points]
  exact build_sorted calls

/-- Witness for C1: three `addPoint` calls out of order, evaluated at the
interior sample. -/
theorem evaluate_at_sample_witness :
    (((2 : ℚ), (7 : ℚ)) ∈ (build [((1 : ℚ), (2 : ℚ)), (3, 5), (2, 7)]).commit.points) ∧
    ((build [((1 : ℚ), (2 : ℚ)), (3, 5), (2, 7)]).commit.evaluate 2).1 = EvalResult.value 7 :=
  ⟨by decide, evaluate_at_sample [((1 : ℚ), (2 : ℚ)), (3, 5), (2, 7)] 2 7 (by decide)⟩

/-- C4: a table holding exactly the two points `(x0, y0)`, `(x1, y1)` with
`x0 < x1` evaluates, after `commit()`, to the line through them at every `x`:
below `x0`, between the samples and above `x1`. -/
theorem evaluate_two_points (x0 y0 x1 y1 : T) (tg : Map T) (hlt : x0 < x1) (x : T) :
    ((SplineTable.mk [(x0, y0), (x1, y1)] tg).commit.evaluate x).1 =
      EvalResult.value (y0 + (x - x0) * (y1 - y0) / (x1 - x0)) := by
  have hne : x1 - x0 ≠ 0 := sub_ne_zero.mpr (ne_of_gt hlt)
  have hc : (SplineTable.mk [(x0, y0), (x1, y1)] tg).commit =
      ⟨[(x0, y0), (x1, y1)],
        mapAssign (mapAssign tg x1 (slope (x0, y0) (x1, y1))) x0 (slope (x0, y0) (x1, y1))⟩ := by
    simp [SplineTable.commit]
  have f0 : mapFind (mapAssign (mapAssign tg x1 (slope (x0, y0) (x1, y1))) x0
      (slope (x0, y0) (x1, y1))) x0 = some (slope (x0, y0) (x1, y1)) :=
    mapFind_mapAssign_self _ _ _
  have f1 : mapFind (mapAssign (mapAssign tg x1 (slope (x0, y0) (x1, y1))) x0
      (slope (x0, y0) (x1, y1))) x1 = some (slope (x0, y0) (x1, y1)) := by
    rw [mapFind_mapAssign_ne _ _ _ _ (ne_of_gt hlt), mapFind_mapAssign_self]
  have p0 : mapFind [(x0, y0), (x1, y1)] x0 = some y0 := by simp [mapFind]
  have p1 : mapFind [(x0, y0), (x1, y1)] x1 = some y1 := by
    simp [mapFind, ne_of_lt hlt]
  rw [hc]
  simp only [SplineTable.evaluate, minX, maxX, List.getLast_cons_cons, List.getLast_singleton]
  by_cases h1 : x ≤ x0
  · rw [if_pos h1]
    simp only [mapIndex_fst_of_find _ _ _ p0, mapIndex_fst_of_find _ _ _ f0]
    simp only [slope]
    congr 1
    field_simp
  · rw [if_neg h1]
    by_cases h2 : x ≥ x1
    · rw [if_pos h2]
      simp only [mapIndex_fst_of_find _ _ _ p1, mapIndex_fst_of_find _ _ _ f1]
      simp only [slope]
      congr 1
      field_simp
      ring
    · rw [if_neg h2]
      have h3 : ¬ x0 > x := fun h => h1 (le_of_lt h)
      have h4 : x1 > x := lt_of_not_ge h2
      simp only [scan, h3, h4, if_true, if_false, mapIndex_fst_of_find _ _ _ f0,
        mapIndex_snd_of_find _ _ _ f0, mapIndex_fst_of_find _ _ _ f1]
      simp only [slope, hermite]
      congr 1
      field_simp
      ring

/-- Witness for C4: the points `(1, 2)`, `(3, 8)` over a stale tangent map,
evaluated above the last sample. -/
theorem evaluate_two_points_witness :
    ((1 : ℚ) < 3) ∧
    ((SplineTable.mk [((1 : ℚ), (2 : ℚ)), (3, 8)] [(1, 100)]).commit.evaluate 5).1 =
      EvalResult.value (2 + (5 - 1) * (8 - 2) / (3 - 1)) :=
  ⟨by norm_num, evaluate_two_points 1 2 3 8 [(1, 100)] (by norm_num) 5⟩

/-- C7: for every table a client can reach, `commit()` leaves `tangents` with
exactly the keys of `points`, holding `0` for a single point, the secant
slope of the first two points at the first key, the secant slope of the last
two points at the last key (so both keys of a two-point table hold the one
secant slope), and the central difference of its two neighbours at every
interior key. -/
theorem commit_tangents (st : SplineTable T) (hr : Reachable st) :
    mapKeys st.commit.tangents = mapKeys st.points ∧
    (∀ a, st.points = [a] → mapFind st.commit.tangents a.1 = some 0) ∧
    (∀ a b rest, st.points = a :: b :: rest →
      mapFind st.commit.tangents a.1 = some ((b.2 - a.2) / (b.1 - a.1))) ∧
    (∀ pre a b, st.points = pre ++ [a, b] →
      mapFind st.commit.tangents b.1 = some ((b.2 - a.2) / (b.1 - a.1))) ∧
    (∀ pre a b c post, st.points = pre ++ a :: b :: c :: post →
      mapFind st.commit.tangents b.1 = some ((c.2 - a.2) / (c.1 - a.1))) := by
  obtain ⟨hp, ht, hk⟩ := reachable_wellFormed st hr
  refine ⟨?_, commit_values st.points st.tangents hp⟩
  apply mapKeys_eq_of_same_keys _ _ (commit_tangents_sorted st ht) hp
  intro k
  constructor
  · intro h
    rcases commit_keys_subset st.points st.tangents k h with h | h
    · exact hk k h
    · exact h
  · exact commit_keys_superset st.points st.tangents hp k

/-- Witness for C7: three points, with a read and a two-point commit before
the third insertion, so the tangent map holds stale entries. -/
theorem commit_tangents_witness :
    Reachable ((((SplineTable.empty.addPoint (1 : ℚ) 2).addPoint 3 5).commit.evaluate 2).2.addPoint
      2 7) ∧
    mapFind ((((SplineTable.empty.addPoint (1 : ℚ) 2).addPoint 3 5).commit.evaluate 2).2.addPoint
      2 7).commit.tangents 2 = some ((5 - 2) / (3 - 1)) :=
  ⟨Reachable.addPoint _ _ _ (Reachable.evaluate _ _ (Reachable.commit _
      (Reachable.addPoint _ _ _ (Reachable.addPoint _ _ _ Reachable.empty)))),
    (commit_tangents _ (Reachable.addPoint _ _ _ (Reachable.evaluate _ _ (Reachable.commit _
      (Reachable.addPoint _ _ _ (Reachable.addPoint _ _ _ Reachable.empty)))))).2.2.2.2
      [] (1, 2) (2, 7) (3, 5) [] (by decide!)⟩

/-- C11: for every table (any `points`, any `tangents`, committed or not) and
every `x`, `operator[]` returns a value: it neither reaches the `abort()`
after the scan nor reads `x0`, `y0` before they are assigned. -/
theorem evaluate_never_aborts (st : SplineTable T) (x : T) :
    (∃ r, (st.evaluate x).1 = EvalResult.value r) ∧
    (st.evaluate x).1 ≠ EvalResult.aborted ∧
    (st.evaluate x).1 ≠ EvalResult.uninitialised := by
  have key : ∃ r, (st.evaluate x).1 = EvalResult.value r := by
    unfold SplineTable.evaluate
    split
    · exact ⟨_, rfl⟩
    · exact ⟨_, rfl⟩
    · rename_i p q rest h
      dsimp only
      by_cases h1 : x ≤ minX p (q :: rest)
      · rw [if_pos h1]
        exact ⟨_, rfl⟩
      · rw [if_neg h1]
        by_cases h2 : x ≥ maxX p (q :: rest)
        · rw [if_pos h2]
          exact ⟨_, rfl⟩
        · rw [if_neg h2]
          simp only
          apply scan_returns_value
          · refine ⟨(p :: q :: rest).getLast (by simp), ?_, lt_of_not_ge h2⟩
            rw [h]
            exact List.getLast_mem _
          · intro _ p2 hp2
            rw [h] at hp2
            simp only [List.head?_cons, Option.some.injEq] at hp2
            rw [← hp2]
            exact fun hc => h1 (le_of_lt hc)
  obtain ⟨r, hr⟩ := key
  exact ⟨⟨r, hr⟩, by rw [hr]; simp, by rw [hr]; simp⟩

/-- C17: in a table whose `points` hold the consecutive samples `a`, `b`, `c`
(so `b` is an interior sample), `operator[]` is the cubic Hermite expression
of `a` and `b` on `[a.x, b.x)` and that of `b` and `c` on `[b.x, c.x)`; the
first takes the value `b.y` at `x = b.x` and so does the second, whatever the
tangent values; `operator[]` returns `b.y` at `b.x`, and it is continuous
there: for every `ε > 0` there is a `δ > 0` such that every `x` within `δ`
of `b.x`, on either side, is mapped to a value within `ε` of `b.y`. -/
theorem evaluate_continuous_at_knot (st : SplineTable T) (pre : List (T × T)) (a b c : T × T)
    (post : List (T × T)) (hp : st.points = pre ++ a :: b :: c :: post)
    (hs : MapSorted st.points) :
    (∀ x, a.1 ≤ x → x < b.1 →
      (st.evaluate x).1 = EvalResult.value (hermite x a.1 a.2 b.1 b.2 (mapIndex st.tangents a.1).1
        (mapIndex (mapIndex st.tangents a.1).2 b.1).1)) ∧
    (∀ m0 m1, hermite b.1 a.1 a.2 b.1 b.2 m0 m1 = b.2) ∧
    (∀ x, b.1 ≤ x → x < c.1 →
      (st.evaluate x).1 = EvalResult.value (hermite x b.1 b.2 c.1 c.2 (mapIndex st.tangents b.1).1
        (mapIndex (mapIndex st.tangents b.1).2 c.1).1)) ∧
    (∀ m0 m1, hermite b.1 b.1 b.2 c.1 c.2 m0 m1 = b.2) ∧
    (st.evaluate b.1).1 = EvalResult.value b.2 ∧
    (∀ ε, 0 < ε → ∃ δ, 0 < δ ∧ ∀ x, |x - b.1| < δ →
      ∃ v, (st.evaluate x).1 = EvalResult.value v ∧ |v - b.2| < ε) := by
  have hab : a.1 < b.1 := sorted_append_lt pre a b (c :: post) (hp ▸ hs)
  have hp2 : st.points = (pre ++ [a]) ++ b :: c :: post := by simp [hp]
  have hbc : b.1 < c.1 := sorted_append_lt (pre ++ [a]) b c post (hp2 ▸ hs)
  have hleft : ∀ x, a.1 ≤ x → x < b.1 →
      (st.evaluate x).1 = EvalResult.value (hermite x a.1 a.2 b.1 b.2
        (mapIndex st.tangents a.1).1 (mapIndex (mapIndex st.tangents a.1).2 b.1).1) :=
    fun x hax hxb => evaluate_interval st pre a b (c :: post) x hp hs hax hxb
  have hright : ∀ x, b.1 ≤ x → x < c.1 →
      (st.evaluate x).1 = EvalResult.value (hermite x b.1 b.2 c.1 c.2
        (mapIndex st.tangents b.1).1 (mapIndex (mapIndex st.tangents b.1).2 c.1).1) :=
    fun x hbx hxc => evaluate_interval st (pre ++ [a]) b c post x hp2 hs hbx hxc
  have hl : ∀ m0 m1, hermite b.1 a.1 a.2 b.1 b.2 m0 m1 = b.2 :=
    fun m0 m1 => hermite_right a.1 a.2 b.1 b.2 m0 m1 (ne_of_lt hab)
  have hr : ∀ m0 m1, hermite b.1 b.1 b.2 c.1 c.2 m0 m1 = b.2 :=
    fun m0 m1 => hermite_left b.1 b.2 c.1 c.2 m0 m1
  refine ⟨hleft, hl, hright, hr, ?_, ?_⟩
  · rw [hright b.1 (le_refl _) hbc, hr]
  · intro ε hε
    obtain ⟨δ1, hδ1, h1⟩ := hermite_continuous a.1 a.2 b.1 b.2 (mapIndex st.tangents a.1).1
      (mapIndex (mapIndex st.tangents a.1).2 b.1).1 b.1 ε hε
    obtain ⟨δ2, hδ2, h2⟩ := hermite_continuous b.1 b.2 c.1 c.2 (mapIndex st.tangents b.1).1
      (mapIndex (mapIndex st.tangents b.1).2 c.1).1 b.1 ε hε
    refine ⟨min (min δ1 δ2) (min (b.1 - a.1) (c.1 - b.1)), ?_, ?_⟩
    · exact lt_min (lt_min hδ1 hδ2) (lt_min (sub_pos.mpr hab) (sub_pos.mpr hbc))
    · intro x hx
      have hx1 : |x - b.1| < δ1 :=
        lt_of_lt_of_le hx (le_trans (min_le_left _ _) (min_le_left _ _))
      have hx2 : |x - b.1| < δ2 :=
        lt_of_lt_of_le hx (le_trans (min_le_left _ _) (min_le_right _ _))
      have hx3 : |x - b.1| < b.1 - a.1 :=
        lt_of_lt_of_le hx (le_trans (min_le_right _ _) (min_le_left _ _))
      have hx4 : |x - b.1| < c.1 - b.1 :=
        lt_of_lt_of_le hx (le_trans (min_le_right _ _) (min_le_right _ _))
      rw [abs_lt] at hx3 hx4
      by_cases hxb : x < b.1
      · refine ⟨_, hleft x (by linarith [hx3.1]) hxb, ?_⟩
        have := h1 x hx1
        rwa [hl] at this
      · refine ⟨_, hright x (not_lt.mp hxb) (by linarith [hx4.2]), ?_⟩
        have := h2 x hx2
        rwa [hr] at this

/-- Witness for C17: the committed table of `(1, 2)`, `(2, 7)`, `(3, 5)` at its
interior sample. -/
theorem evaluate_continuous_at_knot_witness :
    ((build [((1 : ℚ), (2 : ℚ)), (2, 7), (3, 5)]).commit.evaluate 2).1 = EvalResult.value 7 ∧
    (∀ ε : ℚ, 0 < ε → ∃ δ, 0 < δ ∧ ∀ x, |x - 2| < δ →
      ∃ v, ((build [((1 : ℚ), (2 : ℚ)), (2, 7), (3, 5)]).commit.evaluate x).1 =
        EvalResult.value v ∧ |v - 7| < ε) :=
  ⟨(evaluate_continuous_at_knot (build [((1 : ℚ), (2 : ℚ)), (2, 7), (3, 5)]).commit
      [] (1, 2) (2, 7) (3, 5) [] (by decide!)
      (by rw [commit_points]; exact build_sorted _)).2.2.2.2.1,
    (evaluate_continuous_at_knot (build [((1 : ℚ), (2 : ℚ)), (2, 7), (3, 5)]).commit
      [] (1, 2) (2, 7) (3, 5) [] (by decide!)
      (by rw [commit_points]; exact build_sorted _)).2.2.2.2.2⟩

/-- C18, amended: in every table reachable from a fresh one by `addPoint`,
`commit` and `operator[]` calls, `tangents` has at most as many entries as
`points`; and after a `commit()`, followed by any number of `operator[]`
calls, the two maps have the same number of entries. -/
theorem tangents_size (st : SplineTable T) (hr : Reachable st) (xs : List T) :
    st.tangents.length ≤ st.points.length ∧
    (xs.foldl (fun s x => (s.evaluate x).2) st.commit).tangents.length =
      (xs.foldl (fun s x => (s.evaluate x).2) st.commit).points.length := by
  have hw := reachable_wellFormed st hr
  have hk : mapKeys st.commit.tangents = mapKeys st.commit.points := by
    rw [commit_points]
    exact commit_keys_eq st hw
  refine ⟨tangents_length_le st hw, ?_⟩
  rw [evaluate_all_of_keys_eq xs st.commit hk]
  have := congrArg List.length hk
  simpa [mapKeys] using this

/-- Witness for C18 (amended): two insertions, a commit and two reads. -/
theorem tangents_size_witness :
    Reachable ((SplineTable.empty.addPoint (1 : ℚ) 2).addPoint 3 5) ∧
    ([(2 : ℚ), 7].foldl (fun s x => (s.evaluate x).2)
      ((SplineTable.empty.addPoint (1 : ℚ) 2).addPoint 3 5).commit).tangents.length =
    ([(2 : ℚ), 7].foldl (fun s x => (s.evaluate x).2)
      ((SplineTable.empty.addPoint (1 : ℚ) 2).addPoint 3 5).commit).points.length :=
  ⟨Reachable.addPoint _ _ _ (Reachable.addPoint _ _ _ Reachable.empty),
    (tangents_size _ (Reachable.addPoint _ _ _ (Reachable.addPoint _ _ _ Reachable.empty))
      [2, 7]).2⟩

/-- Counterexample for C18 as stated: after the single call `addPoint(1, 2)` on
a fresh table, `points` has one entry and `tangents` has none. -/
theorem tangents_size_differs :
    Reachable (SplineTable.empty.addPoint (1 : ℚ) 2) ∧
    (SplineTable.empty.addPoint (1 : ℚ) 2).points.length = 1 ∧
    (SplineTable.empty.addPoint (1 : ℚ) 2).tangents.length = 0 :=
  ⟨Reachable.addPoint _ _ _ Reachable.empty, by decide, by decide⟩

/-- C19: on a table with no points `operator[]` returns `0` for every `x`, and
on a table with the single point `(x0, y0)` it returns `y0` for every `x`,
before and after `commit()` and whatever `tangents` holds. -/
theorem evaluate_degenerate (tg : Map T) (x : T) :
    ((SplineTable.mk [] tg).evaluate x).1 = EvalResult.value 0 ∧
    ((SplineTable.mk [] tg).commit.evaluate x).1 = EvalResult.value 0 ∧
    (∀ x0 y0 : T, ((SplineTable.mk [(x0, y0)] tg).evaluate x).1 = EvalResult.value y0) ∧
    (∀ x0 y0 : T, ((SplineTable.mk [(x0, y0)] tg).commit.evaluate x).1 =
      EvalResult.value y0) := by
  refine ⟨rfl, rfl, fun _ _ => rfl, fun _ _ => rfl⟩

/-- C20: a table whose points are at least two and all lie on the line
`y = A * x + B` evaluates, after `commit()`, to `A * x + B` at every `x`:
inside every interval, at every sample and in both extrapolation regions. -/
theorem evaluate_linear_precision (pts tg : Map T) (hs : MapSorted pts)
    (hlen : 2 ≤ pts.length) (A B : T) (hline : ∀ p, p ∈ pts → p.2 = A * p.1 + B) (x : T) :
    ((SplineTable.mk pts tg).commit.evaluate x).1 = EvalResult.value (A * x + B) := by
  have hfind := commit_find_collinear pts tg hs hlen A B hline
  have hpts : (SplineTable.mk pts tg).commit.points = pts := commit_points _
  generalize hst : (SplineTable.mk pts tg).commit = st at hfind hpts
  match pts, hs, hlen, hline, hfind, hpts with
  | [], _, hlen, _, _, _ => simp at hlen
  | [_], _, hlen, _, _, _ => simp at hlen
  | p :: q :: rest, hs, _, hline, hfind, hpts =>
    have hlast : (p :: q :: rest).getLast (by simp) ∈ p :: q :: rest := List.getLast_mem _
    by_cases h1 : x ≤ p.1
    · have he : (st.evaluate x).1 = EvalResult.value
          ((mapIndex st.points p.1).1 + (x - p.1) * (mapIndex st.tangents p.1).1) := by
        simp only [SplineTable.evaluate, hpts, minX, if_pos h1]
      rw [he, hpts, mapIndex_fst_of_mem _ hs p.1 p.2 (by simp),
        mapIndex_fst_of_find _ _ _ (hfind p (by simp)), hline p (by simp)]
      congr 1
      ring
    · by_cases h2 : x ≥ maxX p (q :: rest)
      · have he : (st.evaluate x).1 = EvalResult.value
            ((mapIndex st.points (maxX p (q :: rest))).1 +
              (x - maxX p (q :: rest)) * (mapIndex st.tangents (maxX p (q :: rest))).1) := by
          simp only [SplineTable.evaluate, hpts, minX, if_neg h1, if_pos h2]
        obtain ⟨lst, hlm, hle⟩ : ∃ lst, lst ∈ p :: q :: rest ∧ maxX p (q :: rest) = lst.1 :=
          ⟨_, hlast, rfl⟩
        rw [he, hle, hpts, mapIndex_fst_of_mem _ hs lst.1 lst.2 hlm,
          mapIndex_fst_of_find _ _ _ (hfind lst hlm), hline lst hlm]
        congr 1
        ring
      · obtain ⟨pre, a, b, post, hd, ha, hb⟩ := exists_bracket (q :: rest) x p
          (le_of_lt (not_le.mp h1))
          ⟨(p :: q :: rest).getLast (by simp), by
            rw [List.getLast_cons (by simp)]
            exact List.getLast_mem _, by
            simpa [maxX] using not_le.mp h2⟩
        have hamem : a ∈ p :: q :: rest := by rw [hd]; simp
        have hbmem : b ∈ p :: q :: rest := by rw [hd]; simp
        rw [evaluate_interval st pre a b post x (hpts.trans hd) (hpts ▸ hs) ha hb,
          mapIndex_snd_of_find _ _ _ (hfind a hamem), mapIndex_fst_of_find _ _ _ (hfind a hamem),
          mapIndex_fst_of_find _ _ _ (hfind b hbmem), hline a hamem, hline b hbmem,
          hermite_linear x a.1 b.1 A B (ne_of_lt (sorted_append_lt pre a b post (hd ▸ hs)))]

/-- Witness for C20: three points on `y = 2 * x + 1`, over a stale tangent
map, read between the second and third sample. -/
theorem evaluate_linear_precision_witness :
    ((SplineTable.mk [((0 : ℚ), (1 : ℚ)), (1, 3), (4, 9)] [(1, 50)]).commit.evaluate 3).1 =
      EvalResult.value (2 * 3 + 1) :=
  evaluate_linear_precision [((0 : ℚ), (1 : ℚ)), (1, 3), (4, 9)] [(1, 50)]
    (by simp [MapSorted]) (by simp) 2 1
    (by
      intro p hp
      simp only [List.mem_cons, List.mem_singleton, List.not_mem_nil, or_false] at hp
      rcases hp with h | h | h <;> subst h <;> norm_num) 3

end SplineTheorems

end Grit
